import Mathlib

/-!
# The TAS container format: `read_index` and `get_data`

A shallow embedding of `tas_format.hpp` (namespace `tas`) and of the `TASERR`
macro of `log.hpp`.

Conventions of the embedding.

* A file is the list of its bytes; the file system is a function from file
  names to `Option` file contents (`none`: `fopen` returns `NULL`).
* The structs are read by `fread` straight into memory, so a struct value is
  decoded from its in-memory representation: member offsets follow the
  natural-alignment rule of the LP64 C ABI (`unsigned long` has size and
  alignment 8, `int` 4, `short` 2, `char` 1) and integers are little-endian.
* `exit(-1)` inside `TASERR` ends the run: a run is a list of printed
  messages and an outcome (`returned`, `exited`, `thrown`).
* The libraries the header only calls (boost `from_string`, zlib inflation,
  Crypto++ SHA-256), the `CHECKSUMS` compile flag, the sizes `malloc` grants and
  the indeterminate content of freshly `malloc`ed memory are the fields of
  `Externals`.
* `malloc` is not checked by the header. A null buffer that `fread` or the
  record loop uses ends the run as `undefined`; `uncompress` answers a null
  destination with `Z_STREAM_ERROR`. The file being read fits into memory: a
  buffer no longer than the file is granted.
* The loop counters `int c` and `int i` range over entry and record counts
  below `2^31`.
-/

set_option maxRecDepth 100000
set_option autoImplicit false

namespace tas

/-! ## Bytes and machine integers -/

/-- One byte of a file or of memory. -/
abbrev Byte := Fin 256

/-- The bytes of an ASCII string literal (without the terminating NUL). -/
def str_bytes (s : String) : List Byte :=
  s.toList.map (fun c => Fin.ofNat c.toNat)

/-- Little-endian value of a byte sequence (an unsigned integer in memory). -/
def le_nat : List Byte → Nat
  | [] => 0
  | b :: bs => b.val + 256 * le_nat bs

/-- The `k` little-endian bytes of `n` (the low `8*k` bits). -/
def le_bytes : Nat → Nat → List Byte
  | 0, _ => []
  | k + 1, n => Fin.ofNat (n % 256) :: le_bytes k (n / 256)

/-- Two's-complement reading of a `w`-bit pattern. -/
def to_signed (w : Nat) (n : Nat) : Int :=
  if n < 2 ^ (w - 1) then (n : Int) else (n : Int) - 2 ^ w

/-- The `w`-bit two's-complement pattern of an integer. -/
def of_signed (w : Nat) (x : Int) : Nat :=
  (x % 2 ^ w).toNat

/-! ## Struct layout -/

/-- A struct member: its size and alignment in bytes. -/
structure Member where
  size : Nat
  align : Nat
deriving DecidableEq, Repr

/-- Round `pos` up to a multiple of `a`. -/
def align_up (pos a : Nat) : Nat :=
  (pos + a - 1) / a * a

/-- Offsets of the members of a struct laid out from position `pos`. -/
def offsets_from : Nat → List Member → List Nat
  | _, [] => []
  | pos, m :: ms => align_up pos m.align :: offsets_from (align_up pos m.align + m.size) ms

/-- Position just past the last member. -/
def end_from : Nat → List Member → Nat
  | pos, [] => pos
  | pos, m :: ms => end_from (align_up pos m.align + m.size) ms

/-- Alignment of a struct: the largest member alignment. -/
def struct_align (ms : List Member) : Nat :=
  ms.foldl (fun a m => max a m.align) 1

/-- The value of `sizeof` for a struct with the given members. -/
def sizeof (ms : List Member) : Nat :=
  align_up (end_from 0 ms) (struct_align ms)

/-- The value of `offsetof` for member number `i`. -/
def offsetof (ms : List Member) (i : Nat) : Nat :=
  (offsets_from 0 ms).getD i 0

/-- Member `char name[n]` or `unsigned char name[n]`. -/
def char_array (n : Nat) : Member := ⟨n, 1⟩

/-- Member of type `unsigned char`. -/
def uchar_member : Member := ⟨1, 1⟩

/-- Member of type `unsigned long` (LP64). -/
def ulong_member : Member := ⟨8, 8⟩

/-- Member of type `int`. -/
def int_member : Member := ⟨4, 4⟩

/-- Member of type `short`. -/
def short_member : Member := ⟨2, 2⟩

/-- Members of `struct TASHeader`, in declaration order. -/
def TASHeader_members : List Member :=
  [char_array 10, uchar_member, uchar_member, char_array 12, char_array 32,
   ulong_member, ulong_member]

/-- Members of `struct TASIndex`, in declaration order. -/
def TASIndex_members : List Member :=
  [char_array 10, ulong_member, ulong_member, ulong_member, char_array 32]

/-- Members of `struct TASLine`, in declaration order. -/
def TASLine_members : List Member :=
  [int_member, int_member, int_member, int_member, int_member,
   short_member, short_member, char_array 4]

/-- The bytes of the member at offset `off` with `size` bytes. -/
def member_bytes (mem : List Byte) (off size : Nat) : List Byte :=
  (mem.drop off).take size

/-! ## The three structs -/

/-- Value of `struct TASHeader`. -/
structure TASHeader where
  identifier : List Byte
  version : Nat
  ex : Nat
  symbol : List Byte
  index_sha256 : List Byte
  index_start : Nat
  index_size : Nat
deriving DecidableEq, Repr

/-- Value of `struct TASIndex`. -/
structure TASIndex where
  date : List Byte
  offset : Nat
  size_compressed : Nat
  size_uncompressed : Nat
  sha256 : List Byte
deriving DecidableEq, Repr

/-- Value of `struct TASLine`. -/
structure TASLine where
  time : Int
  bid : Int
  ask : Int
  vol_bid : Int
  vol_ask : Int
  mode_or_g127 : Int
  corr : Int
  mmid_or_cond : List Byte
deriving DecidableEq, Repr

/-- The header held by the memory `mem` that `fread` filled. -/
def TASHeader.of_bytes (mem : List Byte) : TASHeader :=
  { identifier := member_bytes mem (offsetof TASHeader_members 0) 10
    version := le_nat (member_bytes mem (offsetof TASHeader_members 1) 1)
    ex := le_nat (member_bytes mem (offsetof TASHeader_members 2) 1)
    symbol := member_bytes mem (offsetof TASHeader_members 3) 12
    index_sha256 := member_bytes mem (offsetof TASHeader_members 4) 32
    index_start := le_nat (member_bytes mem (offsetof TASHeader_members 5) 8)
    index_size := le_nat (member_bytes mem (offsetof TASHeader_members 6) 8) }

/-- The index entry held by the memory `mem` (one element of `idx`). -/
def TASIndex.of_bytes (mem : List Byte) : TASIndex :=
  { date := member_bytes mem (offsetof TASIndex_members 0) 10
    offset := le_nat (member_bytes mem (offsetof TASIndex_members 1) 8)
    size_compressed := le_nat (member_bytes mem (offsetof TASIndex_members 2) 8)
    size_uncompressed := le_nat (member_bytes mem (offsetof TASIndex_members 3) 8)
    sha256 := member_bytes mem (offsetof TASIndex_members 4) 32 }

/-- The record held by the memory `mem` (one element of `uncompressed`). -/
def TASLine.of_bytes (mem : List Byte) : TASLine :=
  { time := to_signed 32 (le_nat (member_bytes mem (offsetof TASLine_members 0) 4))
    bid := to_signed 32 (le_nat (member_bytes mem (offsetof TASLine_members 1) 4))
    ask := to_signed 32 (le_nat (member_bytes mem (offsetof TASLine_members 2) 4))
    vol_bid := to_signed 32 (le_nat (member_bytes mem (offsetof TASLine_members 3) 4))
    vol_ask := to_signed 32 (le_nat (member_bytes mem (offsetof TASLine_members 4) 4))
    mode_or_g127 := to_signed 16 (le_nat (member_bytes mem (offsetof TASLine_members 5) 2))
    corr := to_signed 16 (le_nat (member_bytes mem (offsetof TASLine_members 6) 2))
    mmid_or_cond := member_bytes mem (offsetof TASLine_members 7) 4 }

/-- The in-memory representation of a record: the packed serialisation
`time(4) bid(4) ask(4) vol_bid(4) vol_ask(4) mode_or_g127(2) corr(2)
mmid_or_cond[4]`. -/
def TASLine.to_bytes (l : TASLine) : List Byte :=
  le_bytes 4 (of_signed 32 l.time) ++ le_bytes 4 (of_signed 32 l.bid) ++
  le_bytes 4 (of_signed 32 l.ask) ++ le_bytes 4 (of_signed 32 l.vol_bid) ++
  le_bytes 4 (of_signed 32 l.vol_ask) ++ le_bytes 2 (of_signed 16 l.mode_or_g127) ++
  le_bytes 2 (of_signed 16 l.corr) ++ l.mmid_or_cond

/-- A record whose members hold values of their C types. -/
def TASLine.representable (l : TASLine) : Prop :=
  (-(2 : Int) ^ 31 ≤ l.time ∧ l.time < 2 ^ 31) ∧
  (-(2 : Int) ^ 31 ≤ l.bid ∧ l.bid < 2 ^ 31) ∧
  (-(2 : Int) ^ 31 ≤ l.ask ∧ l.ask < 2 ^ 31) ∧
  (-(2 : Int) ^ 31 ≤ l.vol_bid ∧ l.vol_bid < 2 ^ 31) ∧
  (-(2 : Int) ^ 31 ≤ l.vol_ask ∧ l.vol_ask < 2 ^ 31) ∧
  (-(2 : Int) ^ 15 ≤ l.mode_or_g127 ∧ l.mode_or_g127 < 2 ^ 15) ∧
  (-(2 : Int) ^ 15 ≤ l.corr ∧ l.corr < 2 ^ 15) ∧
  l.mmid_or_cond.length = 4

instance (l : TASLine) : Decidable l.representable := by
  unfold TASLine.representable
  infer_instance

/-- The packed serialisations of a record sequence, concatenated in order. -/
def pack_lines : List TASLine → List Byte
  | [] => []
  | l :: ls => l.to_bytes ++ pack_lines ls

/-! ## The index map -/

/-- A `boost::gregorian::date`, represented by its day number; dates compare
by day number. -/
abbrev Date := Nat

/-- The type `std::map<boost::gregorian::date, TASIndex>`: the entries in
ascending key order. -/
abbrev TASIndexMap := List (Date × TASIndex)

/-- The well-formed maps: keys strictly ascending. -/
def TASIndexMap.ordered (m : TASIndexMap) : Prop :=
  List.Pairwise (fun a b => a.1 < b.1) m

/-- Lookup `std::map::find`: the entry of key `d`, `none` for `end()`. -/
def TASIndexMap.find : TASIndexMap → Date → Option TASIndex
  | [], _ => none
  | (k, v) :: rest, d => if k = d then some v else TASIndexMap.find rest d

/-- Insertion `std::map::insert`: adds the pair at its place in key order; when
the key is already present the map is left as it is. -/
def TASIndexMap.insert : TASIndexMap → Date → TASIndex → TASIndexMap
  | [], d, e => [(d, e)]
  | (k, v) :: rest, d, e =>
    if d < k then (d, e) :: (k, v) :: rest
    else if d = k then (k, v) :: rest
    else (k, v) :: TASIndexMap.insert rest d e

/-- Assignment to `it->second.size_uncompressed` for the iterator that `find`
returned for key `d`. -/
def TASIndexMap.set_size_uncompressed : TASIndexMap → Date → Nat → TASIndexMap
  | [], _, _ => []
  | (k, v) :: rest, d, n =>
    if k = d then (k, { v with size_uncompressed := n }) :: rest
    else (k, v) :: TASIndexMap.set_size_uncompressed rest d n

/-! ## The environment -/

/-- Result of inflating a zlib stream to the end. -/
inductive Inflated where
  | stream (bytes : List Byte)
  | data_error
  | mem_error
deriving DecidableEq, Repr

/-- What the header takes from outside: the libraries it calls, the build
flag and the content of fresh memory. -/
structure Externals where
  /-- The function `boost::gregorian::from_string`; `none` when it throws. -/
  from_string : List Byte → Option Date
  /-- The data a zlib stream inflates to. -/
  inflate : List Byte → Inflated
  /-- The SHA-256 digest of a byte sequence. -/
  sha256 : List Byte → List Byte
  /-- Whether the header is compiled with `CHECKSUMS` defined. -/
  checksums : Bool
  /-- The indeterminate byte at each position of a block from `malloc`. -/
  heap : Nat → Byte
  /-- Whether `malloc` returns a block of the given size (`true`) or `NULL`. -/
  grants : Nat → Bool

/-- The file system: the content of each file that `fopen` can open. -/
abbrev FileSystem := String → Option (List Byte)

/-- The call `malloc(n)`: a block of `n` bytes of indeterminate content, or
`none` for `NULL`. -/
def malloc (x : Externals) (n : Nat) : Option (List Byte) :=
  if x.grants n then some ((List.range n).map x.heap) else none

/-- Whether `malloc(n)` returns a block in a run that reads a file of `len`
bytes: a size of at most `len` is granted, for a larger size the environment
decides. -/
def granted (x : Externals) (len n : Nat) : Bool :=
  decide (n ≤ len) || x.grants n

/-- The call `fseek(file, offset, SEEK_SET)` for an `unsigned long` offset:
the new position; an offset that is negative as a `long` makes the call fail
and leaves the position `pos` in place. -/
def fseek (pos offset : Nat) : Nat :=
  if offset < 2 ^ 63 then offset else pos

/-- The bytes `fread(buf, 1, count, file)` delivers at position `pos`; their
number is the return value. -/
def fread (file : List Byte) (pos count : Nat) : List Byte :=
  (file.drop pos).take count

/-- The function `strncmp`: compares at most `n` characters and stops after a
NUL; reading the end of a string yields its NUL terminator. -/
def strncmp : List Byte → List Byte → Nat → Int
  | _, _, 0 => 0
  | s1, s2, n + 1 =>
    if s1.headD 0 ≠ s2.headD 0 then ((s1.headD 0).val : Int) - ((s2.headD 0).val : Int)
    else if s1.headD 0 = 0 then 0
    else strncmp s1.tail s2.tail n

/-- The zlib return code `Z_OK`. -/
def Z_OK : Int := 0

/-- The zlib return code `Z_STREAM_ERROR`. -/
def Z_STREAM_ERROR : Int := -2

/-- The zlib return code `Z_DATA_ERROR`. -/
def Z_DATA_ERROR : Int := -3

/-- The zlib return code `Z_MEM_ERROR`. -/
def Z_MEM_ERROR : Int := -4

/-- The zlib return code `Z_BUF_ERROR`. -/
def Z_BUF_ERROR : Int := -5

/-- The zlib call `uncompress(dest, &destLen, source, sourceLen)` of `get_data`,
whose `dest` is the result of `malloc(destLen)`: the return code and the bytes
written to `dest`. A null `dest` for a `destLen` other than 0 gives
`Z_STREAM_ERROR` (with `destLen = 0` zlib writes to a buffer of its own). With
`Z_OK` the whole inflated data was written and `destLen` is set to its length;
it is `Z_BUF_ERROR` when the data does not fit into `destLen` bytes. -/
def uncompress (x : Externals) (destLen : Nat) (source : List Byte) : Int × List Byte :=
  if destLen ≠ 0 ∧ malloc x destLen = none then (Z_STREAM_ERROR, [])
  else
    match x.inflate source with
    | .stream bytes =>
      if bytes.length ≤ destLen then (Z_OK, bytes) else (Z_BUF_ERROR, bytes.take destLen)
    | .data_error => (Z_DATA_ERROR, [])
    | .mem_error => (Z_MEM_ERROR, [])

/-- The check `CryptoPP::SHA256().VerifyDigest(digest, input, length)`. -/
def verify_digest (x : Externals) (digest input : List Byte) : Bool :=
  decide (x.sha256 input = digest)

/-! ## Runs -/

/-- The messages the two functions print. -/
inductive Msg where
  | not_valid_tas
  | wrong_version
  | does_not_exist (filename : String)
  | checksum_error_index (type : String)
  | checksum_error
  | file_not_found
  | gzip_error (error : Int) (filename : String)
deriving DecidableEq, Repr

/-- How a call ends: it returns a value, the process exits (`exit(code)`), an
exception leaves the function, or it reads or writes through a null pointer,
after which C++ defines no behaviour. -/
inductive Outcome (α : Type) where
  | returned (value : α)
  | exited (code : Int)
  | thrown
  | undefined
deriving DecidableEq, Repr

/-- A run of a function: what it printed and how it ended. -/
structure Run (α : Type) where
  printed : List Msg
  outcome : Outcome α
deriving DecidableEq, Repr

/-- The macro `TASERR(s)`: prints the message and calls `exit(-1)`. -/
def TASERR {α : Type} (s : Msg) : Run α :=
  ⟨[s], .exited (-1)⟩

/-! ## `read_index` -/

/-- Element `idx[c]` of the index region read into memory. -/
def idx_at (idx : List Byte) (c : Nat) : TASIndex :=
  TASIndex.of_bytes (fread idx (sizeof TASIndex_members * c) (sizeof TASIndex_members))

/-- The loop `for (int c = 0; c < head.index_size / sizeof(TASIndex); ++c)` of
`read_index`, over the remaining values of `c`: parses the date of `idx[c]` and
inserts the entry; `none` when `from_string` throws. -/
def read_index_loop (x : Externals) (idx : List Byte) :
    List Nat → TASIndexMap → Option TASIndexMap
  | [], bin_index => some bin_index
  | c :: cs, bin_index =>
    match x.from_string (idx_at idx c).date with
    | none => none
    | some date => read_index_loop x idx cs (TASIndexMap.insert bin_index date (idx_at idx c))

/-- The two assignments to `type` after the header checks. -/
def type_of_identifier (identifier : List Byte) : String :=
  let type := if strncmp (str_bytes "TAS_TRADES") identifier 10 = 0 then "trades" else ""
  if strncmp (str_bytes "TAS_QUOTES") identifier 10 = 0 then "quotes" else type

/-- The function `read_index(filename, bin_index)`: the returned value is the
type string together with the final content of `bin_index`. The result of
`malloc(head.index_size)` is not checked: `fread` writing a byte through a null
`idx` is undefined. -/
def read_index (x : Externals) (fs : FileSystem) (filename : String)
    (bin_index : TASIndexMap) : Run (String × TASIndexMap) :=
  match fs filename with
  | none => TASERR (.does_not_exist filename)
  | some file =>
    let head_mem := fread file 0 (sizeof TASHeader_members)
    if head_mem.length = sizeof TASHeader_members then
      let head := TASHeader.of_bytes head_mem
      if strncmp (str_bytes "TAS_QUOTES") head.identifier 10 ≠ 0 ∧
          strncmp (str_bytes "TAS_TRADES") head.identifier 10 ≠ 0 then
        TASERR .not_valid_tas
      else if head.version ≠ 1 then
        TASERR .wrong_version
      else
        let type := type_of_identifier head.identifier
        let idx_granted := granted x file.length head.index_size
        let idx := fread file (fseek (sizeof TASHeader_members) head.index_start) head.index_size
        if idx ≠ [] ∧ idx_granted = false then ⟨[], .undefined⟩
        else if idx.length = head.index_size then
          let printed :=
            if x.checksums && !verify_digest x head.index_sha256 idx
            then [Msg.checksum_error_index type] else []
          match read_index_loop x idx
              (List.range (head.index_size / sizeof TASIndex_members)) bin_index with
          | none => ⟨printed, .thrown⟩
          | some bin_index1 => ⟨printed, .returned (type, bin_index1)⟩
        else ⟨[], .returned (type, bin_index)⟩
    else ⟨[], .returned ("", bin_index)⟩

/-! ## `get_data` -/

/-- The loop `for (int i = 0; i < size_uncompressed / sizeof(TASLine); ++i)
data.push_back(uncompressed[i])` of `get_data`. -/
def push_lines (uncompressed : List Byte) (size_uncompressed : Nat) : List TASLine :=
  (List.range (size_uncompressed / sizeof TASLine_members)).map
    (fun i => TASLine.of_bytes
      (fread uncompressed (sizeof TASLine_members * i) (sizeof TASLine_members)))

/-- The end of `get_data` when `uncompress` was not called: the loop runs over
the block `malloc` returned, and reads through a null pointer when there is no
block and the loop has a first round. -/
def unfilled_lines (uncompressed : Option (List Byte)) (size_uncompressed : Nat)
    (bin_index : TASIndexMap) : Outcome (List TASLine × TASIndexMap) :=
  match uncompressed with
  | some block => .returned (push_lines block size_uncompressed, bin_index)
  | none =>
    if size_uncompressed / sizeof TASLine_members = 0 then .returned ([], bin_index)
    else .undefined

/-- The function `get_data(filename, day, bin_index)`: the returned value is
the vector `data` together with the final content of `bin_index`. Neither
`malloc` is checked: for the buffer `uncompressed`, whose size the file does not
bound, the environment decides (`malloc`); the buffer `compressed` is null only
for a size beyond the length of the file (`granted`), and `fread` writing a byte
through it is undefined. -/
def get_data (x : Externals) (fs : FileSystem) (filename : String) (day : Date)
    (bin_index : TASIndexMap) : Run (List TASLine × TASIndexMap) :=
  match TASIndexMap.find bin_index day with
  | none => ⟨[], .returned ([], bin_index)⟩
  | some entry =>
    let uncompressed := malloc x entry.size_uncompressed
    match fs filename with
    | none =>
      ⟨[.file_not_found], unfilled_lines uncompressed entry.size_uncompressed bin_index⟩
    | some file =>
      let compressed_granted := granted x file.length entry.size_compressed
      let compressed := fread file (fseek 0 entry.offset) entry.size_compressed
      if compressed ≠ [] ∧ compressed_granted = false then ⟨[], .undefined⟩
      else if compressed.length = entry.size_compressed then
        let result := uncompress x entry.size_uncompressed compressed
        if result.1 = 0 then
          let uncompressed1 := result.2 ++ (uncompressed.getD []).drop result.2.length
          let size_uncompressed1 := result.2.length
          let printed :=
            if x.checksums &&
                !verify_digest x entry.sha256 (uncompressed1.take size_uncompressed1)
            then [Msg.checksum_error] else []
          ⟨printed, .returned (push_lines uncompressed1 size_uncompressed1,
            TASIndexMap.set_size_uncompressed bin_index day size_uncompressed1)⟩
        else TASERR (.gzip_error result.1 filename)
      else
        ⟨[], unfilled_lines uncompressed entry.size_uncompressed bin_index⟩

/-! ## Names for the parts of a file that the two functions read -/


/-- The header `read_index` reads from the start of a file. -/
def header_of (file : List Byte) : TASHeader :=
  TASHeader.of_bytes (fread file 0 (sizeof TASHeader_members))

/-- The bytes `read_index` reads as the index region: `index_size` bytes
after the seek to `index_start`. -/
def index_region (file : List Byte) : List Byte :=
  fread file (fseek (sizeof TASHeader_members) (header_of file).index_start)
    (header_of file).index_size

/-- The bytes `get_data` reads as the block of an index entry:
`size_compressed` bytes after the seek to `offset`. -/
def block_of (file : List Byte) (entry : TASIndex) : List Byte :=
  fread file (fseek 0 entry.offset) entry.size_compressed

/-! ## In-memory representations and a concrete environment -/

/-- The in-memory representation of a header value (no padding occurs). -/
def TASHeader.to_bytes (h : TASHeader) : List Byte :=
  h.identifier ++ le_bytes 1 h.version ++ le_bytes 1 h.ex ++ h.symbol ++ h.index_sha256 ++
  le_bytes 8 h.index_start ++ le_bytes 8 h.index_size

/-- The in-memory representation of an index entry: six padding bytes follow
the date. -/
def TASIndex.to_bytes (e : TASIndex) : List Byte :=
  e.date ++ List.replicate 6 0 ++ le_bytes 8 e.offset ++ le_bytes 8 e.size_compressed ++
  le_bytes 8 e.size_uncompressed ++ e.sha256

/-- An index entry written without padding, 66 bytes, in the layout `date[10]`,
`offset(8)`, `size_compressed(8)`, `size_uncompressed(8)`, `checksum[32]`. -/
def TASIndex.to_packed66 (e : TASIndex) : List Byte :=
  e.date ++ le_bytes 8 e.offset ++ le_bytes 8 e.size_compressed ++
  le_bytes 8 e.size_uncompressed ++ e.sha256

/-- Value of an ASCII decimal digit. -/
def digit (b : Byte) : Option Nat :=
  if 48 ≤ b.val ∧ b.val ≤ 57 then some (b.val - 48) else none

/-- The day number boost assigns to a year, month and day. -/
def day_number (y m d : Nat) : Nat :=
  let a := (14 - m) / 12
  let y1 := y + 4800 - a
  let m1 := m + 12 * a - 3
  d + (153 * m1 + 2) / 5 + 365 * y1 + y1 / 4 - y1 / 100 + y1 / 400 - 32045

/-- A date parser for the examples: accepts the ten characters `YYYY-MM-DD`
with month 1..12 and day 1..31, and fails on everything else. -/
def iso_from_string : List Byte → Option Date
  | [y1, y2, y3, y4, s1, m1, m2, s2, d1, d2] =>
    match digit y1, digit y2, digit y3, digit y4, digit m1, digit m2, digit d1, digit d2 with
    | some a, some b, some c, some d, some e, some f, some g, some h =>
      if s1.val = 45 ∧ s2.val = 45 ∧ 1 ≤ 10 * e + f ∧ 10 * e + f ≤ 12 ∧
          1 ≤ 10 * g + h ∧ 10 * g + h ≤ 31
      then some (day_number (1000 * a + 100 * b + 10 * c + d) (10 * e + f) (10 * g + h))
      else none
    | _, _, _, _, _, _, _, _ => none
  | _ => none

/-- A codec for the examples: a stream is a zero byte followed by the data,
stored as it is; everything else is a corrupt stream. -/
def stored_inflate : List Byte → Inflated
  | [] => .data_error
  | tag :: data => if tag.val = 0 then .stream data else .data_error

/-- A digest for the examples: 32 copies of the byte sum. -/
def sum_digest (input : List Byte) : List Byte :=
  List.replicate 32 (Fin.ofNat (input.foldl (fun a b => a + b.val) 0))

/-- The environment of the examples, compiled with `CHECKSUMS`; `malloc` grants
up to `2^32` bytes. -/
def sample_env : Externals :=
  { from_string := iso_from_string
    inflate := stored_inflate
    sha256 := sum_digest
    checksums := true
    heap := fun _ => 170
    grants := fun n => decide (n ≤ 2 ^ 32) }

/-- The file system holding one file, `sample.trades`. -/
def one_file (content : List Byte) : FileSystem :=
  fun name => if name = "sample.trades" then some content else none

/-- Three trade records of 2008-01-02. -/
def sample_lines : List TASLine :=
  [⟨34801, 100, 100, 5, 5, 0, 0, str_bytes "X   "⟩,
   ⟨34802, 101, 101, 7, 7, 0, 0, str_bytes "X   "⟩,
   ⟨34802, -3, -3, 1, 1, -2, 1, str_bytes "@   "⟩]

/-- The stored block of `sample_lines`. -/
def sample_block : List Byte :=
  0 :: pack_lines sample_lines

/-- Index entry of `sample_block`, placed behind the header and one index
entry. -/
def sample_entry : TASIndex :=
  { date := str_bytes "2008-01-02"
    offset := 144
    size_compressed := 85
    size_uncompressed := 84
    sha256 := sum_digest (pack_lines sample_lines) }

/-- Header of the sample file. -/
def sample_header : TASHeader :=
  { identifier := str_bytes "TAS_TRADES"
    version := 1
    ex := 84
    symbol := str_bytes "AAPL        "
    index_sha256 := sum_digest sample_entry.to_bytes
    index_start := 72
    index_size := 72 }

/-- A complete file: header, index of one entry, one block. -/
def sample_file : List Byte :=
  sample_header.to_bytes ++ sample_entry.to_bytes ++ sample_block

/-- The index of the sample file. -/
def sample_index : TASIndexMap :=
  [(day_number 2008 1 2, sample_entry)]

/-! ## Further example files -/

/-- The sample file with the first byte of its block overwritten: the block
is a corrupt stream. -/
def corrupt_file : List Byte :=
  sample_header.to_bytes ++ sample_entry.to_bytes ++ (1 :: pack_lines sample_lines)

/-- An index entry that declares 56 uncompressed bytes for a block that holds
one record (28 bytes). -/
def short_entry : TASIndex :=
  { date := str_bytes "2008-01-03"
    offset := 144
    size_compressed := 29
    size_uncompressed := 56
    sha256 := sum_digest (pack_lines (sample_lines.take 1)) }

/-- A file whose only block holds one record. -/
def short_file : List Byte :=
  sample_header.to_bytes ++ short_entry.to_bytes ++ (0 :: pack_lines (sample_lines.take 1))

/-- The index of `short_file`. -/
def short_index : TASIndexMap :=
  [(day_number 2008 1 3, short_entry)]

/-- An existing file that ends after the ten bytes of the tag. -/
def truncated_file : List Byte :=
  str_bytes "TAS_TRADES"

/-- An index entry whose date names month 13. -/
def bad_date_entry : TASIndex :=
  { sample_entry with date := str_bytes "2008-13-45" }

/-- The sample file with `bad_date_entry` as its index entry. -/
def bad_date_file : List Byte :=
  sample_header.to_bytes ++ bad_date_entry.to_bytes ++ sample_block

/-- The sample file with a header that declares an index of `2^62` bytes. -/
def huge_index_file : List Byte :=
  { sample_header with index_size := 2 ^ 62 }.to_bytes ++ sample_entry.to_bytes ++ sample_block

/-- Index entry of a second block, for 2008-01-03. -/
def second_entry : TASIndex :=
  { date := str_bytes "2008-01-03"
    offset := 229
    size_compressed := 29
    size_uncompressed := 28
    sha256 := sum_digest (pack_lines (sample_lines.take 1)) }

/-- A file whose index region holds the two entries `sample_entry` and
`second_entry` written without padding, 66 bytes each. -/
def packed66_file : List Byte :=
  { sample_header with index_size := 132 }.to_bytes ++
    sample_entry.to_packed66 ++ second_entry.to_packed66

/-- A second index entry carrying the date of `sample_entry`. -/
def duplicate_entry : TASIndex :=
  { second_entry with date := str_bytes "2008-01-02" }

/-- The index region of two entries with the same date. -/
def duplicate_region : List Byte :=
  sample_entry.to_bytes ++ duplicate_entry.to_bytes

/-- A file whose index region holds two entries with the same date. -/
def duplicate_file : List Byte :=
  { sample_header with index_size := 144 }.to_bytes ++ duplicate_region

/-- A file with two index entries, for 2008-01-03 and 2008-01-02 in this
order, and their two blocks. -/
def two_day_file : List Byte :=
  { sample_header with index_size := 144 }.to_bytes ++
    { second_entry with offset := 216 }.to_bytes ++
    { sample_entry with offset := 245 }.to_bytes ++
    (0 :: pack_lines (sample_lines.take 1)) ++ sample_block

/-- The dates of the two entries of `two_day_file`, by position. -/
def two_day_dates (c : Nat) : Date :=
  if c = 0 then day_number 2008 1 3 else day_number 2008 1 2

/-- The sample file cut off inside its block (the block is bytes 144..228). -/
def cut_file : List Byte :=
  sample_file.take 200

/-- The record that 28 bytes of fresh memory of the example environment
decode to. -/
def junk_line : TASLine :=
  TASLine.of_bytes (List.replicate 28 170)

/-- An index entry for a block of 30 bytes: one record and two more bytes. -/
def ragged_entry : TASIndex :=
  { date := str_bytes "2008-01-03"
    offset := 144
    size_compressed := 31
    size_uncompressed := 30
    sha256 := sum_digest (pack_lines (sample_lines.take 1) ++ [1, 2]) }

/-- A file whose only block inflates to 30 bytes. -/
def ragged_file : List Byte :=
  sample_header.to_bytes ++ ragged_entry.to_bytes ++
    (0 :: (pack_lines (sample_lines.take 1) ++ [1, 2]))

/-- An index entry for an empty block: the stream holds no data. -/
def empty_entry : TASIndex :=
  { date := str_bytes "2008-01-04"
    offset := 144
    size_compressed := 1
    size_uncompressed := 0
    sha256 := sum_digest [] }

/-- A file whose only block is empty. -/
def empty_block_file : List Byte :=
  sample_header.to_bytes ++ empty_entry.to_bytes ++ [0]

/-- The sample entry with another checksum. -/
def resummed_entry : TASIndex :=
  { sample_entry with sha256 := List.replicate 32 0 }

/-- The entries stored in an index region: `idx[0]`, ..., `idx[n-1]`. -/
def stored_entries (idx : List Byte) (n : Nat) : List TASIndex :=
  (List.range n).map (idx_at idx)

/-- The loop of `read_index` as a function of the entries it visits: each
entry is inserted under its parsed date; `none` when `from_string` throws. -/
def insert_entries (x : Externals) : List TASIndex → TASIndexMap → Option TASIndexMap
  | [], bin_index => some bin_index
  | entry :: entries, bin_index =>
    match x.from_string entry.date with
    | none => none
    | some date => insert_entries x entries (TASIndexMap.insert bin_index date entry)

/-- The pairs of parsed date and entry of a list of entries. -/
def dated_entries (x : Externals) (entries : List TASIndex) : List (Date × TASIndex) :=
  entries.filterMap (fun entry => (x.from_string entry.date).map (fun date => (date, entry)))

/-- The file `two_day_file` with its two index entries in the other order. -/
def two_day_file_swapped : List Byte :=
  { sample_header with index_size := 144 }.to_bytes ++
    { sample_entry with offset := 245 }.to_bytes ++
    { second_entry with offset := 216 }.to_bytes ++
    (0 :: pack_lines (sample_lines.take 1)) ++ sample_block

end tas

/-!
# The trade loop of `RDC.cpp`

The loop over `data1_trades` (symbol 1) and over `data2_trades` (symbol 2) in
`main`. The `double` variables that are assigned before they are read hold
integers throughout (prices, volumes and times are `int` members, signs are
sums of `sgn` values), so they are integers here; the vectors of 22200 elements
are functions of the index, which the window test keeps within `0 .. 22199`.
The variables `price1_0` and `e1_n` are declared without a value: what they
hold at the start of a day is an argument of `trade_init`. The loop reads
`price1_0` before it assigns it when the first trade of the day lies inside the
window, so `price1_0` is a `Double`: any value a `double` can hold, among them
NaN. The variable `e1_n` is assigned before every read.
-/

namespace RDC

open tas

/-- The function `int sgn(double d)`. -/
def sgn (d : Int) : Int :=
  if d > 0 then 1
  else if d < 0 then -1
  else 0

/-- The values of a `double`, as far as the comparisons with integers tell
them apart: an integer, a finite value strictly between the integers `below`
and `below + 1`, an infinity, or NaN. -/
inductive Double where
  | number (value : Int)
  | fraction (below : Int)
  | infinite (negative : Bool)
  | nan
deriving DecidableEq, Repr

instance (n : Nat) : OfNat Double n := ⟨.number n⟩

/-- The difference `ask - price1_0` of an `int` and a `double`. Of the
difference the loop takes the sign and the comparison with 0, which rounding
does not change. -/
def Double.rsub (ask : Int) : Double → Double
  | .number value => .number (ask - value)
  | .fraction below => .fraction (ask - below - 1)
  | .infinite negative => .infinite (!negative)
  | .nan => .nan

/-- The function `int sgn(double d)` on any value of a `double`: both
comparisons are false for NaN. -/
def Double.sgn : Double → Int
  | .number value => RDC.sgn value
  | .fraction below => if 0 ≤ below then 1 else -1
  | .infinite negative => if negative then -1 else 1
  | .nan => 0

/-- The comparison `d == 0`. -/
def Double.is_zero : Double → Bool
  | .number value => decide (value = 0)
  | _ => false

/-- The variables of one day of the trade loop. -/
structure TradeState where
  price1_0 : Double
  e1_n : Int
  e1_n0 : Int
  day1_t : Nat → Int
  price1_t : Nat → Int
  volume1_t : Nat → Int
  e1 : Nat → Int
  sum_e1 : Nat → Int

/-- Assignment `v[i] = value` to a vector element. -/
def assign (v : Nat → Int) (i : Nat) (value : Int) : Nat → Int :=
  fun j => if j = i then value else v j

/-- The variables at the start of a day: `e1_n0 = 1`, the vectors filled with
0, and the two variables declared without a value holding `price1_0` and
`e1_n`. -/
def trade_init (price1_0 : Double) (e1_n : Int) : TradeState :=
  { price1_0 := price1_0
    e1_n := e1_n
    e1_n0 := 1
    day1_t := fun _ => 0
    price1_t := fun _ => 0
    volume1_t := fun _ => 0
    e1 := fun _ => 0
    sum_e1 := fun _ => 0 }

/-- The test `time >= 34801 && time <= 57000`. -/
def in_window (d : TASLine) : Prop :=
  34801 ≤ d.time ∧ d.time ≤ 57000

instance (d : TASLine) : Decidable (in_window d) := by
  unfold in_window
  infer_instance

/-- The body of the loop over the trades of a day. With `from_bid` the price
vector takes the `bid` member (symbol 1), otherwise the `ask` member
(symbol 2). -/
def trade_step (from_bid : Bool) (s : TradeState) (d : TASLine) : TradeState :=
  let s1 : TradeState :=
    if d.time ≤ 34800 then { s with price1_0 := .number d.ask } else s
  if in_window d then
    let i := (d.time - 34801).toNat
    let e1_n := (Double.rsub d.ask s1.price1_0).sgn
    let e1_n := if (Double.rsub d.ask s1.price1_0).is_zero then s1.e1_n0 else e1_n
    let sum_e1 := assign s1.sum_e1 i (s1.sum_e1 i + e1_n)
    { price1_0 := .number d.ask
      e1_n := e1_n
      e1_n0 := e1_n
      day1_t := assign s1.day1_t i d.time
      price1_t := assign s1.price1_t i (if from_bid then d.bid else d.ask)
      volume1_t := assign s1.volume1_t i (s1.volume1_t i + d.vol_ask)
      e1 := assign s1.e1 i (sgn (sum_e1 i))
      sum_e1 := sum_e1 }
  else s1

/-- The loop over the trades of a day. -/
def trade_loop (from_bid : Bool) (s : TradeState) (data : List TASLine) : TradeState :=
  data.foldl (trade_step from_bid) s

/-- The values of `e1_n` assigned to the trades inside the window, in order:
the last column of the lines written for the first day. -/
def trade_signs (from_bid : Bool) : TradeState → List TASLine → List Int
  | _, [] => []
  | s, d :: ds =>
    if in_window d then
      (trade_step from_bid s d).e1_n :: trade_signs from_bid (trade_step from_bid s d) ds
    else trade_signs from_bid (trade_step from_bid s d) ds

/-- Trades of one day: one before the window, then three inside it, the
last at the price of its predecessor. -/
def flat_trades : List TASLine :=
  [⟨34800, 100, 100, 5, 5, 0, 0, str_bytes "X   "⟩,
   ⟨34801, 101, 101, 5, 5, 0, 0, str_bytes "X   "⟩,
   ⟨34802, 99, 99, 5, 5, 0, 0, str_bytes "X   "⟩,
   ⟨34802, 99, 99, 5, 5, 0, 0, str_bytes "X   "⟩]

/-- The values of `e1_n` assigned to the trades recorded in second `t`, in
order: the per-trade signs of that second. -/
def second_signs (from_bid : Bool) : TradeState → List TASLine → Int → List Int
  | _, [], _ => []
  | s, d :: ds, t =>
    if in_window d ∧ d.time = t then
      (trade_step from_bid s d).e1_n :: second_signs from_bid (trade_step from_bid s d) ds t
    else second_signs from_bid (trade_step from_bid s d) ds t

/-! ### The quote resampling

The loop over `data1_quotes` (and `data2_quotes`) and the two fill passes that
follow it. The three vectors have 22200 elements; a vector is a function of the
index whose values from 22200 on stand for the memory behind the elements. The
sum `ask + bid` is taken within the range of `int`. -/

/-- The vectors `day1_q`, `mid1_q` and `spread1_q` of one day. -/
structure QuoteState where
  day1_q : Nat → Int
  mid1_q : Nat → Int
  spread1_q : Nat → Int

/-- The three vectors as constructed, `(22200, 0)`: 22200 elements equal to
0, followed by whatever memory lies behind them. -/
def quote_init (behind : QuoteState) : QuoteState :=
  { day1_q := fun i => if i < 22200 then 0 else behind.day1_q i
    mid1_q := fun i => if i < 22200 then 0 else behind.mid1_q i
    spread1_q := fun i => if i < 22200 then 0 else behind.spread1_q i }

/-- The test `time >= 34800 && time <= 56999`. -/
def in_quote_window (d : TASLine) : Prop :=
  34800 ≤ d.time ∧ d.time ≤ 56999

instance (d : TASLine) : Decidable (in_quote_window d) := by
  unfold in_quote_window
  infer_instance

/-- The body of the loop over the quotes of a day. -/
def quote_step (s : QuoteState) (d : TASLine) : QuoteState :=
  if in_quote_window d then
    { day1_q := assign s.day1_q (d.time - 34800).toNat d.time
      mid1_q := assign s.mid1_q (d.time - 34800).toNat (Int.tdiv (d.ask + d.bid) 2)
      spread1_q := assign s.spread1_q (d.time - 34800).toNat (d.ask - d.bid) }
  else s

/-- The loop over the quotes of a day. -/
def quote_loop (s : QuoteState) (data : List TASLine) : QuoteState :=
  data.foldl quote_step s

/-- The body of the forward pass `for (int i = 0; i < 22200; i++)`. -/
def forward_step (s : QuoteState) (i : Nat) : QuoteState :=
  if i ≠ 0 ∧ s.mid1_q i = 0 then
    { day1_q := assign s.day1_q i (s.day1_q (i - 1) + 1)
      mid1_q := assign s.mid1_q i (s.mid1_q (i - 1))
      spread1_q := assign s.spread1_q i (s.spread1_q (i - 1)) }
  else s

/-- The body of the backward pass `for (int i = 22200; i >= 0; i--)`. -/
def backward_step (s : QuoteState) (i : Nat) : QuoteState :=
  if s.mid1_q i = 0 then
    { day1_q := assign s.day1_q i (s.day1_q (i + 1) - 1)
      mid1_q := assign s.mid1_q i (s.mid1_q (i + 1))
      spread1_q := assign s.spread1_q i (s.spread1_q (i + 1)) }
  else s

/-- The values `0, 1, ..., 22199` of `i` in the forward pass. -/
def forward_indices : List Nat :=
  List.range 22200

/-- The values `22200, 22199, ..., 0` of `i` in the backward pass. -/
def backward_indices : List Nat :=
  (List.range 22201).reverse

/-- The forward pass. -/
def forward_fill (s : QuoteState) : QuoteState :=
  forward_indices.foldl forward_step s

/-- The indices of the elements one iteration of the forward pass accesses,
in the order of the source: `mid[i]` in the test (not evaluated for `i = 0`),
then `day[i]`, `day[i-1]`, `mid[i]`, `mid[i-1]`, `spread[i]`, `spread[i-1]`. -/
def forward_step_accesses (s : QuoteState) (i : Nat) : List Nat :=
  if i ≠ 0 then
    if s.mid1_q i = 0 then [i, i, i - 1, i, i - 1, i, i - 1] else [i]
  else []

/-- The indices of the elements one iteration of the backward pass accesses:
`mid[i]` in the test, then `day[i]`, `day[i+1]`, `mid[i]`, `mid[i+1]`,
`spread[i]`, `spread[i+1]`. -/
def backward_step_accesses (s : QuoteState) (i : Nat) : List Nat :=
  if s.mid1_q i = 0 then [i, i, i + 1, i, i + 1, i, i + 1] else [i]

/-- The indices a pass accesses, iteration after iteration. -/
def pass_accesses (step : QuoteState → Nat → QuoteState)
    (accesses : QuoteState → Nat → List Nat) : QuoteState → List Nat → List Nat
  | _, [] => []
  | s, i :: rest => accesses s i ++ pass_accesses step accesses (step s i) rest

/-- The element accesses of the forward pass. -/
def forward_accesses (s : QuoteState) : List Nat :=
  pass_accesses forward_step forward_step_accesses s forward_indices

/-- The element accesses of the backward pass. -/
def backward_accesses (s : QuoteState) : List Nat :=
  pass_accesses backward_step backward_step_accesses s backward_indices

/-- The memory behind the vectors in the examples: zeros. -/
def zero_behind : QuoteState :=
  { day1_q := fun _ => 0, mid1_q := fun _ => 0, spread1_q := fun _ => 0 }

/-- Quotes of one day: one before the window, one in second 34801 and one
in second 34803. -/
def some_quotes : List TASLine :=
  [⟨34799, 99, 101, 5, 5, 12, 0, str_bytes "NSDQ"⟩,
   ⟨34801, 100, 104, 5, 5, 12, 0, str_bytes "NSDQ"⟩,
   ⟨34803, 101, 104, 5, 5, 12, 0, str_bytes "NSDQ"⟩]

/-- The vectors filled by the quote loop: a non-zero midpoint at an index
comes with the second of that index in `day`. -/
def dated (s : QuoteState) : Prop :=
  ∀ i, i < 22200 → s.mid1_q i ≠ 0 → s.day1_q i = 34800 + (i : Int)

/-! ### The four per-day series

The four loops of `main` that build the series `E1` (with `Date1_t`,
`Price1_t`, `Volume1_t`), `Mid1_q`, `E2` and `Mid2_q`, one element per visited
day. A day is kept with its date, which the program does not store. Of the
output statements around the loops, the loop between the second and the third
day loop takes its bound from `Mid1_q[1].size()`: with fewer than two days in
`Mid1_q` it reads past the end of the vector, after which C++ defines no
behaviour. The other output statements read `[pos - 1]`, the first day, inside
a day loop or after the read of `Mid1_q[1]`. -/

/-- The test of a day loop: the date is a key of the three other indexes. -/
def in_all (a b c : TASIndexMap) (day : Date) : Prop :=
  TASIndexMap.find a day ≠ none ∧ TASIndexMap.find b day ≠ none ∧
    TASIndexMap.find c day ≠ none

instance (a b c : TASIndexMap) (day : Date) : Decidable (in_all a b c day) := by
  unfold in_all
  infer_instance

/-- A day loop `for (auto it = own.begin(); it != own.end(); it++)` over the
remaining keys `days` of the index `own`: a day that passes the test is read
with `get_data` (which may rewrite `own`, or end the process) and `build` makes
the day's element from the records. -/
def day_loop {α : Type} (x : Externals) (fs : FileSystem) (filename : String)
    (build : List TASLine → α) (a b c : TASIndexMap) :
    List Date → TASIndexMap → Outcome (List (Date × α) × TASIndexMap)
  | [], own => .returned ([], own)
  | day :: days, own =>
    if in_all a b c day then
      match (get_data x fs filename day own).outcome with
      | .returned (data, own1) =>
        match day_loop x fs filename build a b c days own1 with
        | .returned (series, own2) => .returned ((day, build data) :: series, own2)
        | .exited code => .exited code
        | .thrown => .thrown
        | .undefined => .undefined
      | .exited code => .exited code
      | .thrown => .thrown
      | .undefined => .undefined
    else day_loop x fs filename build a b c days own

/-- A day loop from `own.begin()`. -/
def series {α : Type} (x : Externals) (fs : FileSystem) (filename : String)
    (build : List TASLine → α) (a b c own : TASIndexMap) :
    Outcome (List (Date × α) × TASIndexMap) :=
  day_loop x fs filename build a b c (own.map Prod.fst) own

/-- Index of a file with an entry for 2008-01-03 only. -/
def one_day_index : TASIndexMap :=
  [(day_number 2008 1 3, { second_entry with offset := 216 })]

end RDC

/-!
# The clock text of `decompress_original_data_2008/main.cpp`

`sec_to_time` formats a number of seconds as text with `sprintf` into a buffer of nine
characters.  The `int` argument is an integer here: `h * 3600` and `m * 60` are never larger
in absolute value than `t`, so no operation of the function leaves the range of `int`.  The
divisions of C++ truncate towards zero (`Int.tdiv`).
-/

namespace decompress

/-- The conversion `%.2d` of `sprintf`: the decimal digits of the absolute value, padded
with zeros on the left to at least two digits, after a minus sign for a negative value. -/
def fmt_2d (v : Int) : List Char :=
  let digits := Nat.toDigits 10 v.natAbs
  let padded := List.replicate (2 - digits.length) '0' ++ digits
  if v < 0 then '-' :: padded else padded

/-- The text `sprintf(tmp, "%.2d:%.2d:%.2d", h, m, s)` writes, without the closing zero
character. -/
def sprintf_clock (h m s : Int) : List Char :=
  fmt_2d h ++ [':'] ++ fmt_2d m ++ [':'] ++ fmt_2d s

/-- The function `sec_to_time`.  The buffer `tmp` has nine characters: a text that does not
fit in it together with its closing zero character is written past the end of the buffer,
for which C++ defines no result (`none`). -/
def sec_to_time (t : Int) : Option String :=
  let h := Int.tdiv t 3600
  let m := Int.tdiv (t - h * 3600) 60
  let s := t - h * 3600 - m * 60
  let tmp := sprintf_clock h m s
  if tmp.length + 1 ≤ 9 then some (String.mk tmp) else none

/-- The two decimal digits of a number below one hundred, tens first. -/
def two_digits (n : Nat) : List Char :=
  [Nat.digitChar (n / 10), Nat.digitChar (n % 10)]

/-- The clock text `HH:MM:SS` of the specification, from its three fields. -/
def clock_text (HH MM SS : Nat) : String :=
  String.mk (two_digits HH ++ [':'] ++ two_digits MM ++ [':'] ++ two_digits SS)

end decompress

/-!
# The transaction filter of `filter_test_tradesign_corr.cpp`

The filter reads the columns of one table (`time`, `ticker`, `order`, `type`, `shares`,
`price`), lists the executed rows (type `E`, `F` or `T`) and pushes, per executed row, onto
the vectors `type_transaction`, `price_transaction` and `volume_transaction`.  The code after
the filter reads element `i` of each of the three vectors for every `i` below
`index_EFT.size()`.  `signprob.cpp` holds the same loop once per input file.

The columns hold the values after parsing: times and order codes are integers, the shares are
the whole numbers the vectors of `int` receive, and a price is the integer the line holds
(the filter only copies prices).  The type texts hold no zero character, so that `strcmp`
against a letter is equality of texts.  The local `int volume_total` has no initial value in
the source: the value it holds before the first assignment is an argument of the model.
Sums of shares are integers: the arithmetic of `int` leaving its range is outside the model.
-/

namespace tradesign

/-- The six column vectors filled from the lines of the table. -/
structure Columns where
  time : List Int
  ticker : List String
  order : List Int
  type : List String
  shares : List Int
  price : List Int

/-- One row of the table: the values the filter reads at one index of the columns. -/
structure Row where
  time : Int
  order : Int
  type : String
  shares : Int
  price : Int

/-- The test of the filter that all columns have the size of `time`. -/
def Columns.same_size (c : Columns) : Bool :=
  c.time.length == c.ticker.length && c.time.length == c.order.length &&
    c.time.length == c.type.length && c.time.length == c.shares.length &&
    c.time.length == c.price.length

/-- The rows at the indexes all columns have. -/
def zip_rows : List Int → List Int → List String → List Int → List Int → List Row
  | t :: ts, o :: os, y :: ys, s :: ss, p :: ps =>
      { time := t, order := o, type := y, shares := s, price := p } :: zip_rows ts os ys ss ps
  | _, _, _, _, _ => []

/-- The rows of a table. -/
def Columns.rows (c : Columns) : List Row :=
  zip_rows c.time c.order c.type c.shares c.price

/-- The test on a row of the first loop: executed in part, in full, or non-displayed. -/
def is_EFT (r : Row) : Bool :=
  r.type == "E" || r.type == "F" || r.type == "T"

/-- The executed rows with their indexes: the first components are `index_EFT`, the fields of
the second components are `ordercode`, `shares_currentorder`, `time_currentorder`,
`price_currentorder` and `type_currentorder`. -/
def executed (rows : List Row) : List (Nat × Row) :=
  rows.enum.filter (fun ir => is_EFT ir.2)

/-- The function `type_marketoder` of `func.hpp`. -/
def type_marketoder (s : String) : String :=
  let markettype := if s == "B" then "S" else ""
  if s == "S" then "B" else markettype

/-- The three vectors the filter fills, and the order codes of the warnings it prints. -/
structure Transactions where
  type_transaction : List String
  price_transaction : List Int
  volume_transaction : List Int
  warnings : List Int

/-- The vectors before the filter loop. -/
def Transactions.empty : Transactions :=
  { type_transaction := [], price_transaction := [], volume_transaction := [], warnings := [] }

/-- The rows pushed onto the `_eachorder` vectors for an executed row: those with its order
code and a time not after its time, in the order of the table. -/
def each_order (rows : List Row) (cur : Row) : List Row :=
  rows.filter (fun r => r.order == cur.order && decide (r.time ≤ cur.time))

/-- One round of the loop that determines type and price, at index `j` of the `_eachorder`
vectors; the second component is `volume_total`. -/
def price_step (ordercode : Int) (acc : Transactions × Int) (je : Nat × Row) :
    Transactions × Int :=
  if je.2.type == "B" || je.2.type == "S" then
    if je.1 > 0 then
      ({ acc.1 with warnings := acc.1.warnings ++ [ordercode] }, acc.2)
    else
      ({ acc.1 with
          type_transaction := acc.1.type_transaction ++ [type_marketoder je.2.type]
          price_transaction := acc.1.price_transaction ++ [je.2.price] }, je.2.shares)
  else acc

/-- The value of `volume` after its loop: the shares at the indexes from `1` to the last but
one, up to the first row that is not of type `E`. -/
def executed_volume (each : List Row) : Int :=
  (((each.drop 1).dropLast).takeWhile (fun r => r.type == "E")).foldl
    (fun volume r => volume + r.shares) 0

/-- One round of the filter loop, for the executed row `cur`; `volume_total` is the value the
local of that name holds before it is assigned. -/
def filter_step (rows : List Row) (volume_total : Int) (acc : Transactions) (cur : Row) :
    Transactions :=
  if cur.type != "T" then
    let each := each_order rows cur
    let after := each.enum.foldl (price_step cur.order) (acc, volume_total)
    match each.getLast? with
    | some last =>
        if last.type == "F" then
          { after.1 with
            volume_transaction :=
              after.1.volume_transaction ++ [after.2 - executed_volume each] }
        else if last.type == "E" then
          { after.1 with volume_transaction := after.1.volume_transaction ++ [cur.shares] }
        else after.1
    | none => after.1
  else
    { acc with
      type_transaction := acc.type_transaction ++ [cur.type]
      price_transaction := acc.price_transaction ++ [cur.price]
      volume_transaction := acc.volume_transaction ++ [cur.shares] }

/-- The vector `index_EFT` after the filter. -/
def index_EFT (c : Columns) : List Nat :=
  if c.same_size then (executed c.rows).map Prod.fst else []

/-- The three vectors after the filter; `volume_total i` is the value the local
`volume_total` holds at the start of the round for the row of index `i`. -/
def transaction_filter (c : Columns) (volume_total : Nat → Int) : Transactions :=
  if c.same_size then
    (executed c.rows).foldl
      (fun acc ir => filter_step c.rows (volume_total ir.1) acc ir.2) Transactions.empty
  else Transactions.empty

/-- Whether the loops after the filter, which read element `i` of the three vectors for every
`i` below `index_EFT.size()`, read inside the vectors. -/
def reads_inside (c : Columns) (volume_total : Nat → Int) : Bool :=
  (List.range (index_EFT c).length).all (fun i =>
    decide (i < (transaction_filter c volume_total).type_transaction.length) &&
    decide (i < (transaction_filter c volume_total).price_transaction.length) &&
    decide (i < (transaction_filter c volume_total).volume_transaction.length))

/-- A table of one row: an execution in part of an order with no other row. -/
def lone_execution : Columns :=
  { time := [34800000], ticker := ["AAPL"], order := [7], type := ["E"],
    shares := [100], price := [1500000] }

/-- A table of three rows of one order: a buy limit order, its execution in part, and a
row of a further type with the time of the execution. -/
def execution_then_delete : Columns :=
  { time := [34800000, 34800500, 34800500], ticker := ["AAPL", "AAPL", "AAPL"],
    order := [7, 7, 7], type := ["B", "E", "D"],
    shares := [100, 40, 60], price := [1500000, 1500000, 0] }

/-- A table of three rows of one order: a buy limit order, an execution in part and the
execution in full. -/
def filled_order : Columns :=
  { time := [34800000, 34800500, 34801000], ticker := ["AAPL", "AAPL", "AAPL"],
    order := [7, 7, 7], type := ["B", "E", "F"],
    shares := [100, 40, 60], price := [1500000, 1500000, 1500000] }

end tradesign

namespace tas

/-! ## Layout facts -/

theorem sizeof_TASHeader : sizeof TASHeader_members = 72 := by decide

theorem sizeof_TASIndex : sizeof TASIndex_members = 72 := by decide

theorem sizeof_TASLine : sizeof TASLine_members = 28 := by decide

theorem offsets_TASHeader : offsets_from 0 TASHeader_members = [0, 10, 11, 12, 24, 56, 64] := by
  decide

theorem offsets_TASIndex : offsets_from 0 TASIndex_members = [0, 16, 24, 32, 40] := by decide

theorem offsets_TASLine : offsets_from 0 TASLine_members = [0, 4, 8, 12, 16, 20, 22, 24] := by
  decide

/-! ## `strncmp` against the two tags -/

theorem strncmp_eq_zero_iff (n : Nat) : ∀ s t : List Byte,
    (∀ b ∈ s.take n, b ≠ 0) → n ≤ s.length → n ≤ t.length →
    (strncmp s t n = 0 ↔ s.take n = t.take n) := by
  induction n with
  | zero => intro s t _ _ _; simp [strncmp]
  | succ n ih =>
    intro s t hz hs ht
    cases s with
    | nil => simp at hs
    | cons a s1 =>
      cases t with
      | nil => simp at ht
      | cons b t1 =>
        have ha : a ≠ 0 := hz a (by simp)
        have hz1 : ∀ c ∈ s1.take n, c ≠ 0 := fun c hc => hz c (by simp [hc])
        have hs1 : n ≤ s1.length := by simpa using hs
        have ht1 : n ≤ t1.length := by simpa using ht
        by_cases hab : a = b
        · subst hab
          simp [strncmp, ha, ih s1 t1 hz1 hs1 ht1]
        · have hv : (a.val : Int) - (b.val : Int) ≠ 0 := by
            intro h
            apply hab
            apply Fin.ext
            omega
          simp [strncmp, hab, hv]

theorem strncmp_quotes (identifier : List Byte) (h : identifier.length = 10) :
    strncmp (str_bytes "TAS_QUOTES") identifier 10 = 0 ↔ identifier = str_bytes "TAS_QUOTES" := by
  rw [strncmp_eq_zero_iff 10 _ _ (by decide) (by decide) (by omega)]
  rw [List.take_of_length_le (by omega : identifier.length ≤ 10)]
  constructor
  · intro e; rw [← e]; decide
  · intro e; rw [e]; decide

theorem strncmp_trades (identifier : List Byte) (h : identifier.length = 10) :
    strncmp (str_bytes "TAS_TRADES") identifier 10 = 0 ↔ identifier = str_bytes "TAS_TRADES" := by
  rw [strncmp_eq_zero_iff 10 _ _ (by decide) (by decide) (by omega)]
  rw [List.take_of_length_le (by omega : identifier.length ≤ 10)]
  constructor
  · intro e; rw [← e]; decide
  · intro e; rw [e]; decide

/-! ## Reading the header of a file -/

theorem fread_length (file : List Byte) (pos count : Nat) :
    (fread file pos count).length = min count (file.length - pos) := by
  simp [fread]

theorem header_identifier (file : List Byte) :
    (TASHeader.of_bytes (fread file 0 (sizeof TASHeader_members))).identifier = file.take 10 := by
  simp [TASHeader.of_bytes, member_bytes, fread, sizeof_TASHeader, offsetof, offsets_TASHeader,
    List.take_take]

theorem header_version (file : List Byte) (h : 72 ≤ file.length) :
    (TASHeader.of_bytes (fread file 0 (sizeof TASHeader_members))).version
      = (file.getD 10 0).val := by
  simp only [TASHeader.of_bytes, member_bytes, fread, sizeof_TASHeader, offsetof,
    offsets_TASHeader, List.drop_zero, List.getD_cons_succ, List.getD_cons_zero]
  rw [List.drop_take, List.take_take]
  have h10 : 10 < file.length := by omega
  rw [List.drop_eq_getElem_cons h10]
  simp [le_nat, List.getD_eq_getElem?_getD, List.getElem?_eq_getElem h10]

theorem fread_length_le (file : List Byte) (pos count : Nat) :
    (fread file pos count).length ≤ file.length := by
  rw [fread_length]
  omega

/-- A buffer that `fread` fills is granted, by the length of the file. -/
theorem granted_of_read (x : Externals) (file : List Byte) (pos count : Nat)
    (h : (fread file pos count).length = count) : granted x file.length count = true := by
  have hle := fread_length_le file pos count
  unfold granted
  simp only [Bool.or_eq_true, decide_eq_true_eq]
  left
  omega

theorem index_buffer_granted (x : Externals) (file : List Byte)
    (hread : (index_region file).length = (header_of file).index_size) :
    ¬ (index_region file ≠ [] ∧
      granted x file.length (header_of file).index_size = false) := by
  intro h
  have hg := granted_of_read x file _ _ hread
  rw [hg] at h
  exact absurd h.2 (by decide)

theorem block_buffer_granted (x : Externals) (file : List Byte) (entry : TASIndex)
    (hread : (block_of file entry).length = entry.size_compressed) :
    ¬ (block_of file entry ≠ [] ∧ granted x file.length entry.size_compressed = false) := by
  intro h
  have hg := granted_of_read x file _ _ hread
  rw [hg] at h
  exact absurd h.2 (by decide)

/-- With a complete header that passes both checks, `read_index` is the read
of the index region followed by the insertion loop. -/
theorem read_index_valid (x : Externals) (fs : FileSystem) (filename : String)
    (bin_index : TASIndexMap) (file : List Byte) (hf : fs filename = some file)
    (hlen : sizeof TASHeader_members ≤ file.length)
    (hid : file.take 10 = str_bytes "TAS_QUOTES" ∨ file.take 10 = str_bytes "TAS_TRADES")
    (hver : (file.getD 10 0).val = 1) :
    read_index x fs filename bin_index =
      if index_region file ≠ [] ∧
          granted x file.length (header_of file).index_size = false then
        ⟨[], .undefined⟩
      else if (index_region file).length = (header_of file).index_size then
        match read_index_loop x (index_region file)
            (List.range ((header_of file).index_size / sizeof TASIndex_members)) bin_index with
        | none =>
          ⟨if x.checksums && !verify_digest x (header_of file).index_sha256 (index_region file)
            then [Msg.checksum_error_index (type_of_identifier (file.take 10))] else [],
            .thrown⟩
        | some bin_index1 =>
          ⟨if x.checksums && !verify_digest x (header_of file).index_sha256 (index_region file)
            then [Msg.checksum_error_index (type_of_identifier (file.take 10))] else [],
            .returned (type_of_identifier (file.take 10), bin_index1)⟩
      else ⟨[], .returned (type_of_identifier (file.take 10), bin_index)⟩ := by
  have h72 : 72 ≤ file.length := by rw [sizeof_TASHeader] at hlen; exact hlen
  have hl : (fread file 0 (sizeof TASHeader_members)).length = sizeof TASHeader_members := by
    rw [fread_length]; omega
  have hi10 : (file.take 10).length = 10 := by simp; omega
  have hchk : ¬ (strncmp (str_bytes "TAS_QUOTES") (file.take 10) 10 ≠ 0 ∧
      strncmp (str_bytes "TAS_TRADES") (file.take 10) 10 ≠ 0) := by
    rw [Ne, Ne, strncmp_quotes _ hi10, strncmp_trades _ hi10]
    tauto
  have hv := header_version file h72
  have hi := header_identifier file
  unfold read_index
  simp only [hf, hl, if_true]
  rw [hi, hv, if_neg hchk, if_neg (by simpa using hver)]
  rfl

/-! ## Records in memory -/

theorem val_ofNat_mod (n : Nat) : ((Fin.ofNat (n % 256) : Byte)).val = n % 256 := by
  simp [Fin.ofNat]

theorem le_bytes_length (k : Nat) : ∀ n, (le_bytes k n).length = k := by
  induction k with
  | zero => intro n; rfl
  | succ k ih => intro n; simp [le_bytes, ih]

theorem le_nat_le_bytes (k : Nat) : ∀ n, le_nat (le_bytes k n) = n % 256 ^ k := by
  induction k with
  | zero => intro n; simp [le_bytes, le_nat, Nat.mod_one]
  | succ k ih =>
    intro n
    simp only [le_bytes, le_nat, ih, val_ofNat_mod]
    rw [pow_succ', Nat.mod_mul]

theorem to_signed_of_signed_32 (v : Int) (h1 : -(2 : Int) ^ 31 ≤ v) (h2 : v < 2 ^ 31) :
    to_signed 32 (of_signed 32 v % 256 ^ 4) = v := by
  unfold to_signed of_signed
  norm_num at h1 h2 ⊢
  omega

theorem to_signed_of_signed_16 (v : Int) (h1 : -(2 : Int) ^ 15 ≤ v) (h2 : v < 2 ^ 15) :
    to_signed 16 (of_signed 16 v % 256 ^ 2) = v := by
  unfold to_signed of_signed
  norm_num at h1 h2 ⊢
  omega

theorem member_bytes_append (pre mid post : List Byte) (off size : Nat)
    (hpre : pre.length = off) (hmid : mid.length = size) :
    member_bytes (pre ++ (mid ++ post)) off size = mid := by
  subst hpre hmid
  simp [member_bytes]

theorem TASLine_of_bytes_to_bytes (l : TASLine) (rest : List Byte) (h : l.representable) :
    TASLine.of_bytes (l.to_bytes ++ rest) = l := by
  obtain ⟨⟨t1, t2⟩, ⟨b1, b2⟩, ⟨a1, a2⟩, ⟨vb1, vb2⟩, ⟨va1, va2⟩, ⟨m1, m2⟩, ⟨c1, c2⟩, hm⟩ := h
  cases l with
  | mk time bid ask vol_bid vol_ask mode corr mmid =>
    simp only at t1 t2 b1 b2 a1 a2 vb1 vb2 va1 va2 m1 m2 c1 c2 hm
    simp only [TASLine.of_bytes, TASLine.to_bytes, offsetof, offsets_TASLine,
      List.getD_cons_zero, List.getD_cons_succ]
    generalize hs0 : le_bytes 4 (of_signed 32 time) = s0
    generalize hs1 : le_bytes 4 (of_signed 32 bid) = s1
    generalize hs2 : le_bytes 4 (of_signed 32 ask) = s2
    generalize hs3 : le_bytes 4 (of_signed 32 vol_bid) = s3
    generalize hs4 : le_bytes 4 (of_signed 32 vol_ask) = s4
    generalize hs5 : le_bytes 2 (of_signed 16 mode) = s5
    generalize hs6 : le_bytes 2 (of_signed 16 corr) = s6
    have l0 : s0.length = 4 := by rw [← hs0, le_bytes_length]
    have l1 : s1.length = 4 := by rw [← hs1, le_bytes_length]
    have l2 : s2.length = 4 := by rw [← hs2, le_bytes_length]
    have l3 : s3.length = 4 := by rw [← hs3, le_bytes_length]
    have l4 : s4.length = 4 := by rw [← hs4, le_bytes_length]
    have l5 : s5.length = 2 := by rw [← hs5, le_bytes_length]
    have l6 : s6.length = 2 := by rw [← hs6, le_bytes_length]
    have e0 : member_bytes (s0 ++ s1 ++ s2 ++ s3 ++ s4 ++ s5 ++ s6 ++ mmid ++ rest) 0 4 = s0 := by
      have := member_bytes_append [] s0 (s1 ++ s2 ++ s3 ++ s4 ++ s5 ++ s6 ++ mmid ++ rest) 0 4
        rfl l0
      simpa only [List.nil_append, List.append_assoc] using this
    have e1 : member_bytes (s0 ++ s1 ++ s2 ++ s3 ++ s4 ++ s5 ++ s6 ++ mmid ++ rest) 4 4 = s1 := by
      have := member_bytes_append s0 s1 (s2 ++ s3 ++ s4 ++ s5 ++ s6 ++ mmid ++ rest) 4 4
        l0 l1
      simpa only [List.append_assoc] using this
    have e2 : member_bytes (s0 ++ s1 ++ s2 ++ s3 ++ s4 ++ s5 ++ s6 ++ mmid ++ rest) 8 4 = s2 := by
      have := member_bytes_append (s0 ++ s1) s2 (s3 ++ s4 ++ s5 ++ s6 ++ mmid ++ rest) 8 4
        (by simp [l0, l1]) l2
      simpa only [List.append_assoc] using this
    have e3 : member_bytes (s0 ++ s1 ++ s2 ++ s3 ++ s4 ++ s5 ++ s6 ++ mmid ++ rest) 12 4 = s3 := by
      have := member_bytes_append (s0 ++ s1 ++ s2) s3 (s4 ++ s5 ++ s6 ++ mmid ++ rest) 12 4
        (by simp [l0, l1, l2]) l3
      simpa only [List.append_assoc] using this
    have e4 : member_bytes (s0 ++ s1 ++ s2 ++ s3 ++ s4 ++ s5 ++ s6 ++ mmid ++ rest) 16 4 = s4 := by
      have := member_bytes_append (s0 ++ s1 ++ s2 ++ s3) s4 (s5 ++ s6 ++ mmid ++ rest) 16 4
        (by simp [l0, l1, l2, l3]) l4
      simpa only [List.append_assoc] using this
    have e5 : member_bytes (s0 ++ s1 ++ s2 ++ s3 ++ s4 ++ s5 ++ s6 ++ mmid ++ rest) 20 2 = s5 := by
      have := member_bytes_append (s0 ++ s1 ++ s2 ++ s3 ++ s4) s5 (s6 ++ mmid ++ rest) 20 2
        (by simp [l0, l1, l2, l3, l4]) l5
      simpa only [List.append_assoc] using this
    have e6 : member_bytes (s0 ++ s1 ++ s2 ++ s3 ++ s4 ++ s5 ++ s6 ++ mmid ++ rest) 22 2 = s6 := by
      have := member_bytes_append (s0 ++ s1 ++ s2 ++ s3 ++ s4 ++ s5) s6 (mmid ++ rest) 22 2
        (by simp [l0, l1, l2, l3, l4, l5]) l6
      simpa only [List.append_assoc] using this
    have e7 : member_bytes (s0 ++ s1 ++ s2 ++ s3 ++ s4 ++ s5 ++ s6 ++ mmid ++ rest) 24 4
        = mmid := by
      have := member_bytes_append (s0 ++ s1 ++ s2 ++ s3 ++ s4 ++ s5 ++ s6) mmid rest 24 4
        (by simp [l0, l1, l2, l3, l4, l5, l6]) hm
      simpa only [List.append_assoc] using this
    rw [e0, e1, e2, e3, e4, e5, e6, e7, ← hs0, ← hs1, ← hs2, ← hs3, ← hs4, ← hs5, ← hs6]
    simp only [le_nat_le_bytes]
    rw [to_signed_of_signed_32 _ t1 t2, to_signed_of_signed_32 _ b1 b2,
      to_signed_of_signed_32 _ a1 a2, to_signed_of_signed_32 _ vb1 vb2,
      to_signed_of_signed_32 _ va1 va2, to_signed_of_signed_16 _ m1 m2,
      to_signed_of_signed_16 _ c1 c2]

theorem TASLine_to_bytes_length (l : TASLine) (h : l.representable) :
    l.to_bytes.length = 28 := by
  have hm := h.2.2.2.2.2.2.2
  simp [TASLine.to_bytes, le_bytes_length, hm]

theorem pack_lines_length (r : List TASLine) (h : ∀ l ∈ r, l.representable) :
    (pack_lines r).length = 28 * r.length := by
  induction r with
  | nil => rfl
  | cons l ls ih =>
    have hl := TASLine_to_bytes_length l (h l (by simp))
    have := ih (fun l1 h1 => h l1 (by simp [h1]))
    simp only [pack_lines, List.length_append, List.length_cons, hl, this]
    omega

theorem map_range_pack_lines (r : List TASLine) (h : ∀ l ∈ r, l.representable)
    (rest : List Byte) :
    (List.range r.length).map
      (fun i => TASLine.of_bytes (fread (pack_lines r ++ rest) (28 * i) 28)) = r := by
  induction r with
  | nil => rfl
  | cons l ls ih =>
    have hl := TASLine_to_bytes_length l (h l (by simp))
    have ih1 := ih (fun l1 h1 => h l1 (by simp [h1]))
    have h0 : TASLine.of_bytes (fread (pack_lines (l :: ls) ++ rest) (28 * 0) 28) = l := by
      simp only [pack_lines, fread, Nat.mul_zero, List.drop_zero, List.append_assoc]
      rw [List.take_append_of_le_length (by omega), List.take_of_length_le (by omega)]
      have := TASLine_of_bytes_to_bytes l [] (h l (by simp))
      rwa [List.append_nil] at this
    have h1 : ∀ i, fread (pack_lines (l :: ls) ++ rest) (28 * (i + 1)) 28
        = fread (pack_lines ls ++ rest) (28 * i) 28 := by
      intro i
      simp only [pack_lines, fread, List.append_assoc]
      rw [show 28 * (i + 1) = l.to_bytes.length + 28 * i by omega, List.drop_append]
    rw [List.length_cons, List.range_succ_eq_map, List.map_cons, List.map_map, h0]
    simp only [Function.comp_def, h1]
    rw [ih1]

theorem push_lines_pack_lines (r : List TASLine) (h : ∀ l ∈ r, l.representable)
    (rest : List Byte) :
    push_lines (pack_lines r ++ rest) (28 * r.length) = r := by
  unfold push_lines
  rw [sizeof_TASLine, Nat.mul_div_cancel_left _ (by decide : 0 < 28)]
  exact map_range_pack_lines r h rest

theorem push_lines_length (buf : List Byte) (n : Nat) :
    (push_lines buf n).length = n / 28 := by
  simp [push_lines, sizeof_TASLine]

theorem uncompress_ok_length (x : Externals) (destLen : Nat) (source : List Byte)
    (h : (uncompress x destLen source).1 = 0) :
    (uncompress x destLen source).2.length ≤ destLen := by
  unfold uncompress at h ⊢
  by_cases hnull : destLen ≠ 0 ∧ malloc x destLen = none
  · rw [if_pos hnull]
    exact Nat.zero_le _
  · rw [if_neg hnull] at h ⊢
    cases hx : x.inflate source with
    | stream bytes =>
      rw [hx] at h
      by_cases hle : bytes.length ≤ destLen
      · simp [hle]
      · simp [hle, Z_BUF_ERROR] at h
    | data_error => simp
    | mem_error => simp

/-! ## The index map -/

theorem find_insert_other (m : TASIndexMap) (d d1 : Date) (e : TASIndex) (h : d1 ≠ d) :
    TASIndexMap.find (TASIndexMap.insert m d e) d1 = TASIndexMap.find m d1 := by
  induction m with
  | nil => simp [TASIndexMap.insert, TASIndexMap.find, Ne.symm h]
  | cons p rest ih =>
    obtain ⟨k, v⟩ := p
    unfold TASIndexMap.insert
    by_cases h1 : d < k
    · simp [h1, TASIndexMap.find, Ne.symm h]
    · by_cases h2 : d = k
      · simp [h1, h2]
      · simp [h1, h2, TASIndexMap.find, ih]

theorem find_insert_absent (m : TASIndexMap) (d : Date) (e : TASIndex)
    (h : TASIndexMap.find m d = none) :
    TASIndexMap.find (TASIndexMap.insert m d e) d = some e := by
  induction m with
  | nil => simp [TASIndexMap.insert, TASIndexMap.find]
  | cons p rest ih =>
    obtain ⟨k, v⟩ := p
    unfold TASIndexMap.find at h
    by_cases hk : k = d
    · simp [hk] at h
    · simp only [hk, if_false] at h
      unfold TASIndexMap.insert
      by_cases h1 : d < k
      · simp [h1, TASIndexMap.find]
      · have h2 : ¬ d = k := fun e => hk e.symm
        simp [h1, h2, TASIndexMap.find, hk, ih h]

theorem length_insert_absent (m : TASIndexMap) (d : Date) (e : TASIndex)
    (h : TASIndexMap.find m d = none) :
    (TASIndexMap.insert m d e).length = m.length + 1 := by
  induction m with
  | nil => simp [TASIndexMap.insert]
  | cons p rest ih =>
    obtain ⟨k, v⟩ := p
    unfold TASIndexMap.find at h
    by_cases hk : k = d
    · simp [hk] at h
    · simp only [hk, if_false] at h
      unfold TASIndexMap.insert
      by_cases h1 : d < k
      · simp [h1]
      · have h2 : ¬ d = k := fun e => hk e.symm
        simp [h1, h2, ih h]

theorem insert_present (m : TASIndexMap) (d : Date) (e v : TASIndex)
    (hord : m.ordered) (h : TASIndexMap.find m d = some v) :
    TASIndexMap.insert m d e = m := by
  induction m with
  | nil => simp [TASIndexMap.find] at h
  | cons p rest ih =>
    obtain ⟨k, w⟩ := p
    unfold TASIndexMap.ordered at hord
    rw [List.pairwise_cons] at hord
    unfold TASIndexMap.find at h
    unfold TASIndexMap.insert
    by_cases hk : k = d
    · subst hk
      simp
    · simp only [hk, if_false] at h
      have hmem : ∃ p ∈ rest, p.1 = d := by
        clear ih hord
        induction rest with
        | nil => simp [TASIndexMap.find] at h
        | cons q rest1 ih1 =>
          obtain ⟨k1, w1⟩ := q
          unfold TASIndexMap.find at h
          by_cases hk1 : k1 = d
          · exact ⟨(k1, w1), by simp, hk1⟩
          · simp only [hk1, if_false] at h
            obtain ⟨p, hp, hpd⟩ := ih1 h
            exact ⟨p, by simp [hp], hpd⟩
      obtain ⟨p, hp, hpd⟩ := hmem
      have hlt : k < d := by
        have := hord.1 p hp
        rw [hpd] at this
        exact this
      have h1 : ¬ d < k := Nat.lt_asymm hlt
      have h2 : ¬ d = k := fun e => hk e.symm
      simp only [h1, h2, if_false]
      rw [ih hord.2 h]

theorem insert_ordered (m : TASIndexMap) (d : Date) (e : TASIndex) (hord : m.ordered) :
    (TASIndexMap.insert m d e).ordered := by
  induction m with
  | nil => simp [TASIndexMap.insert, TASIndexMap.ordered]
  | cons p rest ih =>
    obtain ⟨k, w⟩ := p
    unfold TASIndexMap.ordered at hord ⊢
    have hc := List.pairwise_cons.mp hord
    unfold TASIndexMap.insert
    by_cases h1 : d < k
    · simp only [h1, if_true]
      refine List.pairwise_cons.mpr ⟨?_, hord⟩
      intro q hq
      rcases List.mem_cons.mp hq with rfl | hq1
      · exact h1
      · exact Nat.lt_trans h1 (hc.1 q hq1)
    · by_cases h2 : d = k
      · rw [if_neg h1, if_pos h2]
        exact hord
      · simp only [h1, h2, if_false]
        refine List.pairwise_cons.mpr ⟨?_, ih hc.2⟩
        intro q hq
        have hkeys : ∀ (m1 : TASIndexMap) (q : Date × TASIndex),
            q ∈ TASIndexMap.insert m1 d e → q = (d, e) ∨ q ∈ m1 := by
          intro m1
          induction m1 with
          | nil => intro q hq; simp [TASIndexMap.insert] at hq; exact Or.inl hq
          | cons p1 r1 ih1 =>
            obtain ⟨k1, w1⟩ := p1
            intro q hq
            unfold TASIndexMap.insert at hq
            by_cases g1 : d < k1
            · simp only [g1, if_true] at hq
              rcases List.mem_cons.mp hq with rfl | hq1
              · exact Or.inl rfl
              · exact Or.inr hq1
            · by_cases g2 : d = k1
              · rw [if_neg g1, if_pos g2] at hq
                exact Or.inr hq
              · simp only [g1, g2, if_false] at hq
                rcases List.mem_cons.mp hq with rfl | hq1
                · exact Or.inr (by simp)
                · rcases ih1 q hq1 with h | h
                  · exact Or.inl h
                  · exact Or.inr (by simp [h])
        rcases hkeys rest q hq with rfl | hq1
        · exact Nat.lt_of_le_of_ne (Nat.not_lt.mp h1) (Ne.symm h2)
        · exact hc.1 q hq1

theorem set_size_uncompressed_same (m : TASIndexMap) (d : Date) (v : TASIndex)
    (h : TASIndexMap.find m d = some v) :
    TASIndexMap.set_size_uncompressed m d v.size_uncompressed = m := by
  induction m with
  | nil => rfl
  | cons p rest ih =>
    obtain ⟨k, w⟩ := p
    unfold TASIndexMap.find at h
    unfold TASIndexMap.set_size_uncompressed
    by_cases hk : k = d
    · simp only [hk, if_true, Option.some.injEq] at h
      subst h
      simp [hk]
    · simp only [hk, if_false] at h
      simp only [hk, if_false]
      rw [ih h]

/-! ## The insertion loop -/

theorem read_index_loop_parses (x : Externals) (idx : List Byte) (cs : List Nat) :
    ∀ m : TASIndexMap, (∀ c ∈ cs, (x.from_string (idx_at idx c).date).isSome) →
    ∃ m1, read_index_loop x idx cs m = some m1 := by
  induction cs with
  | nil => intro m _; exact ⟨m, rfl⟩
  | cons c cs ih =>
    intro m h
    obtain ⟨d, hd⟩ := Option.isSome_iff_exists.mp (h c (by simp))
    unfold read_index_loop
    rw [hd]
    exact ih _ (fun c1 h1 => h c1 (by simp [h1]))

theorem read_index_loop_distinct (x : Externals) (idx : List Byte) (dates : Nat → Date)
    (cs : List Nat) :
    ∀ m : TASIndexMap,
    (∀ c ∈ cs, x.from_string (idx_at idx c).date = some (dates c)) →
    List.Pairwise (fun a b => dates a ≠ dates b) cs →
    (∀ c ∈ cs, TASIndexMap.find m (dates c) = none) →
    ∃ m1, read_index_loop x idx cs m = some m1 ∧
      m1.length = m.length + cs.length ∧
      (∀ c ∈ cs, TASIndexMap.find m1 (dates c) = some (idx_at idx c)) ∧
      (∀ d v, TASIndexMap.find m d = some v → TASIndexMap.find m1 d = some v) := by
  induction cs with
  | nil => intro m _ _ _; exact ⟨m, rfl, rfl, by simp, fun _ _ h => h⟩
  | cons c cs ih =>
    intro m hd hp ha
    have hpc := List.pairwise_cons.mp hp
    have hc := hd c (by simp)
    have hac := ha c (by simp)
    have ha1 : ∀ c1 ∈ cs, TASIndexMap.find
        (TASIndexMap.insert m (dates c) (idx_at idx c)) (dates c1) = none := by
      intro c1 h1
      rw [find_insert_other _ _ _ _ (Ne.symm (hpc.1 c1 h1))]
      exact ha c1 (by simp [h1])
    obtain ⟨m1, hm1, hlen, hfind, hkeep⟩ :=
      ih (TASIndexMap.insert m (dates c) (idx_at idx c))
        (fun c1 h1 => hd c1 (by simp [h1])) hpc.2 ha1
    refine ⟨m1, ?_, ?_, ?_, ?_⟩
    · unfold read_index_loop
      rw [hc]
      exact hm1
    · rw [hlen, length_insert_absent _ _ _ hac, List.length_cons]
      omega
    · intro c1 h1
      rcases List.mem_cons.mp h1 with rfl | h2
      · exact hkeep _ _ (find_insert_absent _ _ _ hac)
      · exact hfind c1 h2
    · intro d v hv
      apply hkeep
      have hne : d ≠ dates c := by
        intro e
        rw [e, hac] at hv
        cases hv
      rw [find_insert_other _ _ _ _ hne]
      exact hv

theorem range_pairwise_of_injective (dates : Nat → Date) (n : Nat)
    (h : ∀ c1 < n, ∀ c2 < n, dates c1 = dates c2 → c1 = c2) :
    List.Pairwise (fun a b => dates a ≠ dates b) (List.range n) := by
  have hlt : List.Pairwise (fun a b => a < b) (List.range n) := List.pairwise_lt_range n
  refine List.Pairwise.imp_of_mem ?_ hlt
  intro a b ha hb hab e
  have := h a (List.mem_range.mp ha) b (List.mem_range.mp hb) e
  omega

theorem type_of_trades : type_of_identifier (str_bytes "TAS_TRADES") = "trades" := by decide

theorem type_of_quotes : type_of_identifier (str_bytes "TAS_QUOTES") = "quotes" := by decide

/-- A file with a valid header whose index region is read in full and whose
entries carry pairwise distinct valid dates: `read_index` called with an
empty map returns a map with `index_size / sizeof(TASIndex)` entries that
holds every entry under its date. -/
theorem read_index_distinct (x : Externals) (fs : FileSystem) (filename : String)
    (file : List Byte) (dates : Nat → Date) (hf : fs filename = some file)
    (hlen : sizeof TASHeader_members ≤ file.length)
    (hid : file.take 10 = str_bytes "TAS_QUOTES" ∨ file.take 10 = str_bytes "TAS_TRADES")
    (hver : (file.getD 10 0).val = 1)
    (hread : (index_region file).length = (header_of file).index_size)
    (hdates : ∀ c < (header_of file).index_size / sizeof TASIndex_members,
      x.from_string (idx_at (index_region file) c).date = some (dates c))
    (hdistinct : ∀ c1 < (header_of file).index_size / sizeof TASIndex_members,
      ∀ c2 < (header_of file).index_size / sizeof TASIndex_members,
      dates c1 = dates c2 → c1 = c2) :
    ∃ m, (read_index x fs filename []).outcome
        = .returned (type_of_identifier (file.take 10), m) ∧
      m.length = (header_of file).index_size / sizeof TASIndex_members ∧
      ∀ c < (header_of file).index_size / sizeof TASIndex_members,
        TASIndexMap.find m (dates c) = some (idx_at (index_region file) c) := by
  obtain ⟨m1, hm1, hl, hfind, _⟩ := read_index_loop_distinct x (index_region file) dates
    (List.range ((header_of file).index_size / sizeof TASIndex_members)) []
    (fun c hc => hdates c (List.mem_range.mp hc))
    (range_pairwise_of_injective dates _ hdistinct)
    (fun c _ => rfl)
  refine ⟨m1, ?_, ?_, ?_⟩
  · rw [read_index_valid x fs filename [] file hf hlen hid hver,
      if_neg (index_buffer_granted x file hread), if_pos hread, hm1]
  · rw [hl]; simp
  · intro c hc
    exact hfind c (List.mem_range.mpr hc)

theorem member_bytes_fread (idx : List Byte) (pos off size : Nat) (h : off + size ≤ 72) :
    member_bytes (fread idx pos 72) off size = (idx.drop (pos + off)).take size := by
  simp only [member_bytes, fread, List.drop_take, List.take_take, List.drop_drop]
  rw [Nat.min_eq_left (by omega), Nat.add_comm]

theorem idx_at_fields (idx : List Byte) (c : Nat) :
    idx_at idx c =
      { date := (idx.drop (72 * c)).take 10
        offset := le_nat ((idx.drop (72 * c + 16)).take 8)
        size_compressed := le_nat ((idx.drop (72 * c + 24)).take 8)
        size_uncompressed := le_nat ((idx.drop (72 * c + 32)).take 8)
        sha256 := (idx.drop (72 * c + 40)).take 32 } := by
  simp only [idx_at, TASIndex.of_bytes, sizeof_TASIndex, offsetof, offsets_TASIndex,
    List.getD_cons_zero, List.getD_cons_succ]
  rw [member_bytes_fread _ _ 0 10 (by omega), member_bytes_fread _ _ 16 8 (by omega),
    member_bytes_fread _ _ 24 8 (by omega), member_bytes_fread _ _ 32 8 (by omega),
    member_bytes_fread _ _ 40 32 (by omega)]
  rfl

/-! ## Records read from a filled buffer -/

theorem fread_append_left (w rest : List Byte) (pos count : Nat)
    (h : pos + count ≤ w.length) :
    fread (w ++ rest) pos count = fread w pos count := by
  unfold fread
  rw [List.drop_append_of_le_length (by omega)]
  rw [List.take_append_of_le_length (by simp; omega)]

theorem push_lines_append (w rest : List Byte) :
    push_lines (w ++ rest) w.length = push_lines w w.length := by
  unfold push_lines
  apply List.map_congr_left
  intro i hi
  have hi1 := List.mem_range.mp hi
  rw [sizeof_TASLine] at hi1 ⊢
  rw [fread_append_left]
  have := Nat.div_mul_le_self w.length 28
  have : (i + 1) * 28 ≤ w.length / 28 * 28 := Nat.mul_le_mul_right 28 hi1
  omega

/-- The run of `get_data` for a date whose block is read in full and inflated
without error. -/
theorem get_data_inflated (x : Externals) (fs : FileSystem) (filename : String)
    (day : Date) (bin_index : TASIndexMap) (entry : TASIndex) (file : List Byte)
    (hfind : TASIndexMap.find bin_index day = some entry)
    (hf : fs filename = some file)
    (hread : (block_of file entry).length = entry.size_compressed)
    (hok : (uncompress x entry.size_uncompressed (block_of file entry)).1 = 0) :
    (get_data x fs filename day bin_index).outcome =
      .returned
        (push_lines (uncompress x entry.size_uncompressed (block_of file entry)).2
          (uncompress x entry.size_uncompressed (block_of file entry)).2.length,
        TASIndexMap.set_size_uncompressed bin_index day
          (uncompress x entry.size_uncompressed (block_of file entry)).2.length) := by
  have hg := block_buffer_granted x file entry hread
  unfold block_of at hread hok hg ⊢
  unfold get_data
  simp only [hfind, hf, hread, hok, if_true, if_neg hg]
  rw [push_lines_append]

/-! ## What the two functions take from the environment -/

theorem malloc_eq_none (x : Externals) (n : Nat) :
    malloc x n = none ↔ x.grants n = false := by
  unfold malloc
  cases x.grants n <;> simp

theorem uncompress_congr (x1 x2 : Externals) (h : x2.inflate = x1.inflate)
    (hg : x2.grants = x1.grants) (destLen : Nat)
    (source : List Byte) : uncompress x2 destLen source = uncompress x1 destLen source := by
  unfold uncompress
  have e : (malloc x2 destLen = none) = (malloc x1 destLen = none) := by
    rw [malloc_eq_none, malloc_eq_none, hg]
  simp only [e, h]

theorem malloc_congr (x1 x2 : Externals) (h : x2.heap = x1.heap)
    (hg : x2.grants = x1.grants) (n : Nat) :
    malloc x2 n = malloc x1 n := by
  unfold malloc
  rw [h, hg]

theorem uncompress_ok_stream (x : Externals) (destLen : Nat) (source : List Byte)
    (h : (uncompress x destLen source).1 = 0) :
    x.inflate source = .stream (uncompress x destLen source).2 := by
  unfold uncompress at h ⊢
  by_cases hnull : destLen ≠ 0 ∧ malloc x destLen = none
  · rw [if_pos hnull] at h
    simp [Z_STREAM_ERROR] at h
  · rw [if_neg hnull] at h ⊢
    cases hx : x.inflate source with
    | stream bytes =>
      rw [hx] at h
      by_cases hle : bytes.length ≤ destLen
      · simp [hle]
      · simp [hle, Z_BUF_ERROR] at h
    | data_error => rw [hx] at h; simp [Z_DATA_ERROR] at h
    | mem_error => rw [hx] at h; simp [Z_MEM_ERROR] at h

/-- A run of `uncompress` that returns `Z_OK` had a destination: `malloc`
granted the buffer, or its size is 0. -/
theorem uncompress_ok_granted (x : Externals) (destLen : Nat) (source : List Byte)
    (h : (uncompress x destLen source).1 = 0) :
    destLen = 0 ∨ x.grants destLen = true := by
  unfold uncompress at h
  by_cases hnull : destLen ≠ 0 ∧ malloc x destLen = none
  · rw [if_pos hnull] at h
    simp [Z_STREAM_ERROR] at h
  · rw [malloc_eq_none] at hnull
    by_cases h0 : destLen = 0
    · exact Or.inl h0
    · right
      cases hgr : x.grants destLen with
      | true => rfl
      | false => exact absurd ⟨h0, hgr⟩ hnull

theorem find_set_size_uncompressed (m : TASIndexMap) (d : Date) (e : TASIndex) (n : Nat)
    (h : TASIndexMap.find m d = some e) :
    TASIndexMap.find (TASIndexMap.set_size_uncompressed m d n) d
      = some { e with size_uncompressed := n } := by
  induction m with
  | nil => simp [TASIndexMap.find] at h
  | cons p rest ih =>
    obtain ⟨k, w⟩ := p
    unfold TASIndexMap.find at h
    unfold TASIndexMap.set_size_uncompressed
    by_cases hk : k = d
    · simp only [hk, if_true, Option.some.injEq] at h
      subst h
      simp [hk, TASIndexMap.find]
    · simp only [hk, if_false] at h
      simp only [hk, if_false, TASIndexMap.find]
      exact ih h

theorem read_index_loop_eq_insert_entries (x : Externals) (idx : List Byte) (cs : List Nat) :
    ∀ m, read_index_loop x idx cs m = insert_entries x (cs.map (idx_at idx)) m := by
  induction cs with
  | nil => intro m; rfl
  | cons c cs ih =>
    intro m
    simp only [read_index_loop, List.map_cons, insert_entries]
    cases x.from_string (idx_at idx c).date with
    | none => rfl
    | some d => exact ih _

theorem insert_perm (m : TASIndexMap) (d : Date) (e : TASIndex)
    (h : TASIndexMap.find m d = none) :
    List.Perm (TASIndexMap.insert m d e) ((d, e) :: m) := by
  induction m with
  | nil => simp [TASIndexMap.insert]
  | cons p rest ih =>
    obtain ⟨k, v⟩ := p
    unfold TASIndexMap.find at h
    by_cases hk : k = d
    · simp [hk] at h
    · simp only [hk, if_false] at h
      unfold TASIndexMap.insert
      by_cases h1 : d < k
      · simp [h1]
      · have h2 : ¬ d = k := fun e => hk e.symm
        simp only [h1, h2, if_false]
        exact ((ih h).cons (k, v)).trans (List.Perm.swap _ _ _)

theorem insert_entries_perm (x : Externals) (entries : List TASIndex) :
    ∀ m : TASIndexMap, m.ordered →
    (∀ e ∈ entries, (x.from_string e.date).isSome) →
    List.Pairwise (fun a b : TASIndex => x.from_string a.date ≠ x.from_string b.date) entries →
    (∀ e ∈ entries, ∀ d, x.from_string e.date = some d → TASIndexMap.find m d = none) →
    ∃ m1, insert_entries x entries m = some m1 ∧ m1.ordered ∧
      List.Perm m1 (dated_entries x entries ++ m) := by
  induction entries with
  | nil => intro m hord _ _ _; exact ⟨m, rfl, hord, by simp [dated_entries]⟩
  | cons e es ih =>
    intro m hord hv hp ha
    obtain ⟨d, hd⟩ := Option.isSome_iff_exists.mp (hv e (by simp))
    have hpc := List.pairwise_cons.mp hp
    have had := ha e (by simp) d hd
    have ha1 : ∀ e1 ∈ es, ∀ d1, x.from_string e1.date = some d1 →
        TASIndexMap.find (TASIndexMap.insert m d e) d1 = none := by
      intro e1 h1 d1 hd1
      have hne : d1 ≠ d := by
        intro heq
        apply hpc.1 e1 h1
        rw [hd, hd1, heq]
      rw [find_insert_other _ _ _ _ hne]
      exact ha e1 (by simp [h1]) d1 hd1
    obtain ⟨m1, hm1, ho1, hperm⟩ := ih (TASIndexMap.insert m d e) (insert_ordered m d e hord)
      (fun e1 h1 => hv e1 (by simp [h1])) hpc.2 ha1
    refine ⟨m1, ?_, ho1, ?_⟩
    · simp only [insert_entries, hd]
      exact hm1
    · have hde : dated_entries x (e :: es) = (d, e) :: dated_entries x es := by
        simp [dated_entries, List.filterMap_cons, hd]
      rw [hde]
      refine hperm.trans ?_
      refine ((insert_perm m d e had).append_left (dated_entries x es)).trans ?_
      exact List.perm_middle

theorem ordered_eq_of_perm (m1 m2 : TASIndexMap) (h1 : m1.ordered) (h2 : m2.ordered)
    (hp : List.Perm m1 m2) : m1 = m2 := by
  haveI : IsAntisymm (Date × TASIndex) (fun a b => a.1 < b.1) :=
    ⟨fun _ _ hab hba => absurd hab (Nat.lt_asymm hba)⟩
  exact List.eq_of_perm_of_sorted hp h1 h2

/-- Entries with pairwise distinct valid dates, inserted into the empty map
in two orders, give the same map. -/
theorem insert_entries_order_independent (x : Externals) (entries1 entries2 : List TASIndex)
    (hperm : List.Perm entries2 entries1)
    (hv : ∀ e ∈ entries1, (x.from_string e.date).isSome)
    (hp : List.Pairwise (fun a b : TASIndex => x.from_string a.date ≠ x.from_string b.date)
      entries1) :
    ∃ m, insert_entries x entries1 [] = some m ∧ insert_entries x entries2 [] = some m := by
  have hv2 : ∀ e ∈ entries2, (x.from_string e.date).isSome :=
    fun e he => hv e (hperm.subset he)
  have hp2 : List.Pairwise (fun a b : TASIndex => x.from_string a.date ≠ x.from_string b.date)
      entries2 := (hperm.pairwise_iff (fun h => Ne.symm h)).mpr hp
  obtain ⟨m1, h1, o1, p1⟩ := insert_entries_perm x entries1 [] List.Pairwise.nil hv hp
    (fun _ _ _ _ => rfl)
  obtain ⟨m2, h2, o2, p2⟩ := insert_entries_perm x entries2 [] List.Pairwise.nil hv2 hp2
    (fun _ _ _ _ => rfl)
  have hpd : List.Perm (dated_entries x entries2) (dated_entries x entries1) :=
    hperm.filterMap _
  have hm : m2 = m1 := by
    apply ordered_eq_of_perm m2 m1 o2 o1
    rw [List.append_nil] at p1 p2
    exact p2.trans (hpd.trans p1.symm)
  exact ⟨m1, h1, by rw [h2, hm]⟩

theorem set_size_uncompressed_absent (m : TASIndexMap) (d : Date) (n : Nat)
    (h : TASIndexMap.find m d = none) : TASIndexMap.set_size_uncompressed m d n = m := by
  induction m with
  | nil => rfl
  | cons p rest ih =>
    obtain ⟨k, w⟩ := p
    unfold TASIndexMap.find at h
    unfold TASIndexMap.set_size_uncompressed
    by_cases hk : k = d
    · simp [hk] at h
    · simp only [hk, if_false] at h
      simp only [hk, if_false]
      rw [ih h]

theorem set_size_uncompressed_keys (m : TASIndexMap) (d : Date) (n : Nat) :
    (TASIndexMap.set_size_uncompressed m d n).map Prod.fst = m.map Prod.fst := by
  induction m with
  | nil => rfl
  | cons p rest ih =>
    obtain ⟨k, w⟩ := p
    unfold TASIndexMap.set_size_uncompressed
    by_cases hk : k = d
    · simp [hk]
    · simp [hk, ih]

theorem find_set_size_uncompressed_any (m : TASIndexMap) (d : Date) (n : Nat) (k : Date) :
    TASIndexMap.find (TASIndexMap.set_size_uncompressed m d n) k
      = (TASIndexMap.find m k).map
        (fun e => if k = d then { e with size_uncompressed := n } else e) := by
  induction m with
  | nil => rfl
  | cons p rest ih =>
    obtain ⟨k1, w⟩ := p
    unfold TASIndexMap.set_size_uncompressed
    by_cases hk : k1 = d
    · subst hk
      by_cases hkk : k1 = k
      · subst hkk
        simp [TASIndexMap.find]
      · have hkk2 : ¬ k = k1 := fun e => hkk e.symm
        simp only [if_true, TASIndexMap.find, hkk, if_false, hkk2]
        cases TASIndexMap.find rest k <;> simp
    · simp only [hk, if_false, TASIndexMap.find]
      by_cases hkk : k1 = k
      · subst hkk
        simp [hk]
      · simp only [hkk, if_false]
        exact ih

theorem unfilled_lines_index (uncompressed : Option (List Byte)) (size_uncompressed : Nat)
    (bin_index bin_index1 : TASIndexMap) (data : List TASLine)
    (h : unfilled_lines uncompressed size_uncompressed bin_index
      = .returned (data, bin_index1)) : bin_index1 = bin_index := by
  unfold unfilled_lines at h
  cases uncompressed with
  | some block =>
    simp only [Outcome.returned.injEq, Prod.mk.injEq] at h
    exact h.2.symm
  | none =>
    simp only at h
    split_ifs at h
    simp only [Outcome.returned.injEq, Prod.mk.injEq] at h
    exact h.2.symm

/-- The run of `get_data` for a file that does not open. -/
theorem get_data_not_opened (x : Externals) (fs : FileSystem) (filename : String)
    (day : Date) (bin_index : TASIndexMap) (entry : TASIndex)
    (hfind : TASIndexMap.find bin_index day = some entry) (hf : fs filename = none) :
    get_data x fs filename day bin_index =
      ⟨[.file_not_found],
        unfilled_lines (malloc x entry.size_uncompressed) entry.size_uncompressed
          bin_index⟩ := by
  simp [get_data, hfind, hf]

/-- The run of `get_data` for a block that is not read in full. -/
theorem get_data_short_read (x : Externals) (fs : FileSystem) (filename : String)
    (day : Date) (bin_index : TASIndexMap) (entry : TASIndex) (file : List Byte)
    (hfind : TASIndexMap.find bin_index day = some entry) (hf : fs filename = some file)
    (hread : (block_of file entry).length ≠ entry.size_compressed) :
    get_data x fs filename day bin_index =
      if block_of file entry ≠ [] ∧ granted x file.length entry.size_compressed = false then
        ⟨[], .undefined⟩
      else
        ⟨[], unfilled_lines (malloc x entry.size_uncompressed) entry.size_uncompressed
          bin_index⟩ := by
  unfold block_of at hread ⊢
  unfold get_data
  simp only [hfind, hf]
  rw [if_neg hread]

/-- The run of `get_data` for a block that is read in full and for which
`uncompress` returns an error code. -/
theorem get_data_gzip_error (x : Externals) (fs : FileSystem) (filename : String)
    (day : Date) (bin_index : TASIndexMap) (entry : TASIndex) (file : List Byte)
    (hfind : TASIndexMap.find bin_index day = some entry) (hf : fs filename = some file)
    (hread : (block_of file entry).length = entry.size_compressed)
    (herr : (uncompress x entry.size_uncompressed (block_of file entry)).1 ≠ 0) :
    get_data x fs filename day bin_index =
      TASERR (.gzip_error (uncompress x entry.size_uncompressed (block_of file entry)).1
        filename) := by
  have hg := block_buffer_granted x file entry hread
  unfold block_of at hread herr hg ⊢
  unfold get_data
  simp only [hfind, hf, hread, if_true, if_neg hg]
  rw [if_neg herr]

/-- A returning call of `get_data` either inflated the block of the date, and
then the index holds the inflated length in the entry of the date, or it
leaves the index as it was. -/
theorem get_data_index_cases (x : Externals) (fs : FileSystem) (filename : String)
    (day : Date) (bin_index bin_index1 : TASIndexMap) (data : List TASLine)
    (hret : (get_data x fs filename day bin_index).outcome = .returned (data, bin_index1)) :
    (∃ entry file, TASIndexMap.find bin_index day = some entry ∧ fs filename = some file ∧
      (block_of file entry).length = entry.size_compressed ∧
      (uncompress x entry.size_uncompressed (block_of file entry)).1 = 0 ∧
      bin_index1 = TASIndexMap.set_size_uncompressed bin_index day
        (uncompress x entry.size_uncompressed (block_of file entry)).2.length) ∨
    ((TASIndexMap.find bin_index day = none ∨
      ∃ entry, TASIndexMap.find bin_index day = some entry ∧
        (fs filename = none ∨ ∃ file, fs filename = some file ∧
          (block_of file entry).length ≠ entry.size_compressed)) ∧
      bin_index1 = bin_index) := by
  cases hfind : TASIndexMap.find bin_index day with
  | none =>
    have h1 : (get_data x fs filename day bin_index).outcome = .returned ([], bin_index) := by
      simp [get_data, hfind]
    rw [h1] at hret
    simp only [Outcome.returned.injEq, Prod.mk.injEq] at hret
    exact Or.inr ⟨Or.inl rfl, hret.2.symm⟩
  | some entry =>
    cases hf : fs filename with
    | none =>
      rw [get_data_not_opened x fs filename day bin_index entry hfind hf] at hret
      exact Or.inr ⟨Or.inr ⟨entry, rfl, Or.inl rfl⟩, unfilled_lines_index _ _ _ _ _ hret⟩
    | some file =>
      by_cases hread : (block_of file entry).length = entry.size_compressed
      · by_cases hok : (uncompress x entry.size_uncompressed (block_of file entry)).1 = 0
        · have h1 := get_data_inflated x fs filename day bin_index entry file hfind hf hread hok
          rw [h1] at hret
          simp only [Outcome.returned.injEq, Prod.mk.injEq] at hret
          exact Or.inl ⟨entry, file, rfl, rfl, hread, hok, hret.2.symm⟩
        · rw [get_data_gzip_error x fs filename day bin_index entry file hfind hf hread hok]
            at hret
          simp [TASERR] at hret
      · rw [get_data_short_read x fs filename day bin_index entry file hfind hf hread] at hret
        split_ifs at hret
        exact Or.inr ⟨Or.inr ⟨entry, rfl, Or.inr ⟨file, rfl, hread⟩⟩,
          unfilled_lines_index _ _ _ _ _ hret⟩

/-- The index a returning call of `get_data` leaves behind is the index it
was given, with the `size_uncompressed` of the looked-up entry assigned a value
that is at most the value stored before. -/
theorem get_data_index (x : Externals) (fs : FileSystem) (filename : String) (day : Date)
    (bin_index bin_index1 : TASIndexMap) (data : List TASLine)
    (hret : (get_data x fs filename day bin_index).outcome = .returned (data, bin_index1)) :
    ∃ size, bin_index1 = TASIndexMap.set_size_uncompressed bin_index day size ∧
      ∀ entry, TASIndexMap.find bin_index day = some entry →
        size ≤ entry.size_uncompressed := by
  rcases get_data_index_cases x fs filename day bin_index bin_index1 data hret with
    ⟨entry, file, hfind, _, _, hok, h1⟩ | ⟨hcase, h1⟩
  · refine ⟨_, h1, ?_⟩
    intro entry1 he
    rw [hfind] at he
    injection he with he
    rw [← he]
    exact uncompress_ok_length x _ _ hok
  · rcases hcase with hnone | ⟨entry, hfind, _⟩
    · exact ⟨0, by rw [h1, set_size_uncompressed_absent _ _ _ hnone],
        fun _ h => by rw [hnone] at h; cases h⟩
    · refine ⟨entry.size_uncompressed, by rw [h1, set_size_uncompressed_same _ _ _ hfind], ?_⟩
      intro entry1 he
      rw [hfind] at he
      injection he with he
      rw [he]

/-! ## The claims -/

/-- C1: for every index map and every date that is not a key of the map,
`get_data` returns the empty record sequence, prints nothing and leaves the
map as it is, whatever the file system holds under the file name. -/
theorem C1_get_data_absent_date (x : Externals) (fs : FileSystem) (filename : String)
    (day : Date) (bin_index : TASIndexMap) (h : TASIndexMap.find bin_index day = none) :
    get_data x fs filename day bin_index = ⟨[], .returned ([], bin_index)⟩ := by
  simp [get_data, h]

theorem C1_get_data_absent_date_witness :
    TASIndexMap.find sample_index (day_number 2008 1 4) = none ∧
    get_data sample_env (one_file sample_file) "missing.trades" (day_number 2008 1 4)
      sample_index = ⟨[], .returned ([], sample_index)⟩ :=
  ⟨by decide, C1_get_data_absent_date _ _ _ _ _ (by decide)⟩

/-- C2: read half of the round trip. If the index holds an entry for the date
with `size_uncompressed = 28 * |r|`, the file opens, the `size_compressed` bytes
at the entry's offset are read in full and `uncompress` turns them without
error into the packed 28-byte serialisations of `r` in order, then `get_data`
returns exactly `r` (and the index is as before). -/
theorem C2_get_data_returns_stored_records (x : Externals) (fs : FileSystem)
    (filename : String) (day : Date) (bin_index : TASIndexMap) (entry : TASIndex)
    (file : List Byte) (r : List TASLine)
    (hr : ∀ l ∈ r, l.representable)
    (hfind : TASIndexMap.find bin_index day = some entry)
    (hsize : entry.size_uncompressed = 28 * r.length)
    (hf : fs filename = some file)
    (hread : (block_of file entry).length = entry.size_compressed)
    (hunz : uncompress x entry.size_uncompressed (block_of file entry) = (Z_OK, pack_lines r)) :
    (get_data x fs filename day bin_index).outcome = .returned (r, bin_index) := by
  have hg := block_buffer_granted x file entry hread
  unfold block_of at hread hunz hg
  unfold get_data
  simp only [hfind, hf, hread, hunz, if_true, Z_OK, if_neg hg]
  rw [pack_lines_length r hr, push_lines_pack_lines r hr, ← hsize,
    set_size_uncompressed_same bin_index day entry hfind]

theorem C2_get_data_returns_stored_records_witness :
    ((∀ l ∈ sample_lines, l.representable) ∧
      TASIndexMap.find sample_index (day_number 2008 1 2) = some sample_entry ∧
      sample_entry.size_uncompressed = 28 * sample_lines.length ∧
      one_file sample_file "sample.trades" = some sample_file ∧
      (block_of sample_file sample_entry).length = sample_entry.size_compressed ∧
      uncompress sample_env sample_entry.size_uncompressed
        (block_of sample_file sample_entry) = (Z_OK, pack_lines sample_lines)) ∧
    (get_data sample_env (one_file sample_file) "sample.trades" (day_number 2008 1 2)
        sample_index).outcome = .returned (sample_lines, sample_index) :=
  ⟨⟨by decide, by decide, by decide, by decide, by decide, by decide⟩,
    C2_get_data_returns_stored_records sample_env (one_file sample_file) "sample.trades"
      (day_number 2008 1 2) sample_index sample_entry sample_file sample_lines
      (by decide) (by decide) (by decide) (by decide) (by decide) (by decide)⟩

/-- C3, as stated, fails: an entry that stores `size_uncompressed = 56` for a
block that is read in full and inflates without error to 28 bytes makes
`get_data` return one record, not `56 / 28 = 2`. -/
theorem C3_record_count_counterexample :
    TASIndexMap.find short_index (day_number 2008 1 3) = some short_entry ∧
    (block_of short_file short_entry).length = short_entry.size_compressed ∧
    (uncompress sample_env short_entry.size_uncompressed
      (block_of short_file short_entry)).1 = 0 ∧
    short_entry.size_uncompressed / sizeof TASLine_members = 2 ∧
    (get_data sample_env (one_file short_file) "sample.trades" (day_number 2008 1 3)
        short_index).outcome =
      .returned (sample_lines.take 1,
        [(day_number 2008 1 3, { short_entry with size_uncompressed := 28 })]) ∧
    (sample_lines.take 1).length = 1 := by
  decide

/-- C3, amended: for a date present in the index whose block is read in full
and inflated without error, `get_data` returns, and the number of records is
the number of bytes the block inflated to, divided by the record size 28; that
number of bytes is at most the `size_uncompressed` stored before the call, and
when it is equal the count is the stored value divided by 28. -/
theorem C3_record_count_is_inflated_size (x : Externals) (fs : FileSystem)
    (filename : String) (day : Date) (bin_index : TASIndexMap) (entry : TASIndex)
    (file : List Byte)
    (hfind : TASIndexMap.find bin_index day = some entry)
    (hf : fs filename = some file)
    (hread : (block_of file entry).length = entry.size_compressed)
    (hok : (uncompress x entry.size_uncompressed (block_of file entry)).1 = 0) :
    ∃ data bin_index1, (get_data x fs filename day bin_index).outcome
        = .returned (data, bin_index1) ∧
      data.length = (uncompress x entry.size_uncompressed (block_of file entry)).2.length
        / sizeof TASLine_members ∧
      (uncompress x entry.size_uncompressed (block_of file entry)).2.length
        ≤ entry.size_uncompressed ∧
      ((uncompress x entry.size_uncompressed (block_of file entry)).2.length
          = entry.size_uncompressed →
        data.length = entry.size_uncompressed / sizeof TASLine_members) := by
  have hle := uncompress_ok_length x _ _ hok
  have hg := block_buffer_granted x file entry hread
  unfold block_of at hread hok hle hg ⊢
  unfold get_data
  simp only [hfind, hf, hread, hok, if_true, if_neg hg]
  refine ⟨_, _, rfl, ?_, hle, ?_⟩
  · rw [push_lines_length, sizeof_TASLine]
  · intro he
    rw [push_lines_length, sizeof_TASLine, he]

theorem C3_record_count_is_inflated_size_witness :
    (TASIndexMap.find short_index (day_number 2008 1 3) = some short_entry ∧
      one_file short_file "sample.trades" = some short_file ∧
      (block_of short_file short_entry).length = short_entry.size_compressed ∧
      (uncompress sample_env short_entry.size_uncompressed
        (block_of short_file short_entry)).1 = 0) ∧
    ∃ data bin_index1, (get_data sample_env (one_file short_file) "sample.trades"
        (day_number 2008 1 3) short_index).outcome = .returned (data, bin_index1) ∧
      data.length = (uncompress sample_env short_entry.size_uncompressed
        (block_of short_file short_entry)).2.length / sizeof TASLine_members ∧
      (uncompress sample_env short_entry.size_uncompressed
        (block_of short_file short_entry)).2.length ≤ short_entry.size_uncompressed ∧
      ((uncompress sample_env short_entry.size_uncompressed
          (block_of short_file short_entry)).2.length = short_entry.size_uncompressed →
        data.length = short_entry.size_uncompressed / sizeof TASLine_members) :=
  ⟨⟨by decide, by decide, by decide, by decide⟩,
    C3_record_count_is_inflated_size sample_env (one_file short_file) "sample.trades"
      (day_number 2008 1 3) short_index short_entry short_file
      (by decide) (by decide) (by decide) (by decide)⟩

/-- C4: for a file holding a complete header, `read_index` ends through
`TASERR` when the 10-byte identifier is neither tag, and ends through `TASERR`
when the version byte is not 1; with one of the two tags and version 1 it does
not end through `TASERR`. -/
theorem C4_header_validation (x : Externals) (fs : FileSystem) (filename : String)
    (bin_index : TASIndexMap) (file : List Byte) (hf : fs filename = some file)
    (hlen : sizeof TASHeader_members ≤ file.length) :
    ((file.take 10 ≠ str_bytes "TAS_QUOTES" ∧ file.take 10 ≠ str_bytes "TAS_TRADES") →
      read_index x fs filename bin_index = TASERR .not_valid_tas) ∧
    ((file.getD 10 0).val ≠ 1 →
      (read_index x fs filename bin_index).outcome = .exited (-1)) ∧
    ((file.take 10 = str_bytes "TAS_QUOTES" ∨ file.take 10 = str_bytes "TAS_TRADES") →
      (file.getD 10 0).val = 1 →
      ∀ code, (read_index x fs filename bin_index).outcome ≠ .exited code) := by
  have h72 : 72 ≤ file.length := by rw [sizeof_TASHeader] at hlen; exact hlen
  have hl : (fread file 0 (sizeof TASHeader_members)).length = sizeof TASHeader_members := by
    rw [fread_length]; omega
  have hi10 : (file.take 10).length = 10 := by simp; omega
  have hv := header_version file h72
  have hi := header_identifier file
  refine ⟨?_, ?_, ?_⟩
  · intro hbad
    have hchk : strncmp (str_bytes "TAS_QUOTES") (file.take 10) 10 ≠ 0 ∧
        strncmp (str_bytes "TAS_TRADES") (file.take 10) 10 ≠ 0 := by
      rw [Ne, Ne, strncmp_quotes _ hi10, strncmp_trades _ hi10]
      exact hbad
    unfold read_index
    simp only [hf, hl, if_true]
    rw [hi, if_pos hchk]
  · intro hver
    unfold read_index
    simp only [hf, hl, if_true]
    rw [hi, hv]
    split
    · rfl
    · rfl
  · intro hid hver code
    rw [read_index_valid x fs filename bin_index file hf hlen hid hver]
    split
    · simp
    · split
      · split <;> simp
      · simp

theorem C4_header_validation_witness :
    ((sample_file.take 10 ≠ str_bytes "TAS_QUOTES" ∧
        sample_file.take 10 ≠ str_bytes "TAS_TRADES") →
      read_index sample_env (one_file sample_file) "sample.trades" []
        = TASERR .not_valid_tas) ∧
    ((sample_file.getD 10 0).val ≠ 1 →
      (read_index sample_env (one_file sample_file) "sample.trades" []).outcome
        = .exited (-1)) ∧
    ((sample_file.take 10 = str_bytes "TAS_QUOTES" ∨
        sample_file.take 10 = str_bytes "TAS_TRADES") →
      (sample_file.getD 10 0).val = 1 →
      ∀ code, (read_index sample_env (one_file sample_file) "sample.trades" []).outcome
        ≠ .exited code) :=
  C4_header_validation sample_env (one_file sample_file) "sample.trades" [] sample_file
    (by decide) (by decide)

/-- C5, as stated, fails: for an existing file of ten bytes (shorter than the
72-byte header) `read_index` returns normally, with the empty type string and
the index map it was given. -/
theorem C5_short_header_counterexample :
    one_file truncated_file "sample.trades" = some truncated_file ∧
    truncated_file.length < sizeof TASHeader_members ∧
    read_index sample_env (one_file truncated_file) "sample.trades" []
      = ⟨[], .returned ("", [])⟩ := by
  decide

/-- C5, amended: for every existing file shorter than the header,
`read_index` returns normally: it prints nothing, returns the empty type string
and leaves the index map unchanged. -/
theorem C5_short_header_returns_empty (x : Externals) (fs : FileSystem) (filename : String)
    (bin_index : TASIndexMap) (file : List Byte) (hf : fs filename = some file)
    (hlen : file.length < sizeof TASHeader_members) :
    read_index x fs filename bin_index = ⟨[], .returned ("", bin_index)⟩ := by
  have hl : (fread file 0 (sizeof TASHeader_members)).length ≠ sizeof TASHeader_members := by
    rw [fread_length]; omega
  unfold read_index
  simp only [hf]
  rw [if_neg hl]

theorem C5_short_header_returns_empty_witness :
    (one_file truncated_file "sample.trades" = some truncated_file ∧
      truncated_file.length < sizeof TASHeader_members) ∧
    read_index sample_env (one_file truncated_file) "sample.trades" sample_index
      = ⟨[], .returned ("", sample_index)⟩ :=
  ⟨⟨by decide, by decide⟩,
    C5_short_header_returns_empty sample_env (one_file truncated_file) "sample.trades"
      sample_index truncated_file (by decide) (by decide)⟩

/-- C6, as stated, fails: a file with a complete header that passes both
checks (tag `TAS_TRADES`, version 1) whose index entry carries the date text
`2008-13-45` makes `from_string` throw, so `read_index` returns no string. -/
theorem C6_type_string_counterexample :
    one_file bad_date_file "sample.trades" = some bad_date_file ∧
    sizeof TASHeader_members ≤ bad_date_file.length ∧
    bad_date_file.take 10 = str_bytes "TAS_TRADES" ∧
    (bad_date_file.getD 10 0).val = 1 ∧
    (read_index sample_env (one_file bad_date_file) "sample.trades" []).outcome
      = .thrown := by
  decide

/-- C6, amended: for a file with a complete header that passes validation,
for which `malloc` grants the index buffer and whose index entries, when the
index region is read in full, all carry dates that `from_string` accepts,
`read_index` returns the string `trades` when the identifier is `TAS_TRADES` and
`quotes` when it is `TAS_QUOTES`. When `malloc` returns `NULL` for the index
buffer and the file holds a byte of the index region, `fread` writes through
the null pointer and no string is returned. -/
theorem C6_type_string_of_tag (x : Externals) (fs : FileSystem) (filename : String)
    (bin_index : TASIndexMap) (file : List Byte) (hf : fs filename = some file)
    (hlen : sizeof TASHeader_members ≤ file.length)
    (hver : (file.getD 10 0).val = 1)
    (hdates : (index_region file).length = (header_of file).index_size →
      ∀ c < (header_of file).index_size / sizeof TASIndex_members,
        (x.from_string (idx_at (index_region file) c).date).isSome) :
    (granted x file.length (header_of file).index_size = true →
      file.take 10 = str_bytes "TAS_TRADES" →
      ∃ m, (read_index x fs filename bin_index).outcome = .returned ("trades", m)) ∧
    (granted x file.length (header_of file).index_size = true →
      file.take 10 = str_bytes "TAS_QUOTES" →
      ∃ m, (read_index x fs filename bin_index).outcome = .returned ("quotes", m)) ∧
    (granted x file.length (header_of file).index_size = false →
      index_region file ≠ [] →
      file.take 10 = str_bytes "TAS_QUOTES" ∨ file.take 10 = str_bytes "TAS_TRADES" →
      read_index x fs filename bin_index = ⟨[], .undefined⟩) := by
  have key : ∀ (_ : granted x file.length (header_of file).index_size = true)
      (hid : file.take 10 = str_bytes "TAS_QUOTES" ∨
        file.take 10 = str_bytes "TAS_TRADES"),
      ∃ m, (read_index x fs filename bin_index).outcome
        = .returned (type_of_identifier (file.take 10), m) := by
    intro hgrant hid
    rw [read_index_valid x fs filename bin_index file hf hlen hid hver,
      if_neg (by rw [hgrant]; simp)]
    by_cases hread : (index_region file).length = (header_of file).index_size
    · obtain ⟨m1, hm1⟩ := read_index_loop_parses x (index_region file)
        (List.range ((header_of file).index_size / sizeof TASIndex_members)) bin_index
        (fun c hc => hdates hread c (List.mem_range.mp hc))
      rw [if_pos hread, hm1]
      exact ⟨m1, rfl⟩
    · rw [if_neg hread]
      exact ⟨bin_index, rfl⟩
  refine ⟨?_, ?_, ?_⟩
  · intro hgrant h
    have := key hgrant (Or.inr h)
    rwa [h, type_of_trades] at this
  · intro hgrant h
    have := key hgrant (Or.inl h)
    rwa [h, type_of_quotes] at this
  · intro hnull hne hid
    rw [read_index_valid x fs filename bin_index file hf hlen hid hver,
      if_pos ⟨hne, hnull⟩]

theorem C6_type_string_of_tag_witness :
    (one_file sample_file "sample.trades" = some sample_file ∧
      sizeof TASHeader_members ≤ sample_file.length ∧
      (sample_file.getD 10 0).val = 1 ∧
      ((index_region sample_file).length = (header_of sample_file).index_size →
        ∀ c < (header_of sample_file).index_size / sizeof TASIndex_members,
          (sample_env.from_string (idx_at (index_region sample_file) c).date).isSome) ∧
      granted sample_env sample_file.length (header_of sample_file).index_size = true ∧
      sample_file.take 10 = str_bytes "TAS_TRADES" ∧
      (read_index sample_env (one_file sample_file) "sample.trades" []).outcome
        = .returned ("trades", sample_index) ∧
      granted sample_env huge_index_file.length (header_of huge_index_file).index_size
        = false ∧
      read_index sample_env (one_file huge_index_file) "sample.trades" []
        = ⟨[], .undefined⟩) ∧
    ((granted sample_env sample_file.length (header_of sample_file).index_size = true →
      sample_file.take 10 = str_bytes "TAS_TRADES" →
      ∃ m, (read_index sample_env (one_file sample_file) "sample.trades" []).outcome
        = .returned ("trades", m)) ∧
    (granted sample_env sample_file.length (header_of sample_file).index_size = true →
      sample_file.take 10 = str_bytes "TAS_QUOTES" →
      ∃ m, (read_index sample_env (one_file sample_file) "sample.trades" []).outcome
        = .returned ("quotes", m)) ∧
    (granted sample_env sample_file.length (header_of sample_file).index_size = false →
      index_region sample_file ≠ [] →
      sample_file.take 10 = str_bytes "TAS_QUOTES" ∨
        sample_file.take 10 = str_bytes "TAS_TRADES" →
      read_index sample_env (one_file sample_file) "sample.trades" []
        = ⟨[], .undefined⟩)) :=
  ⟨⟨by decide, by decide, by decide, by decide, by decide, by decide, by decide, by decide,
      by decide⟩,
    C6_type_string_of_tag sample_env (one_file sample_file) "sample.trades" [] sample_file
      (by decide) (by decide) (by decide) (by decide)⟩

/-- C7: for a file with a valid header whose index region of `index_size`
bytes is read in full and whose entries carry pairwise distinct valid dates,
`read_index` called with an empty map returns a map with exactly
`index_size / sizeof(TASIndex)` entries, and the lookup of the date of the
`c`-th stored entry yields that entry, with its offset, sizes and checksum as
stored. -/
theorem C7_read_index_builds_map (x : Externals) (fs : FileSystem) (filename : String)
    (file : List Byte) (dates : Nat → Date) (hf : fs filename = some file)
    (hlen : sizeof TASHeader_members ≤ file.length)
    (hid : file.take 10 = str_bytes "TAS_QUOTES" ∨ file.take 10 = str_bytes "TAS_TRADES")
    (hver : (file.getD 10 0).val = 1)
    (hread : (index_region file).length = (header_of file).index_size)
    (hdates : ∀ c < (header_of file).index_size / sizeof TASIndex_members,
      x.from_string (idx_at (index_region file) c).date = some (dates c))
    (hdistinct : ∀ c1 < (header_of file).index_size / sizeof TASIndex_members,
      ∀ c2 < (header_of file).index_size / sizeof TASIndex_members,
      dates c1 = dates c2 → c1 = c2) :
    ∃ m, (read_index x fs filename []).outcome
        = .returned (type_of_identifier (file.take 10), m) ∧
      m.length = (header_of file).index_size / sizeof TASIndex_members ∧
      ∀ c < (header_of file).index_size / sizeof TASIndex_members,
        TASIndexMap.find m (dates c) = some (idx_at (index_region file) c) ∧
        (idx_at (index_region file) c).offset
          = le_nat (((index_region file).drop (sizeof TASIndex_members * c
              + offsetof TASIndex_members 1)).take 8) ∧
        (idx_at (index_region file) c).size_compressed
          = le_nat (((index_region file).drop (sizeof TASIndex_members * c
              + offsetof TASIndex_members 2)).take 8) ∧
        (idx_at (index_region file) c).size_uncompressed
          = le_nat (((index_region file).drop (sizeof TASIndex_members * c
              + offsetof TASIndex_members 3)).take 8) ∧
        (idx_at (index_region file) c).sha256
          = ((index_region file).drop (sizeof TASIndex_members * c
              + offsetof TASIndex_members 4)).take 32 := by
  obtain ⟨m, h1, h2, h3⟩ :=
    read_index_distinct x fs filename file dates hf hlen hid hver hread hdates hdistinct
  refine ⟨m, h1, h2, ?_⟩
  intro c hc
  refine ⟨h3 c hc, ?_⟩
  rw [idx_at_fields]
  simp [sizeof_TASIndex, offsetof, offsets_TASIndex]

theorem C7_read_index_builds_map_witness :
    (one_file two_day_file "sample.trades" = some two_day_file ∧
      sizeof TASHeader_members ≤ two_day_file.length ∧
      (two_day_file.take 10 = str_bytes "TAS_QUOTES" ∨
        two_day_file.take 10 = str_bytes "TAS_TRADES") ∧
      (two_day_file.getD 10 0).val = 1 ∧
      (index_region two_day_file).length = (header_of two_day_file).index_size ∧
      (∀ c < (header_of two_day_file).index_size / sizeof TASIndex_members,
        sample_env.from_string (idx_at (index_region two_day_file) c).date
          = some (two_day_dates c)) ∧
      (∀ c1 < (header_of two_day_file).index_size / sizeof TASIndex_members,
        ∀ c2 < (header_of two_day_file).index_size / sizeof TASIndex_members,
        two_day_dates c1 = two_day_dates c2 → c1 = c2)) ∧
    ∃ m, (read_index sample_env (one_file two_day_file) "sample.trades" []).outcome
        = .returned (type_of_identifier (two_day_file.take 10), m) ∧
      m.length = (header_of two_day_file).index_size / sizeof TASIndex_members ∧
      ∀ c < (header_of two_day_file).index_size / sizeof TASIndex_members,
        TASIndexMap.find m (two_day_dates c) = some (idx_at (index_region two_day_file) c) ∧
        (idx_at (index_region two_day_file) c).offset
          = le_nat (((index_region two_day_file).drop (sizeof TASIndex_members * c
              + offsetof TASIndex_members 1)).take 8) ∧
        (idx_at (index_region two_day_file) c).size_compressed
          = le_nat (((index_region two_day_file).drop (sizeof TASIndex_members * c
              + offsetof TASIndex_members 2)).take 8) ∧
        (idx_at (index_region two_day_file) c).size_uncompressed
          = le_nat (((index_region two_day_file).drop (sizeof TASIndex_members * c
              + offsetof TASIndex_members 3)).take 8) ∧
        (idx_at (index_region two_day_file) c).sha256
          = ((index_region two_day_file).drop (sizeof TASIndex_members * c
              + offsetof TASIndex_members 4)).take 32 :=
  ⟨⟨by decide, by decide, by decide, by decide, by decide, by decide, by decide⟩,
    C7_read_index_builds_map sample_env (one_file two_day_file) "sample.trades"
      two_day_file two_day_dates (by decide) (by decide) (by decide) (by decide) (by decide)
      (by decide) (by decide)⟩

/-- C8, as stated, fails: `sizeof(TASIndex)` is 72, not 66, and the offset
member starts at byte 16, not 10. For an index region of 132 bytes holding two
entries written in the 66-byte layout, `read_index` builds one entry, not
`132 / 66 = 2`, and that entry is not the first stored entry. -/
theorem C8_packed_layout_counterexample :
    sizeof TASIndex_members ≠ 66 ∧
    offsetof TASIndex_members 1 ≠ 10 ∧
    (header_of packed66_file).index_size = 132 ∧
    index_region packed66_file = sample_entry.to_packed66 ++ second_entry.to_packed66 ∧
    ∃ m, (read_index sample_env (one_file packed66_file) "sample.trades" []).outcome
        = .returned ("trades", m) ∧
      m.length = 1 ∧
      (header_of packed66_file).index_size / 66 = 2 ∧
      TASIndexMap.find m (day_number 2008 1 2) ≠ some sample_entry := by
  refine ⟨by decide, by decide, by decide, by decide, ?_⟩
  refine ⟨[(day_number 2008 1 2, idx_at (index_region packed66_file) 0)], ?_, ?_, ?_, ?_⟩
  · decide
  · decide
  · decide
  · decide

/-- C8, amended: the index region parsed by `read_index` consists of entries
of exactly 72 bytes packed back-to-back in the layout `date[10]`, six padding
bytes, `offset(8)`, `size_compressed(8)`, `size_uncompressed(8)`,
`checksum[32]`: entry `c` occupies bytes `72*c .. 72*c+71` of the region, its
offset member starts at byte `72*c+16`, and for a valid file whose entries
carry pairwise distinct valid dates the entry count is `index_size / 72`. -/
theorem C8_index_entry_layout (x : Externals) (fs : FileSystem) (filename : String)
    (file : List Byte) (dates : Nat → Date) (hf : fs filename = some file)
    (hlen : sizeof TASHeader_members ≤ file.length)
    (hid : file.take 10 = str_bytes "TAS_QUOTES" ∨ file.take 10 = str_bytes "TAS_TRADES")
    (hver : (file.getD 10 0).val = 1)
    (hread : (index_region file).length = (header_of file).index_size)
    (hdates : ∀ c < (header_of file).index_size / sizeof TASIndex_members,
      x.from_string (idx_at (index_region file) c).date = some (dates c))
    (hdistinct : ∀ c1 < (header_of file).index_size / sizeof TASIndex_members,
      ∀ c2 < (header_of file).index_size / sizeof TASIndex_members,
      dates c1 = dates c2 → c1 = c2) :
    sizeof TASIndex_members = 72 ∧
    offsets_from 0 TASIndex_members = [0, 16, 24, 32, 40] ∧
    (∀ c, idx_at (index_region file) c
        = TASIndex.of_bytes (((index_region file).drop (72 * c)).take 72) ∧
      idx_at (index_region file) c =
        { date := ((index_region file).drop (72 * c)).take 10
          offset := le_nat (((index_region file).drop (72 * c + 16)).take 8)
          size_compressed := le_nat (((index_region file).drop (72 * c + 24)).take 8)
          size_uncompressed := le_nat (((index_region file).drop (72 * c + 32)).take 8)
          sha256 := ((index_region file).drop (72 * c + 40)).take 32 }) ∧
    ∃ m, (read_index x fs filename []).outcome
        = .returned (type_of_identifier (file.take 10), m) ∧
      m.length = (header_of file).index_size / 72 := by
  refine ⟨sizeof_TASIndex, offsets_TASIndex, ?_, ?_⟩
  · intro c
    refine ⟨?_, idx_at_fields _ c⟩
    simp [idx_at, fread, sizeof_TASIndex]
  · obtain ⟨m, h1, h2, _⟩ :=
      read_index_distinct x fs filename file dates hf hlen hid hver hread hdates hdistinct
    rw [sizeof_TASIndex] at h2
    exact ⟨m, h1, h2⟩

theorem C8_index_entry_layout_witness :
    (one_file two_day_file "sample.trades" = some two_day_file ∧
      sizeof TASHeader_members ≤ two_day_file.length ∧
      (two_day_file.take 10 = str_bytes "TAS_QUOTES" ∨
        two_day_file.take 10 = str_bytes "TAS_TRADES") ∧
      (two_day_file.getD 10 0).val = 1 ∧
      (index_region two_day_file).length = (header_of two_day_file).index_size ∧
      (∀ c < (header_of two_day_file).index_size / sizeof TASIndex_members,
        sample_env.from_string (idx_at (index_region two_day_file) c).date
          = some (two_day_dates c)) ∧
      (∀ c1 < (header_of two_day_file).index_size / sizeof TASIndex_members,
        ∀ c2 < (header_of two_day_file).index_size / sizeof TASIndex_members,
        two_day_dates c1 = two_day_dates c2 → c1 = c2)) ∧
    (sizeof TASIndex_members = 72 ∧
    offsets_from 0 TASIndex_members = [0, 16, 24, 32, 40] ∧
    (∀ c, idx_at (index_region two_day_file) c
        = TASIndex.of_bytes (((index_region two_day_file).drop (72 * c)).take 72) ∧
      idx_at (index_region two_day_file) c =
        { date := ((index_region two_day_file).drop (72 * c)).take 10
          offset := le_nat (((index_region two_day_file).drop (72 * c + 16)).take 8)
          size_compressed := le_nat (((index_region two_day_file).drop (72 * c + 24)).take 8)
          size_uncompressed :=
            le_nat (((index_region two_day_file).drop (72 * c + 32)).take 8)
          sha256 := ((index_region two_day_file).drop (72 * c + 40)).take 32 }) ∧
    ∃ m, (read_index sample_env (one_file two_day_file) "sample.trades" []).outcome
        = .returned (type_of_identifier (two_day_file.take 10), m) ∧
      m.length = (header_of two_day_file).index_size / 72) :=
  ⟨⟨by decide, by decide, by decide, by decide, by decide, by decide, by decide⟩,
    C8_index_entry_layout sample_env (one_file two_day_file) "sample.trades"
      two_day_file two_day_dates (by decide) (by decide) (by decide) (by decide) (by decide)
      (by decide) (by decide)⟩

/-- C9, as stated, fails: for a file whose index region holds two entries
with the same date, `read_index` returns normally; the map holds the first of
the two entries and the second is dropped. -/
theorem C9_duplicate_date_counterexample :
    index_region duplicate_file = sample_entry.to_bytes ++ duplicate_entry.to_bytes ∧
    sample_env.from_string (idx_at (index_region duplicate_file) 0).date
      = sample_env.from_string (idx_at (index_region duplicate_file) 1).date ∧
    idx_at (index_region duplicate_file) 0 ≠ idx_at (index_region duplicate_file) 1 ∧
    (read_index sample_env (one_file duplicate_file) "sample.trades" []).outcome
      = .returned ("trades", [(day_number 2008 1 2, sample_entry)]) := by
  decide

/-- C9, amended: if the index being built already holds an entry for a date
and another entry with the same date is inserted, the insertion leaves the
index as it is (the entry already held stays, the later one is dropped) and the
loop of `read_index` goes on with the next entry; no error is raised. -/
theorem C9_duplicate_date_keeps_first (x : Externals) (idx : List Byte) (c : Nat)
    (cs : List Nat) (bin_index : TASIndexMap) (date : Date) (held : TASIndex)
    (hord : bin_index.ordered)
    (hdate : x.from_string (idx_at idx c).date = some date)
    (hheld : TASIndexMap.find bin_index date = some held) :
    TASIndexMap.insert bin_index date (idx_at idx c) = bin_index ∧
    read_index_loop x idx (c :: cs) bin_index = read_index_loop x idx cs bin_index := by
  have h := insert_present bin_index date (idx_at idx c) held hord hheld
  refine ⟨h, ?_⟩
  rw [read_index_loop, hdate]
  simp only [h]

theorem C9_duplicate_date_keeps_first_witness :
    (TASIndexMap.ordered sample_index ∧
      sample_env.from_string (idx_at duplicate_region 1).date
        = some (day_number 2008 1 2) ∧
      TASIndexMap.find sample_index (day_number 2008 1 2) = some sample_entry) ∧
    (TASIndexMap.insert sample_index (day_number 2008 1 2) (idx_at duplicate_region 1)
        = sample_index ∧
      read_index_loop sample_env duplicate_region [1] sample_index
        = read_index_loop sample_env duplicate_region [] sample_index) :=
  ⟨⟨by simp [TASIndexMap.ordered, sample_index], by decide, by decide⟩,
    C9_duplicate_date_keeps_first sample_env duplicate_region 1 [] sample_index
      (day_number 2008 1 2) sample_entry (by simp [TASIndexMap.ordered, sample_index])
      (by decide) (by decide)⟩

/-- C10: when the date is present, the file opens, the block is read in full
and `uncompress` reports a non-zero code, `get_data` prints the gzip error and
ends through `TASERR` (`exit(-1)`): no record sequence is returned. -/
theorem C10_uncompress_error_exits (x : Externals) (fs : FileSystem) (filename : String)
    (day : Date) (bin_index : TASIndexMap) (entry : TASIndex) (file : List Byte)
    (hfind : TASIndexMap.find bin_index day = some entry)
    (hf : fs filename = some file)
    (hread : (block_of file entry).length = entry.size_compressed)
    (herr : (uncompress x entry.size_uncompressed (block_of file entry)).1 ≠ 0) :
    get_data x fs filename day bin_index =
      TASERR (.gzip_error (uncompress x entry.size_uncompressed (block_of file entry)).1
        filename) ∧
    ∀ value, (get_data x fs filename day bin_index).outcome ≠ .returned value := by
  have h := get_data_gzip_error x fs filename day bin_index entry file hfind hf hread herr
  refine ⟨h, ?_⟩
  intro value
  rw [h]
  simp [TASERR]

theorem C10_uncompress_error_exits_witness :
    (TASIndexMap.find sample_index (day_number 2008 1 2) = some sample_entry ∧
      one_file corrupt_file "sample.trades" = some corrupt_file ∧
      (block_of corrupt_file sample_entry).length = sample_entry.size_compressed ∧
      (uncompress sample_env sample_entry.size_uncompressed
        (block_of corrupt_file sample_entry)).1 ≠ 0) ∧
    (get_data sample_env (one_file corrupt_file) "sample.trades" (day_number 2008 1 2)
        sample_index =
      TASERR (.gzip_error (uncompress sample_env sample_entry.size_uncompressed
        (block_of corrupt_file sample_entry)).1 "sample.trades") ∧
    ∀ value, (get_data sample_env (one_file corrupt_file) "sample.trades"
        (day_number 2008 1 2) sample_index).outcome ≠ .returned value) :=
  ⟨⟨by decide, by decide, by decide, by decide⟩,
    C10_uncompress_error_exits sample_env (one_file corrupt_file) "sample.trades"
      (day_number 2008 1 2) sample_index sample_entry corrupt_file
      (by decide) (by decide) (by decide) (by decide)⟩

/-- C11: evaluation at the failing inputs. For a date present in the index,
with no file to open `get_data` prints `File not found.` and returns three
records decoded from the unfilled buffer; with a file that ends inside the block
(short read) it prints nothing and returns the same three records. In both
cases it returns normally. -/
theorem C11_unread_block_returns_buffer :
    TASIndexMap.find sample_index (day_number 2008 1 2) = some sample_entry ∧
    one_file sample_file "missing.trades" = none ∧
    get_data sample_env (one_file sample_file) "missing.trades" (day_number 2008 1 2)
        sample_index
      = ⟨[.file_not_found], .returned ([junk_line, junk_line, junk_line], sample_index)⟩ ∧
    (block_of cut_file sample_entry).length < sample_entry.size_compressed ∧
    get_data sample_env (one_file cut_file) "sample.trades" (day_number 2008 1 2)
        sample_index
      = ⟨[], .returned ([junk_line, junk_line, junk_line], sample_index)⟩ := by
  decide

/-- C12, as stated, fails: a block that is read in full and inflates without
error to 30 bytes (not a multiple of 28) makes `get_data` return one record;
no error is raised. -/
theorem C12_misaligned_block_counterexample :
    TASIndexMap.find [(day_number 2008 1 3, ragged_entry)] (day_number 2008 1 3)
      = some ragged_entry ∧
    (block_of ragged_file ragged_entry).length = ragged_entry.size_compressed ∧
    (uncompress sample_env ragged_entry.size_uncompressed
      (block_of ragged_file ragged_entry)).1 = 0 ∧
    (uncompress sample_env ragged_entry.size_uncompressed
      (block_of ragged_file ragged_entry)).2.length % sizeof TASLine_members = 2 ∧
    get_data sample_env (one_file ragged_file) "sample.trades" (day_number 2008 1 3)
        [(day_number 2008 1 3, ragged_entry)]
      = ⟨[], .returned (sample_lines.take 1, [(day_number 2008 1 3, ragged_entry)])⟩ := by
  decide

/-- C12, amended: for a date present in the index whose block is read in
full and inflates without error to a number of bytes that is not a multiple of
28, `get_data` returns normally; it returns the records held by the leading
whole 28-byte groups, one per group, and ignores the bytes left over. -/
theorem C12_misaligned_block_is_floored (x : Externals) (fs : FileSystem)
    (filename : String) (day : Date) (bin_index : TASIndexMap) (entry : TASIndex)
    (file : List Byte)
    (hfind : TASIndexMap.find bin_index day = some entry)
    (hf : fs filename = some file)
    (hread : (block_of file entry).length = entry.size_compressed)
    (hok : (uncompress x entry.size_uncompressed (block_of file entry)).1 = 0)
    (_hmis : (uncompress x entry.size_uncompressed (block_of file entry)).2.length
      % sizeof TASLine_members ≠ 0) :
    ∃ data bin_index1, (get_data x fs filename day bin_index).outcome
        = .returned (data, bin_index1) ∧
      data = (List.range ((uncompress x entry.size_uncompressed
          (block_of file entry)).2.length / 28)).map
        (fun i => TASLine.of_bytes
          (((uncompress x entry.size_uncompressed (block_of file entry)).2.drop
            (28 * i)).take 28)) := by
  refine ⟨_, _, get_data_inflated x fs filename day bin_index entry file hfind hf hread hok, ?_⟩
  simp [push_lines, fread, sizeof_TASLine]

theorem C12_misaligned_block_is_floored_witness :
    (TASIndexMap.find [(day_number 2008 1 3, ragged_entry)] (day_number 2008 1 3)
        = some ragged_entry ∧
      one_file ragged_file "sample.trades" = some ragged_file ∧
      (block_of ragged_file ragged_entry).length = ragged_entry.size_compressed ∧
      (uncompress sample_env ragged_entry.size_uncompressed
        (block_of ragged_file ragged_entry)).1 = 0 ∧
      (uncompress sample_env ragged_entry.size_uncompressed
        (block_of ragged_file ragged_entry)).2.length % sizeof TASLine_members ≠ 0) ∧
    ∃ data bin_index1, (get_data sample_env (one_file ragged_file) "sample.trades"
        (day_number 2008 1 3) [(day_number 2008 1 3, ragged_entry)]).outcome
        = .returned (data, bin_index1) ∧
      data = (List.range ((uncompress sample_env ragged_entry.size_uncompressed
          (block_of ragged_file ragged_entry)).2.length / 28)).map
        (fun i => TASLine.of_bytes
          (((uncompress sample_env ragged_entry.size_uncompressed
            (block_of ragged_file ragged_entry)).2.drop (28 * i)).take 28)) :=
  ⟨⟨by decide, by decide, by decide, by decide, by decide⟩,
    C12_misaligned_block_is_floored sample_env (one_file ragged_file) "sample.trades"
      (day_number 2008 1 3) [(day_number 2008 1 3, ragged_entry)] ragged_entry ragged_file
      (by decide) (by decide) (by decide) (by decide) (by decide)⟩

/-- C13: a block checksum mismatch is not fatal and does not change the
result. For a date whose block is read in full and inflated without error,
`get_data` returns the same record sequence for two index entries that differ
only in their `sha256` member, whether `CHECKSUMS` is defined (`c1`, `c2`) or
not. -/
theorem C13_block_checksum_not_fatal (x : Externals) (c1 c2 : Bool) (fs : FileSystem)
    (filename : String) (day : Date) (index1 index2 : TASIndexMap)
    (entry1 entry2 : TASIndex) (file : List Byte)
    (hfind1 : TASIndexMap.find index1 day = some entry1)
    (hfind2 : TASIndexMap.find index2 day = some entry2)
    (hsame : entry2 = { entry1 with sha256 := entry2.sha256 })
    (hf : fs filename = some file)
    (hread : (block_of file entry1).length = entry1.size_compressed)
    (hok : (uncompress x entry1.size_uncompressed (block_of file entry1)).1 = 0) :
    ∃ data index3 index4,
      (get_data { x with checksums := c1 } fs filename day index1).outcome
        = .returned (data, index3) ∧
      (get_data { x with checksums := c2 } fs filename day index2).outcome
        = .returned (data, index4) := by
  have hb : block_of file entry2 = block_of file entry1 := by
    rw [hsame]; rfl
  have hs : entry2.size_uncompressed = entry1.size_uncompressed := by
    rw [hsame]
  have hc : entry2.size_compressed = entry1.size_compressed := by
    rw [hsame]
  have hu1 := uncompress_congr x { x with checksums := c1 } rfl rfl
  have hu2 := uncompress_congr x { x with checksums := c2 } rfl rfl
  have r1 := get_data_inflated { x with checksums := c1 } fs filename day index1 entry1 file
    hfind1 hf hread (by rw [hu1]; exact hok)
  have r2 := get_data_inflated { x with checksums := c2 } fs filename day index2 entry2 file
    hfind2 hf (by rw [hb, hc]; exact hread) (by rw [hu2, hb, hs]; exact hok)
  rw [hu1] at r1
  rw [hu2, hb, hs] at r2
  exact ⟨_, _, _, r1, r2⟩

theorem C13_block_checksum_not_fatal_witness :
    (TASIndexMap.find sample_index (day_number 2008 1 2) = some sample_entry ∧
      TASIndexMap.find [(day_number 2008 1 2, resummed_entry)] (day_number 2008 1 2)
        = some resummed_entry ∧
      resummed_entry = { sample_entry with sha256 := resummed_entry.sha256 } ∧
      one_file sample_file "sample.trades" = some sample_file ∧
      (block_of sample_file sample_entry).length = sample_entry.size_compressed ∧
      (uncompress sample_env sample_entry.size_uncompressed
        (block_of sample_file sample_entry)).1 = 0) ∧
    ∃ data index3 index4,
      (get_data { sample_env with checksums := true } (one_file sample_file) "sample.trades"
        (day_number 2008 1 2) sample_index).outcome = .returned (data, index3) ∧
      (get_data { sample_env with checksums := false } (one_file sample_file)
        "sample.trades" (day_number 2008 1 2)
        [(day_number 2008 1 2, resummed_entry)]).outcome = .returned (data, index4) :=
  ⟨⟨by decide, by decide, by decide, by decide, by decide, by decide⟩,
    C13_block_checksum_not_fatal sample_env true false (one_file sample_file)
      "sample.trades" (day_number 2008 1 2) sample_index
      [(day_number 2008 1 2, resummed_entry)] sample_entry resummed_entry sample_file
      (by decide) (by decide) (by decide) (by decide) (by decide) (by decide)⟩

/-- C16: empty block. For a date whose index entry has
`size_uncompressed = 0` and whose stored block is read in full and inflates
without error, `get_data` returns the empty record sequence (and the index as
it was); it does not fail. -/
theorem C16_empty_block (x : Externals) (fs : FileSystem) (filename : String)
    (day : Date) (bin_index : TASIndexMap) (entry : TASIndex) (file : List Byte)
    (hfind : TASIndexMap.find bin_index day = some entry)
    (hsize : entry.size_uncompressed = 0)
    (hf : fs filename = some file)
    (hread : (block_of file entry).length = entry.size_compressed)
    (hok : (uncompress x entry.size_uncompressed (block_of file entry)).1 = 0) :
    (get_data x fs filename day bin_index).outcome = .returned ([], bin_index) := by
  have hle := uncompress_ok_length x _ _ hok
  have hlen : (uncompress x entry.size_uncompressed (block_of file entry)).2.length
      = entry.size_uncompressed := by omega
  rw [get_data_inflated x fs filename day bin_index entry file hfind hf hread hok, hlen,
    set_size_uncompressed_same bin_index day entry hfind, hsize]
  rfl

theorem C16_empty_block_witness :
    (TASIndexMap.find [(day_number 2008 1 4, empty_entry)] (day_number 2008 1 4)
        = some empty_entry ∧
      empty_entry.size_uncompressed = 0 ∧
      one_file empty_block_file "sample.trades" = some empty_block_file ∧
      (block_of empty_block_file empty_entry).length = empty_entry.size_compressed ∧
      (uncompress sample_env empty_entry.size_uncompressed
        (block_of empty_block_file empty_entry)).1 = 0) ∧
    (get_data sample_env (one_file empty_block_file) "sample.trades" (day_number 2008 1 4)
        [(day_number 2008 1 4, empty_entry)]).outcome
      = .returned ([], [(day_number 2008 1 4, empty_entry)]) :=
  ⟨⟨by decide, by decide, by decide, by decide, by decide⟩,
    C16_empty_block sample_env (one_file empty_block_file) "sample.trades"
      (day_number 2008 1 4) [(day_number 2008 1 4, empty_entry)] empty_entry
      empty_block_file (by decide) (by decide) (by decide) (by decide) (by decide)⟩

/-- C17: the index is a mapping keyed by date whose content does not depend
on storage order. For two files with valid headers whose index regions are
read in full and hold the same entries in two orders (one a permutation of the
other), the entries carrying pairwise distinct valid dates, `read_index` builds
the same map from both, so a lookup of any date gives the same entry. -/
theorem C17_index_order_independent (x : Externals) (fs1 fs2 : FileSystem)
    (filename : String) (file1 file2 : List Byte)
    (hf1 : fs1 filename = some file1) (hf2 : fs2 filename = some file2)
    (hlen1 : sizeof TASHeader_members ≤ file1.length)
    (hlen2 : sizeof TASHeader_members ≤ file2.length)
    (hid1 : file1.take 10 = str_bytes "TAS_QUOTES" ∨ file1.take 10 = str_bytes "TAS_TRADES")
    (hid2 : file2.take 10 = str_bytes "TAS_QUOTES" ∨ file2.take 10 = str_bytes "TAS_TRADES")
    (hver1 : (file1.getD 10 0).val = 1) (hver2 : (file2.getD 10 0).val = 1)
    (hread1 : (index_region file1).length = (header_of file1).index_size)
    (hread2 : (index_region file2).length = (header_of file2).index_size)
    (hperm : List.Perm
      (stored_entries (index_region file2)
        ((header_of file2).index_size / sizeof TASIndex_members))
      (stored_entries (index_region file1)
        ((header_of file1).index_size / sizeof TASIndex_members)))
    (hvalid : ∀ e ∈ stored_entries (index_region file1)
        ((header_of file1).index_size / sizeof TASIndex_members),
      (x.from_string e.date).isSome)
    (hdistinct : List.Pairwise
      (fun a b : TASIndex => x.from_string a.date ≠ x.from_string b.date)
      (stored_entries (index_region file1)
        ((header_of file1).index_size / sizeof TASIndex_members))) :
    ∃ m, (read_index x fs1 filename []).outcome
        = .returned (type_of_identifier (file1.take 10), m) ∧
      (read_index x fs2 filename []).outcome
        = .returned (type_of_identifier (file2.take 10), m) ∧
      ∀ day, TASIndexMap.find
          (match (read_index x fs1 filename []).outcome with
            | .returned value => value.2
            | _ => [])
          day
        = TASIndexMap.find
          (match (read_index x fs2 filename []).outcome with
            | .returned value => value.2
            | _ => [])
          day := by
  obtain ⟨m, h1, h2⟩ := insert_entries_order_independent x _ _ hperm hvalid hdistinct
  have r1 : (read_index x fs1 filename []).outcome
      = .returned (type_of_identifier (file1.take 10), m) := by
    rw [read_index_valid x fs1 filename [] file1 hf1 hlen1 hid1 hver1,
      if_neg (index_buffer_granted x file1 hread1), if_pos hread1,
      read_index_loop_eq_insert_entries]
    unfold stored_entries at h1
    rw [h1]
  have r2 : (read_index x fs2 filename []).outcome
      = .returned (type_of_identifier (file2.take 10), m) := by
    rw [read_index_valid x fs2 filename [] file2 hf2 hlen2 hid2 hver2,
      if_neg (index_buffer_granted x file2 hread2), if_pos hread2,
      read_index_loop_eq_insert_entries]
    unfold stored_entries at h2
    rw [h2]
  refine ⟨m, r1, r2, ?_⟩
  intro day
  rw [r1, r2]

theorem C17_index_order_independent_witness :
    (one_file two_day_file "sample.trades" = some two_day_file ∧
      one_file two_day_file_swapped "sample.trades" = some two_day_file_swapped ∧
      sizeof TASHeader_members ≤ two_day_file.length ∧
      sizeof TASHeader_members ≤ two_day_file_swapped.length ∧
      (two_day_file.take 10 = str_bytes "TAS_QUOTES" ∨
        two_day_file.take 10 = str_bytes "TAS_TRADES") ∧
      (two_day_file_swapped.take 10 = str_bytes "TAS_QUOTES" ∨
        two_day_file_swapped.take 10 = str_bytes "TAS_TRADES") ∧
      (two_day_file.getD 10 0).val = 1 ∧ (two_day_file_swapped.getD 10 0).val = 1 ∧
      (index_region two_day_file).length = (header_of two_day_file).index_size ∧
      (index_region two_day_file_swapped).length
        = (header_of two_day_file_swapped).index_size ∧
      List.Perm
        (stored_entries (index_region two_day_file_swapped)
          ((header_of two_day_file_swapped).index_size / sizeof TASIndex_members))
        (stored_entries (index_region two_day_file)
          ((header_of two_day_file).index_size / sizeof TASIndex_members)) ∧
      (∀ e ∈ stored_entries (index_region two_day_file)
          ((header_of two_day_file).index_size / sizeof TASIndex_members),
        (sample_env.from_string e.date).isSome) ∧
      List.Pairwise
        (fun a b : TASIndex => sample_env.from_string a.date ≠ sample_env.from_string b.date)
        (stored_entries (index_region two_day_file)
          ((header_of two_day_file).index_size / sizeof TASIndex_members))) ∧
    ∃ m, (read_index sample_env (one_file two_day_file) "sample.trades" []).outcome
        = .returned (type_of_identifier (two_day_file.take 10), m) ∧
      (read_index sample_env (one_file two_day_file_swapped) "sample.trades" []).outcome
        = .returned (type_of_identifier (two_day_file_swapped.take 10), m) ∧
      ∀ day, TASIndexMap.find
          (match (read_index sample_env (one_file two_day_file) "sample.trades" []).outcome with
            | .returned value => value.2
            | _ => [])
          day
        = TASIndexMap.find
          (match (read_index sample_env (one_file two_day_file_swapped) "sample.trades"
              []).outcome with
            | .returned value => value.2
            | _ => [])
          day :=
  have hperm : List.Perm
      (stored_entries (index_region two_day_file_swapped)
        ((header_of two_day_file_swapped).index_size / sizeof TASIndex_members))
      (stored_entries (index_region two_day_file)
        ((header_of two_day_file).index_size / sizeof TASIndex_members)) := by
    rw [show stored_entries (index_region two_day_file_swapped)
        ((header_of two_day_file_swapped).index_size / sizeof TASIndex_members)
        = [{ sample_entry with offset := 245 }, { second_entry with offset := 216 }] by decide,
      show stored_entries (index_region two_day_file)
        ((header_of two_day_file).index_size / sizeof TASIndex_members)
        = [{ second_entry with offset := 216 }, { sample_entry with offset := 245 }] by decide]
    exact List.Perm.swap _ _ _
  ⟨⟨by decide, by decide, by decide, by decide, by decide, by decide, by decide, by decide,
      by decide, by decide, hperm, by decide, by decide⟩,
    C17_index_order_independent sample_env (one_file two_day_file)
      (one_file two_day_file_swapped) "sample.trades" two_day_file two_day_file_swapped
      (by decide) (by decide) (by decide) (by decide) (by decide) (by decide) (by decide)
      (by decide) (by decide) (by decide) hperm (by decide) (by decide)⟩

/-- C18: if no file can be opened at the given path, `read_index` prints the
`does not exist` message and ends through `TASERR` (`exit(-1)`); it returns
neither a type string nor an index. -/
theorem C18_missing_file_exits (x : Externals) (fs : FileSystem) (filename : String)
    (bin_index : TASIndexMap) (hf : fs filename = none) :
    read_index x fs filename bin_index = TASERR (.does_not_exist filename) ∧
    (read_index x fs filename bin_index).outcome = .exited (-1) ∧
    ∀ value, (read_index x fs filename bin_index).outcome ≠ .returned value := by
  have h : read_index x fs filename bin_index = TASERR (.does_not_exist filename) := by
    unfold read_index
    simp only [hf]
  refine ⟨h, ?_, ?_⟩
  · rw [h]; rfl
  · intro value
    rw [h]
    simp [TASERR]

theorem C18_missing_file_exits_witness :
    one_file sample_file "missing.trades" = none ∧
    (read_index sample_env (one_file sample_file) "missing.trades" []
        = TASERR (.does_not_exist "missing.trades") ∧
      (read_index sample_env (one_file sample_file) "missing.trades" []).outcome
        = .exited (-1) ∧
      ∀ value, (read_index sample_env (one_file sample_file) "missing.trades" []).outcome
        ≠ .returned value) :=
  ⟨by decide, C18_missing_file_exits sample_env (one_file sample_file) "missing.trades" []
    (by decide)⟩

/-- C23, as stated, fails: for an entry that stores `size_uncompressed = 56`
while its block inflates to 28 bytes, the call returns and the index it leaves
behind holds 28 in the looked-up entry. -/
theorem C23_index_changed_counterexample :
    TASIndexMap.find short_index (day_number 2008 1 3) = some short_entry ∧
    short_entry.size_uncompressed = 56 ∧
    ∃ data bin_index1,
      (get_data sample_env (one_file short_file) "sample.trades" (day_number 2008 1 3)
        short_index).outcome = .returned (data, bin_index1) ∧
      TASIndexMap.find bin_index1 (day_number 2008 1 3)
        = some { short_entry with size_uncompressed := 28 } ∧
      bin_index1 ≠ short_index := by
  refine ⟨by decide, by decide, sample_lines.take 1,
    [(day_number 2008 1 3, { short_entry with size_uncompressed := 28 })], ?_, ?_, ?_⟩
  · decide
  · decide
  · decide

/-- C23, amended: after any call of `get_data` that returns, the index map
has the same keys and every entry has the same member values as before the
call, except the `size_uncompressed` of the looked-up entry when its block was
read in full: it then holds the number of bytes the block inflated to, which is
at most the value stored before, so the index is as before when the block
inflates to exactly the declared size. When the date is absent, the file does
not open or the block is not read in full, the index is as before. -/
theorem C23_index_after_get_data (x : Externals) (fs : FileSystem) (filename : String)
    (day : Date) (bin_index bin_index1 : TASIndexMap) (data : List TASLine)
    (hret : (get_data x fs filename day bin_index).outcome = .returned (data, bin_index1)) :
    bin_index1.map Prod.fst = bin_index.map Prod.fst ∧
    (∀ d, d ≠ day → TASIndexMap.find bin_index1 d = TASIndexMap.find bin_index d) ∧
    (TASIndexMap.find bin_index day = none → bin_index1 = bin_index) ∧
    (∀ entry, TASIndexMap.find bin_index day = some entry →
      (∃ file bytes, fs filename = some file ∧
        (block_of file entry).length = entry.size_compressed ∧
        x.inflate (block_of file entry) = .stream bytes ∧
        bytes.length ≤ entry.size_uncompressed ∧
        bin_index1 = TASIndexMap.set_size_uncompressed bin_index day bytes.length ∧
        TASIndexMap.find bin_index1 day
          = some { entry with size_uncompressed := bytes.length } ∧
        (bytes.length = entry.size_uncompressed → bin_index1 = bin_index)) ∨
      ((fs filename = none ∨ ∃ file, fs filename = some file ∧
          (block_of file entry).length ≠ entry.size_compressed) ∧
        bin_index1 = bin_index)) := by
  have hkeys : bin_index1.map Prod.fst = bin_index.map Prod.fst := by
    obtain ⟨size, h1, _⟩ := get_data_index x fs filename day bin_index bin_index1 data hret
    rw [h1]
    exact set_size_uncompressed_keys _ _ _
  have hother : ∀ d, d ≠ day →
      TASIndexMap.find bin_index1 d = TASIndexMap.find bin_index d := by
    intro d hd
    obtain ⟨size, h1, _⟩ := get_data_index x fs filename day bin_index bin_index1 data hret
    rw [h1, find_set_size_uncompressed_any]
    cases TASIndexMap.find bin_index d with
    | none => rfl
    | some e => simp [hd]
  refine ⟨hkeys, hother, ?_, ?_⟩
  · intro hnone
    rcases get_data_index_cases x fs filename day bin_index bin_index1 data hret with
      ⟨entry, _, hfind, _⟩ | ⟨_, h1⟩
    · rw [hnone] at hfind
      cases hfind
    · exact h1
  · intro entry hfind
    rcases get_data_index_cases x fs filename day bin_index bin_index1 data hret with
      ⟨entry1, file, hfind1, hf, hread, hok, h1⟩ | ⟨hcase, h1⟩
    · rw [hfind] at hfind1
      injection hfind1 with he
      subst he
      refine Or.inl ⟨file, _, hf, hread, uncompress_ok_stream x _ _ hok,
        uncompress_ok_length x _ _ hok, h1, ?_, ?_⟩
      · rw [h1]
        exact find_set_size_uncompressed bin_index day entry _ hfind
      · intro he
        rw [h1, he]
        exact set_size_uncompressed_same _ _ _ hfind
    · rcases hcase with hnone | ⟨entry1, hfind1, hun⟩
      · rw [hnone] at hfind
        cases hfind
      · rw [hfind] at hfind1
        injection hfind1 with he
        subst he
        exact Or.inr ⟨hun, h1⟩

theorem C23_index_after_get_data_witness :
    (get_data sample_env (one_file short_file) "sample.trades" (day_number 2008 1 3)
        short_index).outcome
      = .returned (sample_lines.take 1,
        [(day_number 2008 1 3, { short_entry with size_uncompressed := 28 })]) ∧
    sample_env.inflate (block_of short_file short_entry)
      = .stream (pack_lines (sample_lines.take 1)) ∧
    (pack_lines (sample_lines.take 1)).length = 28 ∧
    (([(day_number 2008 1 3, { short_entry with size_uncompressed := 28 })] :
        TASIndexMap).map Prod.fst = short_index.map Prod.fst ∧
    (∀ d, d ≠ day_number 2008 1 3 →
      TASIndexMap.find [(day_number 2008 1 3, { short_entry with size_uncompressed := 28 })] d
        = TASIndexMap.find short_index d) ∧
    (TASIndexMap.find short_index (day_number 2008 1 3) = none →
      [(day_number 2008 1 3, { short_entry with size_uncompressed := 28 })] = short_index) ∧
    (∀ entry, TASIndexMap.find short_index (day_number 2008 1 3) = some entry →
      (∃ file bytes, one_file short_file "sample.trades" = some file ∧
        (block_of file entry).length = entry.size_compressed ∧
        sample_env.inflate (block_of file entry) = .stream bytes ∧
        bytes.length ≤ entry.size_uncompressed ∧
        [(day_number 2008 1 3, { short_entry with size_uncompressed := 28 })]
          = TASIndexMap.set_size_uncompressed short_index (day_number 2008 1 3)
            bytes.length ∧
        TASIndexMap.find
            [(day_number 2008 1 3, { short_entry with size_uncompressed := 28 })]
            (day_number 2008 1 3)
          = some { entry with size_uncompressed := bytes.length } ∧
        (bytes.length = entry.size_uncompressed →
          [(day_number 2008 1 3, { short_entry with size_uncompressed := 28 })]
            = short_index)) ∨
      ((one_file short_file "sample.trades" = none ∨
          ∃ file, one_file short_file "sample.trades" = some file ∧
            (block_of file entry).length ≠ entry.size_compressed) ∧
        [(day_number 2008 1 3, { short_entry with size_uncompressed := 28 })]
          = short_index))) :=
  ⟨by decide, by decide, by decide,
    C23_index_after_get_data sample_env (one_file short_file) "sample.trades"
      (day_number 2008 1 3) short_index
      [(day_number 2008 1 3, { short_entry with size_uncompressed := 28 })]
      (sample_lines.take 1) (by decide)⟩

end tas

namespace RDC

open tas

/-! ## The trade loop -/

theorem trade_loop_append (from_bid : Bool) (s : TradeState) (a b : List TASLine) :
    trade_loop from_bid s (a ++ b) = trade_loop from_bid (trade_loop from_bid s a) b := by
  simp [trade_loop, List.foldl_append]

theorem trade_signs_append (from_bid : Bool) (a b : List TASLine) :
    ∀ s, trade_signs from_bid s (a ++ b)
      = trade_signs from_bid s a ++ trade_signs from_bid (trade_loop from_bid s a) b := by
  induction a with
  | nil => intro s; rfl
  | cons d ds ih =>
    intro s
    have ih1 := ih (trade_step from_bid s d)
    simp only [trade_loop] at ih1
    simp only [List.cons_append, trade_signs, trade_loop, List.foldl_cons, List.append_eq]
    by_cases hw : in_window d
    · rw [if_pos hw, if_pos hw, ih1, List.cons_append]
    · rw [if_neg hw, if_neg hw, ih1]

/-- After a trade at or before 57000, `price1_0` holds its price. -/
theorem price1_0_after_step (from_bid : Bool) (s : TradeState) (d : TASLine)
    (h : d.time ≤ 57000) : (trade_step from_bid s d).price1_0 = .number d.ask := by
  unfold trade_step in_window
  by_cases h1 : d.time ≤ 34800
  · have h2 : ¬ (34801 ≤ d.time ∧ d.time ≤ 57000) := by omega
    simp [h1, h2]
  · have h2 : 34801 ≤ d.time ∧ d.time ≤ 57000 := by omega
    simp [h2]

/-- The variable `e1_n0` holds the sign assigned to the latest trade inside
the window, and 1 before the first one. -/
theorem e1_n0_after_loop (from_bid : Bool) (data : List TASLine) :
    ∀ s, (trade_loop from_bid s data).e1_n0
      = (trade_signs from_bid s data).getLast?.getD s.e1_n0 := by
  induction data with
  | nil => intro s; rfl
  | cons d ds ih =>
    intro s
    simp only [trade_loop, List.foldl_cons, trade_signs]
    have ih1 := ih (trade_step from_bid s d)
    simp only [trade_loop] at ih1
    rw [ih1]
    by_cases hw : in_window d
    · have he : (trade_step from_bid s d).e1_n0 = (trade_step from_bid s d).e1_n := by
        unfold trade_step
        simp [hw]
      rw [if_pos hw, he]
      cases hl : trade_signs from_bid (trade_step from_bid s d) ds with
      | nil => simp
      | cons a l => rw [List.getLast?_eq_getLast _ (List.cons_ne_nil a l)]; rfl
    · have he : (trade_step from_bid s d).e1_n0 = s.e1_n0 := by
        unfold trade_step
        simp only [hw, if_false]
        split <;> rfl
      rw [if_neg hw, he]

/-- The sign assigned to a trade inside the window. -/
theorem e1_n_after_step (from_bid : Bool) (s : TradeState) (d : TASLine) (hd : in_window d) :
    (trade_step from_bid s d).e1_n
      = if (Double.rsub d.ask s.price1_0).is_zero then s.e1_n0
        else (Double.rsub d.ask s.price1_0).sgn := by
  have h1 : ¬ d.time ≤ 34800 := by
    unfold in_window at hd
    omega
  unfold trade_step
  simp only [hd, h1, if_true, if_false]

/-! ## The per-second vectors -/

/-- What one trade does to `sum_e1` and `e1` at the index of second `t`. -/
theorem trade_step_second (from_bid : Bool) (s : TradeState) (d : TASLine) (t : Int)
    (ht : 34801 ≤ t) :
    (trade_step from_bid s d).sum_e1 (t - 34801).toNat
        = (if in_window d ∧ d.time = t
            then s.sum_e1 (t - 34801).toNat + (trade_step from_bid s d).e1_n
            else s.sum_e1 (t - 34801).toNat) ∧
    (trade_step from_bid s d).e1 (t - 34801).toNat
        = (if in_window d ∧ d.time = t
            then sgn ((trade_step from_bid s d).sum_e1 (t - 34801).toNat)
            else s.e1 (t - 34801).toNat) := by
  by_cases hw : in_window d
  · have h1 : ¬ d.time ≤ 34800 := by
      unfold in_window at hw
      omega
    by_cases hdt : d.time = t
    · subst hdt
      unfold trade_step
      simp only [hw, h1, if_true, if_false, and_self, assign]
    · have hne : ¬ (t - 34801).toNat = (d.time - 34801).toNat := by
        unfold in_window at hw
        omega
      have hc : ¬ (in_window d ∧ d.time = t) := fun h => hdt h.2
      unfold trade_step
      simp only [hw, h1, if_true, if_false, hc, assign, hne, hdt, and_false, and_self]
  · have hc : ¬ (in_window d ∧ d.time = t) := fun h => hw h.1
    unfold trade_step
    simp only [hw, if_false, hc]
    split <;> simp

theorem sum_e1_after_loop (from_bid : Bool) (data : List TASLine) (t : Int) (ht : 34801 ≤ t) :
    ∀ s, (trade_loop from_bid s data).sum_e1 (t - 34801).toNat
      = s.sum_e1 (t - 34801).toNat + (second_signs from_bid s data t).sum := by
  induction data with
  | nil => intro s; simp [trade_loop, second_signs]
  | cons d ds ih =>
    intro s
    have ih1 := ih (trade_step from_bid s d)
    simp only [trade_loop, List.foldl_cons] at ih1 ⊢
    rw [ih1, (trade_step_second from_bid s d t ht).1]
    simp only [second_signs]
    by_cases hc : in_window d ∧ d.time = t
    · rw [if_pos hc, if_pos hc, List.sum_cons]
      omega
    · rw [if_neg hc, if_neg hc]

theorem e1_after_loop (from_bid : Bool) (data : List TASLine) (t : Int) (ht : 34801 ≤ t) :
    ∀ s, (trade_loop from_bid s data).e1 (t - 34801).toNat
      = if second_signs from_bid s data t = [] then s.e1 (t - 34801).toNat
        else sgn ((trade_loop from_bid s data).sum_e1 (t - 34801).toNat) := by
  induction data with
  | nil => intro s; simp [trade_loop, second_signs]
  | cons d ds ih =>
    intro s
    have ih1 := ih (trade_step from_bid s d)
    have hsum := sum_e1_after_loop from_bid ds t ht (trade_step from_bid s d)
    simp only [trade_loop, List.foldl_cons] at ih1 hsum ⊢
    rw [ih1]
    by_cases hc : in_window d ∧ d.time = t
    · have hss : second_signs from_bid s (d :: ds) t
          = (trade_step from_bid s d).e1_n
            :: second_signs from_bid (trade_step from_bid s d) ds t := by
        simp only [second_signs]
        rw [if_pos hc]
      rw [hss, if_neg (List.cons_ne_nil _ _)]
      by_cases he : second_signs from_bid (trade_step from_bid s d) ds t = []
      · rw [if_pos he, (trade_step_second from_bid s d t ht).2, if_pos hc, hsum, he]
        simp
      · rw [if_neg he]
    · have hss : second_signs from_bid s (d :: ds) t
          = second_signs from_bid (trade_step from_bid s d) ds t := by
        simp only [second_signs]
        rw [if_neg hc]
      rw [hss, (trade_step_second from_bid s d t ht).2, if_neg hc]

/-- From the start of a day, the entry of second `t` is `sgn` of the sum of
the per-trade signs of that second. -/
theorem e1_of_day (from_bid : Bool) (price1_0 : Double) (e1_n : Int) (data : List TASLine)
    (t : Int)
    (ht : 34801 ≤ t) :
    (trade_loop from_bid (trade_init price1_0 e1_n) data).e1 (t - 34801).toNat
      = sgn ((second_signs from_bid (trade_init price1_0 e1_n) data t).sum) := by
  have h1 := e1_after_loop from_bid data t ht (trade_init price1_0 e1_n)
  have h2 := sum_e1_after_loop from_bid data t ht (trade_init price1_0 e1_n)
  rw [h1, h2]
  by_cases he : second_signs from_bid (trade_init price1_0 e1_n) data t = []
  · rw [if_pos he, he]
    simp [trade_init, sgn]
  · rw [if_neg he]
    simp [trade_init]

theorem second_signs_nil_of_no_trade (from_bid : Bool) (data : List TASLine) (t : Int)
    (h : ∀ d ∈ data, d.time ≠ t) : ∀ s, second_signs from_bid s data t = [] := by
  induction data with
  | nil => intro s; rfl
  | cons d ds ih =>
    intro s
    have hd : ¬ (in_window d ∧ d.time = t) := fun hc => h d (by simp) hc.2
    simp only [second_signs, if_neg hd]
    exact ih (fun d1 h1 => h d1 (by simp [h1])) _

theorem backward_indices_cons : backward_indices = 22200 :: (List.range 22200).reverse := by
  unfold backward_indices
  rw [show (22201 : Nat) = Nat.succ 22200 from rfl, List.range_succ, List.reverse_append,
    List.reverse_singleton, List.singleton_append]

theorem backward_accesses_cons (s : QuoteState) :
    backward_accesses s
      = backward_step_accesses s 22200 ++
        pass_accesses backward_step backward_step_accesses (backward_step s 22200)
          (List.range 22200).reverse := by
  unfold backward_accesses
  rw [backward_indices_cons, pass_accesses]

theorem mem_backward_step_accesses (s : QuoteState) (i : Nat) :
    i ∈ backward_step_accesses s i := by
  unfold backward_step_accesses
  split <;> simp

theorem forward_pass_accesses_lt (indices : List Nat) (h : ∀ i ∈ indices, i < 22200) :
    ∀ s, ∀ k ∈ pass_accesses forward_step forward_step_accesses s indices, k < 22200 := by
  induction indices with
  | nil => intro s k hk; simp [pass_accesses] at hk
  | cons i rest ih =>
    intro s k hk
    have hi := h i (by simp)
    simp only [pass_accesses, List.mem_append] at hk
    rcases hk with hk | hk
    · unfold forward_step_accesses at hk
      by_cases h0 : i ≠ 0
      · by_cases hm : s.mid1_q i = 0
        · simp only [h0, hm, if_true, ne_eq, not_false_eq_true, List.mem_cons,
            List.mem_singleton, List.not_mem_nil, or_false] at hk
          omega
        · simp only [h0, hm, if_true, if_false, ne_eq, not_false_eq_true,
            List.mem_singleton] at hk
          omega
      · simp [h0] at hk
    · exact ih (fun j hj => h j (by simp [hj])) _ k hk

theorem dated_quote_init (behind : QuoteState) : dated (quote_init behind) := by
  intro i hi hm
  simp [quote_init, hi] at hm

theorem dated_quote_step (s : QuoteState) (d : TASLine) (h : dated s) :
    dated (quote_step s d) := by
  intro i hi hm
  unfold quote_step at hm ⊢
  by_cases hw : in_quote_window d
  · simp only [hw, if_true, assign] at hm ⊢
    by_cases hi0 : i = (d.time - 34800).toNat
    · simp only [hi0, if_true]
      unfold in_quote_window at hw
      omega
    · simp only [hi0, if_false] at hm ⊢
      exact h i hi hm
  · simp only [hw, if_false] at hm ⊢
    exact h i hi hm

theorem dated_quote_loop (data : List TASLine) :
    ∀ s, dated s → dated (quote_loop s data) := by
  induction data with
  | nil => intro s h; exact h
  | cons d ds ih =>
    intro s h
    simp only [quote_loop, List.foldl_cons]
    exact ih _ (dated_quote_step s d h)

/-- The state of the forward pass after the iterations `i = 0, ..., n-1`:
the elements from `n` on are as before the pass, and every element from the
first non-zero midpoint on holds the latest non-zero midpoint at or before it
and the second of its index. -/
theorem forward_upto (s0 : QuoteState) (hd : dated s0) : ∀ n, n ≤ 22200 →
    (∀ k, n ≤ k →
      ((List.range n).foldl forward_step s0).mid1_q k = s0.mid1_q k ∧
      ((List.range n).foldl forward_step s0).day1_q k = s0.day1_q k) ∧
    (∀ i, i < n → (∃ f, f ≤ i ∧ s0.mid1_q f ≠ 0) →
      ((List.range n).foldl forward_step s0).mid1_q i ≠ 0 ∧
      ((List.range n).foldl forward_step s0).day1_q i = 34800 + (i : Int) ∧
      ∃ j, j ≤ i ∧ s0.mid1_q j ≠ 0 ∧ (∀ k, j < k → k ≤ i → s0.mid1_q k = 0) ∧
        ((List.range n).foldl forward_step s0).mid1_q i = s0.mid1_q j) := by
  intro n
  induction n with
  | zero =>
    intro _
    refine ⟨fun k _ => ⟨rfl, rfl⟩, ?_⟩
    intro i hi
    omega
  | succ n ih =>
    intro hn
    obtain ⟨hk, hi⟩ := ih (by omega)
    have hfold : (List.range (n + 1)).foldl forward_step s0
        = forward_step ((List.range n).foldl forward_step s0) n := by
      rw [List.range_succ, List.foldl_append]
      rfl
    rw [hfold]
    generalize (List.range n).foldl forward_step s0 = sn at hk hi
    have hmn := (hk n (Nat.le_refl n)).1
    have hdn := (hk n (Nat.le_refl n)).2
    by_cases hc : n ≠ 0 ∧ sn.mid1_q n = 0
    · have hstep : forward_step sn n =
          { day1_q := assign sn.day1_q n (sn.day1_q (n - 1) + 1)
            mid1_q := assign sn.mid1_q n (sn.mid1_q (n - 1))
            spread1_q := assign sn.spread1_q n (sn.spread1_q (n - 1)) } := by
        unfold forward_step
        rw [if_pos hc]
      rw [hstep]
      refine ⟨?_, ?_⟩
      · intro k hkn
        have hne : ¬ k = n := by omega
        simp only [assign, hne, if_false]
        exact hk k (by omega)
      · intro i hin hf
        by_cases hin2 : i = n
        · subst hin2
          obtain ⟨f, hfi, hfm⟩ := hf
          have hfn : f ≠ i := by
            intro e
            apply hfm
            rw [e, ← hmn]
            exact hc.2
          obtain ⟨h1, h2, j, hj1, hj2, hj3, hj4⟩ :=
            hi (i - 1) (by omega) ⟨f, by omega, hfm⟩
          simp only [assign, if_true]
          refine ⟨h1, ?_, j, by omega, hj2, ?_, hj4⟩
          · rw [h2]
            omega
          · intro k hjk hki
            by_cases hkk : k = i
            · rw [hkk, ← hmn]
              exact hc.2
            · exact hj3 k hjk (by omega)
        · have hne : ¬ i = n := hin2
          simp only [assign, hne, if_false]
          exact hi i (by omega) hf
    · have hstep : forward_step sn n = sn := by
        unfold forward_step
        rw [if_neg hc]
      rw [hstep]
      refine ⟨fun k hkn => hk k (by omega), ?_⟩
      intro i hin hf
      by_cases hin2 : i = n
      · subst hin2
        have hm0 : s0.mid1_q i ≠ 0 := by
          intro hz
          obtain ⟨f, hfi, hfm⟩ := hf
          by_cases hi0 : i = 0
          · apply hfm
            have : f = i := by omega
            rw [this]
            exact hz
          · exact hc ⟨hi0, by rw [hmn]; exact hz⟩
        refine ⟨by rw [hmn]; exact hm0, ?_, i, Nat.le_refl i, hm0, ?_, hmn⟩
        · rw [hdn]
          exact hd i (by omega) hm0
        · intro k h1 h2
          omega
      · exact hi i (by omega) hf

theorem forward_fill_holds (s0 : QuoteState) (hd : dated s0) (i : Nat) (hi : i < 22200)
    (hf : ∃ f, f ≤ i ∧ s0.mid1_q f ≠ 0) :
    (forward_fill s0).mid1_q i ≠ 0 ∧
    (forward_fill s0).day1_q i = 34800 + (i : Int) ∧
    ∃ j, j ≤ i ∧ s0.mid1_q j ≠ 0 ∧ (∀ k, j < k → k ≤ i → s0.mid1_q k = 0) ∧
      (forward_fill s0).mid1_q i = s0.mid1_q j := by
  have h := (forward_upto s0 hd 22200 (by omega)).2 i hi hf
  have he : forward_fill s0 = (List.range 22200).foldl forward_step s0 := by
    unfold forward_fill forward_indices
    rfl
  rw [he]
  exact h

/-! ## The day loops -/

theorem in_all_congr (a b c a1 b1 c1 : TASIndexMap)
    (ha : ∀ d, TASIndexMap.find a1 d = none ↔ TASIndexMap.find a d = none)
    (hb : ∀ d, TASIndexMap.find b1 d = none ↔ TASIndexMap.find b d = none)
    (hc : ∀ d, TASIndexMap.find c1 d = none ↔ TASIndexMap.find c d = none) (day : Date) :
    in_all a1 b1 c1 day ↔ in_all a b c day := by
  unfold in_all
  rw [Ne, Ne, Ne, Ne, Ne, Ne, ha day, hb day, hc day]

/-- C20, as stated, fails: of two successive trades inside the window at the
same price (99 after 99) the second is assigned the sign of the first, -1, not
`sgn(99 - 99) = 0`. -/
theorem C20_trade_sign_counterexample :
    flat_trades.map (fun d => (d.time, d.ask))
      = [(34800, 100), (34801, 101), (34802, 99), (34802, 99)] ∧
    trade_signs true (trade_init 0 0) flat_trades = [1, -1, -1] ∧
    sgn (99 - 99) = 0 := by
  decide

/-- C20, amended: in the per-day trade loop, the sign `e_n` assigned to a
trade whose time lies in [34801, 57000] and whose preceding trade of the day
has a time of at most 57000 equals `sgn(p_n - p_{n-1})` when the two prices
differ; when they are equal it is the sign assigned to the latest earlier trade
inside the window, and +1 when there is none. -/
theorem C20_trade_sign (from_bid : Bool) (price1_0 : Double) (e1_n : Int)
    (earlier : List TASLine)
    (preceding d : TASLine) (hpreceding : preceding.time ≤ 57000) (hd : in_window d) :
    trade_signs from_bid (trade_init price1_0 e1_n) (earlier ++ [preceding, d])
      = trade_signs from_bid (trade_init price1_0 e1_n) (earlier ++ [preceding]) ++
        [if d.ask = preceding.ask then
            (trade_signs from_bid (trade_init price1_0 e1_n)
              (earlier ++ [preceding])).getLast?.getD 1
          else sgn (d.ask - preceding.ask)] := by
  have hsplit : earlier ++ [preceding, d] = (earlier ++ [preceding]) ++ [d] := by simp
  have hprice : (trade_loop from_bid (trade_init price1_0 e1_n)
      (earlier ++ [preceding])).price1_0 = .number preceding.ask := by
    rw [trade_loop_append]
    exact price1_0_after_step from_bid _ preceding hpreceding
  have hsign := e1_n0_after_loop from_bid (earlier ++ [preceding]) (trade_init price1_0 e1_n)
  rw [hsplit, trade_signs_append]
  congr 1
  simp only [trade_signs, hd, if_true]
  rw [e1_n_after_step from_bid _ d hd, hprice, hsign]
  have hz : d.ask - preceding.ask = 0 ↔ d.ask = preceding.ask := by omega
  simp only [Double.rsub, Double.is_zero, Double.sgn, decide_eq_true_eq, hz]
  rfl

theorem C20_trade_sign_witness :
    ((⟨34802, 99, 99, 5, 5, 0, 0, str_bytes "X   "⟩ : TASLine).time ≤ 57000 ∧
      in_window ⟨34802, 99, 99, 5, 5, 0, 0, str_bytes "X   "⟩) ∧
    trade_signs true (trade_init 0 0)
        (flat_trades.take 2 ++ [⟨34802, 99, 99, 5, 5, 0, 0, str_bytes "X   "⟩,
          ⟨34802, 99, 99, 5, 5, 0, 0, str_bytes "X   "⟩])
      = trade_signs true (trade_init 0 0)
          (flat_trades.take 2 ++ [⟨34802, 99, 99, 5, 5, 0, 0, str_bytes "X   "⟩]) ++
        [if (⟨34802, 99, 99, 5, 5, 0, 0, str_bytes "X   "⟩ : TASLine).ask
              = (⟨34802, 99, 99, 5, 5, 0, 0, str_bytes "X   "⟩ : TASLine).ask then
            (trade_signs true (trade_init 0 0)
              (flat_trades.take 2 ++
                [⟨34802, 99, 99, 5, 5, 0, 0, str_bytes "X   "⟩])).getLast?.getD 1
          else sgn ((⟨34802, 99, 99, 5, 5, 0, 0, str_bytes "X   "⟩ : TASLine).ask
            - (⟨34802, 99, 99, 5, 5, 0, 0, str_bytes "X   "⟩ : TASLine).ask)] :=
  ⟨⟨by decide, by decide⟩,
    C20_trade_sign true 0 0 (flat_trades.take 2) ⟨34802, 99, 99, 5, 5, 0, 0, str_bytes "X   "⟩
      ⟨34802, 99, 99, 5, 5, 0, 0, str_bytes "X   "⟩ (by decide) (by decide)⟩

/-- C21, as stated, fails: with two trades in second 34802, each of sign -1,
the entry `e[34802 - 34801]` is -1, not the sum -2 of the per-trade signs. -/
theorem C21_second_sign_counterexample :
    second_signs true (trade_init 0 0) flat_trades 34802 = [-1, -1] ∧
    (second_signs true (trade_init 0 0) flat_trades 34802).sum = -2 ∧
    (trade_loop true (trade_init 0 0) flat_trades).sum_e1 (34802 - 34801 : Int).toNat = -2 ∧
    (trade_loop true (trade_init 0 0) flat_trades).e1 (34802 - 34801 : Int).toNat = -1 := by
  decide

/-- C21, amended: for every day and every second `t` in [34801, 57000], the
per-second trade sign stored at `e[t - 34801]` equals `sgn` of the sum of the
per-trade signs of the trades recorded in that second (the sum itself is kept
in `sum_e[t - 34801]`), and equals 0 when no trade occurred in second `t`. -/
theorem C21_second_sign (from_bid : Bool) (price1_0 : Double) (e1_n : Int)
    (data : List TASLine)
    (t : Int) (ht : 34801 ≤ t ∧ t ≤ 57000) :
    (trade_loop from_bid (trade_init price1_0 e1_n) data).e1 (t - 34801).toNat
      = sgn ((second_signs from_bid (trade_init price1_0 e1_n) data t).sum) ∧
    (trade_loop from_bid (trade_init price1_0 e1_n) data).sum_e1 (t - 34801).toNat
      = (second_signs from_bid (trade_init price1_0 e1_n) data t).sum ∧
    ((∀ d ∈ data, d.time ≠ t) →
      (trade_loop from_bid (trade_init price1_0 e1_n) data).e1 (t - 34801).toNat = 0) := by
  have h1 := e1_of_day from_bid price1_0 e1_n data t ht.1
  have h2 := sum_e1_after_loop from_bid data t ht.1 (trade_init price1_0 e1_n)
  refine ⟨h1, ?_, ?_⟩
  · rw [h2]
    simp [trade_init]
  · intro hno
    rw [h1, second_signs_nil_of_no_trade from_bid data t hno]
    simp [sgn]

theorem C21_second_sign_witness :
    ((34801 : Int) ≤ 34802 ∧ (34802 : Int) ≤ 57000) ∧
    ((trade_loop true (trade_init 0 0) flat_trades).e1 (34802 - 34801 : Int).toNat
      = sgn ((second_signs true (trade_init 0 0) flat_trades 34802).sum) ∧
    (trade_loop true (trade_init 0 0) flat_trades).sum_e1 (34802 - 34801 : Int).toNat
      = (second_signs true (trade_init 0 0) flat_trades 34802).sum ∧
    ((∀ d ∈ flat_trades, d.time ≠ 34802) →
      (trade_loop true (trade_init 0 0) flat_trades).e1 (34802 - 34801 : Int).toNat = 0)) :=
  ⟨by decide, C21_second_sign true 0 0 flat_trades 34802 (by decide)⟩

/-- C24: evaluation of the two passes. Every element access of the forward
pass uses an index below 22200, but the backward pass starts at `i = 22200`:
its first access is `mid[22200]`, one past the last element, for every day's
quote data and whatever lies behind the vectors. -/
theorem C24_backward_pass_reads_past_end (behind : QuoteState) (data : List TASLine) :
    (∀ k ∈ forward_accesses (quote_loop (quote_init behind) data), k < 22200) ∧
    (backward_accesses (forward_fill (quote_loop (quote_init behind) data))).head?
      = some 22200 ∧
    ¬ (∀ k ∈ backward_accesses (forward_fill (quote_loop (quote_init behind) data)),
      k < 22200) := by
  refine ⟨?_, ?_, ?_⟩
  · unfold forward_accesses forward_indices
    exact forward_pass_accesses_lt _ (fun i hi => List.mem_range.mp hi) _
  · rw [backward_accesses_cons]
    unfold backward_step_accesses
    split <;> rfl
  · intro h
    have hm : 22200 ∈ backward_accesses (forward_fill (quote_loop (quote_init behind) data)) := by
      rw [backward_accesses_cons]
      exact List.mem_append_left _ (mem_backward_step_accesses _ 22200)
    exact absurd (h 22200 hm) (by omega)

/-- C26: after the forward pass (before the backward pass), for every index
`i` in `0 .. 22199` at or after an index that held a non-zero midpoint, `mid[i]`
is non-zero and equals the midpoint that the latest index `j <= i` with a
non-zero midpoint held before the pass, and `day[i] = 34800 + i`. -/
theorem C26_forward_fill (behind : QuoteState) (data : List TASLine) (i : Nat)
    (hi : i < 22200)
    (hfirst : ∃ f, f ≤ i ∧ (quote_loop (quote_init behind) data).mid1_q f ≠ 0) :
    (forward_fill (quote_loop (quote_init behind) data)).mid1_q i ≠ 0 ∧
    (∃ j, j ≤ i ∧ (quote_loop (quote_init behind) data).mid1_q j ≠ 0 ∧
      (∀ k, j < k → k ≤ i → (quote_loop (quote_init behind) data).mid1_q k = 0) ∧
      (forward_fill (quote_loop (quote_init behind) data)).mid1_q i
        = (quote_loop (quote_init behind) data).mid1_q j) ∧
    (forward_fill (quote_loop (quote_init behind) data)).day1_q i = 34800 + (i : Int) := by
  have hd : dated (quote_loop (quote_init behind) data) :=
    dated_quote_loop data _ (dated_quote_init behind)
  obtain ⟨h1, h2, h3⟩ := forward_fill_holds _ hd i hi hfirst
  exact ⟨h1, h3, h2⟩

theorem C26_forward_fill_witness :
    ((2 : Nat) < 22200 ∧
      ∃ f, f ≤ 2 ∧ (quote_loop (quote_init zero_behind) some_quotes).mid1_q f ≠ 0) ∧
    ((forward_fill (quote_loop (quote_init zero_behind) some_quotes)).mid1_q 2 ≠ 0 ∧
    (∃ j, j ≤ 2 ∧ (quote_loop (quote_init zero_behind) some_quotes).mid1_q j ≠ 0 ∧
      (∀ k, j < k → k ≤ 2 → (quote_loop (quote_init zero_behind) some_quotes).mid1_q k = 0) ∧
      (forward_fill (quote_loop (quote_init zero_behind) some_quotes)).mid1_q 2
        = (quote_loop (quote_init zero_behind) some_quotes).mid1_q j) ∧
    (forward_fill (quote_loop (quote_init zero_behind) some_quotes)).day1_q 2
      = 34800 + ((2 : Nat) : Int)) :=
  ⟨⟨by decide, 1, by decide, by decide⟩,
    C26_forward_fill zero_behind some_quotes 2 (by decide) ⟨1, by decide, by decide⟩⟩

end RDC

namespace decompress

/-! ## The clock text -/

theorem fmt_2d_two_digits : ∀ k < 100, fmt_2d ((k : Nat) : Int) = two_digits k := by
  decide

theorem sec_to_time_fields (n : Nat) :
    Int.tdiv (n : Int) 3600 = ((n / 3600 : Nat) : Int) ∧
    Int.tdiv ((n : Int) - Int.tdiv (n : Int) 3600 * 3600) 60 = ((n % 3600 / 60 : Nat) : Int) ∧
    (n : Int) - Int.tdiv (n : Int) 3600 * 3600
        - Int.tdiv ((n : Int) - Int.tdiv (n : Int) 3600 * 3600) 60 * 60
      = ((n % 60 : Nat) : Int) := by
  have h1 : Int.tdiv (n : Int) 3600 = ((n / 3600 : Nat) : Int) := rfl
  have h2 : (n : Int) - ((n / 3600 : Nat) : Int) * 3600 = ((n % 3600 : Nat) : Int) := by
    omega
  have h3 : Int.tdiv (((n % 3600 : Nat) : Int)) 60 = ((n % 3600 / 60 : Nat) : Int) := rfl
  refine ⟨h1, ?_, ?_⟩
  · rw [h1, h2, h3]
  · rw [h1, h2, h3]
    omega

/-- Claim C22: for every `t` with `0 ≤ t < 86400`, `sec_to_time` returns the text
`HH:MM:SS` of eight characters whose fields are the two zero-padded decimal digits of
`HH = t / 3600`, `MM = (t mod 3600) / 60` and `SS = t mod 60`; these satisfy
`3600 * HH + 60 * MM + SS = t`, `MM < 60` and `SS < 60`. -/
theorem C22_sec_to_time (t : Int) (h0 : 0 ≤ t) (h1 : t < 86400) :
    ∃ HH MM SS : Nat,
      (HH : Int) = t / 3600 ∧ (MM : Int) = (t % 3600) / 60 ∧ (SS : Int) = t % 60 ∧
      3600 * (HH : Int) + 60 * (MM : Int) + (SS : Int) = t ∧
      HH < 24 ∧ MM < 60 ∧ SS < 60 ∧
      sec_to_time t = some (clock_text HH MM SS) ∧
      (clock_text HH MM SS).length = 8 := by
  obtain ⟨n, rfl⟩ := Int.eq_ofNat_of_zero_le h0
  have hn : n < 86400 := by omega
  obtain ⟨f1, f2, f3⟩ := sec_to_time_fields n
  have b1 : n / 3600 < 24 := by omega
  have b2 : n % 3600 / 60 < 60 := by omega
  have b3 : n % 60 < 60 := by omega
  refine ⟨n / 3600, n % 3600 / 60, n % 60, by omega, by omega, by omega, by omega,
    b1, b2, b3, ?_, rfl⟩
  have e : sprintf_clock (Int.tdiv (n : Int) 3600)
      (Int.tdiv ((n : Int) - Int.tdiv (n : Int) 3600 * 3600) 60)
      ((n : Int) - Int.tdiv (n : Int) 3600 * 3600
        - Int.tdiv ((n : Int) - Int.tdiv (n : Int) 3600 * 3600) 60 * 60)
      = two_digits (n / 3600) ++ [':'] ++ two_digits (n % 3600 / 60) ++ [':']
          ++ two_digits (n % 60) := by
    rw [f3, f2, f1, sprintf_clock, fmt_2d_two_digits _ (by omega),
      fmt_2d_two_digits _ (by omega), fmt_2d_two_digits _ (by omega)]
  simp only [sec_to_time]
  rw [e, if_pos (by simp [two_digits])]
  rfl

theorem C22_sec_to_time_witness :
    ((0 : Int) ≤ 3661 ∧ (3661 : Int) < 86400 ∧ sec_to_time 3661 = some "01:01:01" ∧
      sec_to_time 86399 = some "23:59:59" ∧ sec_to_time 0 = some "00:00:00") ∧
    ∃ HH MM SS : Nat,
      (HH : Int) = (3661 : Int) / 3600 ∧ (MM : Int) = ((3661 : Int) % 3600) / 60 ∧
      (SS : Int) = (3661 : Int) % 60 ∧
      3600 * (HH : Int) + 60 * (MM : Int) + (SS : Int) = 3661 ∧
      HH < 24 ∧ MM < 60 ∧ SS < 60 ∧
      sec_to_time 3661 = some (clock_text HH MM SS) ∧
      (clock_text HH MM SS).length = 8 :=
  ⟨⟨by decide, by decide, by decide, by decide, by decide⟩,
    C22_sec_to_time 3661 (by decide) (by decide)⟩

end decompress

namespace tradesign

/-! ## The transaction filter -/

theorem price_step_lengths (ordercode : Int) (each : List (Nat × Row))
    (acc : Transactions × Int)
    (h : acc.1.type_transaction.length = acc.1.price_transaction.length) :
    (each.foldl (price_step ordercode) acc).1.type_transaction.length
      = (each.foldl (price_step ordercode) acc).1.price_transaction.length := by
  induction each generalizing acc with
  | nil => exact h
  | cons je rest ih =>
      rw [List.foldl_cons]
      apply ih
      unfold price_step
      split_ifs
      · exact h
      · simp [h]
      · exact h

theorem filter_step_lengths (rows : List Row) (volume_total : Int) (acc : Transactions)
    (cur : Row) (h : acc.type_transaction.length = acc.price_transaction.length) :
    (filter_step rows volume_total acc cur).type_transaction.length
      = (filter_step rows volume_total acc cur).price_transaction.length := by
  have hp := price_step_lengths cur.order (each_order rows cur).enum (acc, volume_total) h
  unfold filter_step
  split_ifs
  · dsimp only
    split
    · split_ifs <;> exact hp
    · exact hp
  · simp [h]

theorem filter_lengths (rows : List Row) (volume_total : Nat → Int) (ex : List (Nat × Row))
    (acc : Transactions) (h : acc.type_transaction.length = acc.price_transaction.length) :
    (ex.foldl (fun acc ir => filter_step rows (volume_total ir.1) acc ir.2)
        acc).type_transaction.length
      = (ex.foldl (fun acc ir => filter_step rows (volume_total ir.1) acc ir.2)
        acc).price_transaction.length := by
  induction ex generalizing acc with
  | nil => exact h
  | cons ir rest ih =>
      rw [List.foldl_cons]
      exact ih _ (filter_step_lengths rows _ acc ir.2 h)

/-- Claim C25 fails in the code: `type_transaction` and `price_transaction` always have one
length, but the three vectors need not have the length of `index_EFT`.  For a table whose
only row is an execution in part, `index_EFT` has one element, `type_transaction` and
`price_transaction` have none; for an order whose execution is followed by a row of another
type with the same time, `volume_transaction` has none.  In both tables the loops after the
filter read past the end of a vector.  For a limit order executed in part and then in full
every vector has one element per executed row. -/
theorem C25_transaction_vectors_shorter :
    (∀ (c : Columns) (volume_total : Nat → Int),
      (transaction_filter c volume_total).type_transaction.length
        = (transaction_filter c volume_total).price_transaction.length) ∧
    (∀ volume_total : Nat → Int,
      lone_execution.same_size = true ∧
      index_EFT lone_execution = [0] ∧
      (transaction_filter lone_execution volume_total).type_transaction = [] ∧
      (transaction_filter lone_execution volume_total).price_transaction = [] ∧
      (transaction_filter lone_execution volume_total).volume_transaction = [100] ∧
      reads_inside lone_execution volume_total = false) ∧
    (∀ volume_total : Nat → Int,
      execution_then_delete.same_size = true ∧
      index_EFT execution_then_delete = [1] ∧
      (transaction_filter execution_then_delete volume_total).type_transaction = ["S"] ∧
      (transaction_filter execution_then_delete volume_total).price_transaction
        = [1500000] ∧
      (transaction_filter execution_then_delete volume_total).volume_transaction = [] ∧
      reads_inside execution_then_delete volume_total = false) ∧
    (∀ volume_total : Nat → Int,
      index_EFT filled_order = [1, 2] ∧
      (transaction_filter filled_order volume_total).type_transaction = ["S", "S"] ∧
      (transaction_filter filled_order volume_total).price_transaction
        = [1500000, 1500000] ∧
      (transaction_filter filled_order volume_total).volume_transaction = [40, 60] ∧
      reads_inside filled_order volume_total = true) := by
  refine ⟨?_, ?_, ?_, ?_⟩
  · intro c volume_total
    unfold transaction_filter
    split_ifs
    · exact filter_lengths _ _ _ _ rfl
    · rfl
  · intro volume_total
    exact ⟨by decide, by decide, rfl, rfl, rfl, rfl⟩
  · intro volume_total
    exact ⟨by decide, by decide, rfl, rfl, rfl, rfl⟩
  · intro volume_total
    exact ⟨by decide, rfl, rfl, rfl, rfl⟩

end tradesign
